import Mathlib

/-!
# Tension spline: fitting and evaluation

A shallow embedding of `include/tension_spline.cpp` (class `TensionSpline`:
constructor, `fit`, `eval_spline`, `eval_vector`, `error_handler`) and of the
second copy of the class in `src/tension_spline.cpp`.

Modelling conventions.

* A `double` is an exact number of an ordered field `K` or one of the IEEE-754
  special values `+inf`, `-inf`, `NaN`.  An operation whose exact result has an
  absolute value of at least `2^1024 - 2^970`, the overflow threshold of
  binary64 under rounding to nearest, yields the infinity of the sign of the
  result; division by zero and the operations on special values follow
  IEEE-754.  The rounding of a result that is in range, underflow included, and
  the sign of zero are not represented.  The input vectors, the queries and
  `tau` hold finite values.
* `std::sinh` and `std::cosh` belong to the C library; they are parameters of
  the embedding (`Libm`) and return a double, which may be an infinity.
  `realLibm` is the library of binary64 as far as the embedding represents it:
  the real hyperbolic functions with overflow, and with the values that the
  library returns on arguments close to zero.
* An `Eigen::VectorXd` is a list.  An Eigen call outside its documented
  precondition (a negative size, a coefficient access out of range, a
  reduction of an empty vector) has the outcome `undefined`: an assertion
  failure in a checked build, undefined behaviour otherwise.
* `A.inverse()` throws nothing.  On a matrix that is invertible and holds
  finite coefficients it is the inverse; on any other matrix the elimination
  divides by a zero pivot or propagates a special value, and the embedding
  takes `NaN` for every coefficient of the result.
* `throw std::invalid_argument` through `error_handler` is the outcome
  `thrown e`, where `e` is the error code.
-/

namespace TensionSpline

/-- Error codes of the class (`enum ERRORS`). -/
inductive ERRORS
  | T_AND_Y_MUST_HAVE_SAME_LENGTH
  | TAU_MUST_BE_POSITIVE
  | T_MUST_BE_STRICTLY_INCREASING
  | T_AND_Y_MUST_HAVE_AT_LEAST_3_ELEMENTS
  | TAU_IS_TOO_SMALL_OR_TOO_LARGE
  | SPLINE_HAS_NOT_BEEN_FITTED
  deriving DecidableEq, Repr

/-- Result of running a member function. -/
inductive Outcome (α : Type)
  | ok (a : α)
  | thrown (e : ERRORS)
  | undefined
  deriving DecidableEq, Repr

/-- The function `error_handler`: every code of the enumeration throws. -/
def error_handler {α : Type} (err : ERRORS) : Outcome α :=
  Outcome.thrown err

/-- A computed `double`: a finite value or an IEEE-754 special value. -/
inductive Dbl (K : Type)
  | fin (x : K)
  | pinf
  | ninf
  | nan
  deriving DecidableEq, Repr

/-- The C library functions used by the program. -/
structure Libm (K : Type) where
  /-- the function `std::sinh` on a finite argument -/
  sinh : K → Dbl K
  /-- the function `std::cosh` on a finite argument -/
  cosh : K → Dbl K

namespace Dbl

variable {K : Type} [LinearOrderedField K]

/-- The test `std::isnan`. -/
def isNaN : Dbl K → Bool
  | nan => true
  | _ => false

/-- The overflow threshold of binary64 under rounding to nearest: an exact
result of this absolute value or more becomes an infinity. -/
def overflowThreshold : K := 2 ^ 1024 - 2 ^ 970

/-- The infinity whose sign is the sign of `x`; `NaN` for zero. -/
def signedInf (x : K) : Dbl K :=
  if x = 0 then nan else if 0 < x then pinf else ninf

/-- The double that an operation returns when its exact result is `x`. -/
def ofExact (x : K) : Dbl K :=
  if overflowThreshold ≤ |x| then signedInf x else fin x

/-- The exact result `x` of an operation is below the overflow threshold. -/
def InRange (x : K) : Prop := |x| < overflowThreshold

/-- Negation. -/
def neg : Dbl K → Dbl K
  | fin x => fin (-x)
  | pinf => ninf
  | ninf => pinf
  | nan => nan

/-- Addition. -/
def add : Dbl K → Dbl K → Dbl K
  | fin x, fin y => ofExact (x + y)
  | fin _, pinf => pinf
  | fin _, ninf => ninf
  | pinf, fin _ => pinf
  | ninf, fin _ => ninf
  | pinf, pinf => pinf
  | ninf, ninf => ninf
  | pinf, ninf => nan
  | ninf, pinf => nan
  | nan, _ => nan
  | _, nan => nan

/-- Multiplication. -/
def mul : Dbl K → Dbl K → Dbl K
  | fin x, fin y => ofExact (x * y)
  | fin x, pinf => signedInf x
  | fin x, ninf => signedInf (-x)
  | pinf, fin y => signedInf y
  | ninf, fin y => signedInf (-y)
  | pinf, pinf => pinf
  | ninf, ninf => pinf
  | pinf, ninf => ninf
  | ninf, pinf => ninf
  | nan, _ => nan
  | _, nan => nan

/-- Division; a zero divisor counts as `+0`. -/
def div : Dbl K → Dbl K → Dbl K
  | fin x, fin y => if y = 0 then signedInf x else ofExact (x / y)
  | fin _, pinf => fin 0
  | fin _, ninf => fin 0
  | pinf, fin y => if 0 ≤ y then pinf else ninf
  | ninf, fin y => if 0 ≤ y then ninf else pinf
  | pinf, pinf => nan
  | ninf, ninf => nan
  | pinf, ninf => nan
  | ninf, pinf => nan
  | nan, _ => nan
  | _, nan => nan

/-- The comparison `<` of two doubles; it is false when an operand is `NaN`. -/
def lt : Dbl K → Dbl K → Bool
  | fin x, fin y => decide (x < y)
  | fin _, pinf => true
  | ninf, fin _ => true
  | ninf, pinf => true
  | _, _ => false

instance : Add (Dbl K) := ⟨add⟩
instance : Sub (Dbl K) := ⟨fun a b => add a (neg b)⟩
instance : Mul (Dbl K) := ⟨mul⟩
instance : Div (Dbl K) := ⟨div⟩

/-- The smaller of two doubles, as the visitor of `minCoeff` selects it:
`b` when `b < a`, and `a` otherwise. -/
instance : Min (Dbl K) := ⟨fun a b => if lt b a then b else a⟩

/-- The finite value held by a `double`, if it holds one. -/
def toFinite : Dbl K → Option K
  | fin x => some x
  | _ => none

/-- The finite value held by a `double`; zero for a special value. -/
def val (d : Dbl K) : K := d.toFinite.getD 0

end Dbl

namespace Libm

variable {K : Type} [LinearOrderedField K]

/-- The call `std::sinh` on a double: the sine of an infinity is that infinity. -/
def sinhD (lm : Libm K) : Dbl K → Dbl K
  | Dbl.fin x => lm.sinh x
  | Dbl.pinf => Dbl.pinf
  | Dbl.ninf => Dbl.ninf
  | Dbl.nan => Dbl.nan

/-- The call `std::cosh` on a double: the cosine of an infinity is `+inf`. -/
def coshD (lm : Libm K) : Dbl K → Dbl K
  | Dbl.fin x => lm.cosh x
  | Dbl.pinf => Dbl.pinf
  | Dbl.ninf => Dbl.pinf
  | Dbl.nan => Dbl.nan

/-- The number that `std::sinh` returns on `x`, when it returns a finite value. -/
def sinhValue (lm : Libm K) (x : K) : K := (lm.sinh x).val

/-- The number that `std::cosh` returns on `x`, when it returns a finite value. -/
def coshValue (lm : Libm K) (x : K) : K := (lm.cosh x).val

end Libm


section Vectors

variable {α : Type}

/-- The first `n` coefficients (`v.head(n)`). -/
def head (n : Nat) (v : List α) : List α := v.take n

/-- The last `n` coefficients (`v.tail(n)`). -/
def tail (n : Nat) (v : List α) : List α := v.drop (v.length - n)

/-- Coefficient-wise difference of two vectors. -/
def vsub [Sub α] (u v : List α) : List α := List.zipWith (fun a b => a - b) u v

/-- The reduction `v.minCoeff()`.  Eigen documents that the vector must not be
empty (an assertion is triggered otherwise): `none` for the empty vector. -/
def minCoeff [Min α] : List α → Option α
  | [] => none
  | a :: v => some (v.foldl min a)

/-- Assignment to a segment (`v.segment(start, w.size()) = w`). -/
def setSegment (v : List α) (start : Nat) (w : List α) : List α :=
  v.take start ++ w ++ v.drop (start + w.length)

end Vectors

section Matrices

variable {K : Type} [LinearOrderedField K] {m : Nat}

/-- Assignment to one coefficient of a matrix (`A(r, c) = v`). -/
def setCoeff (A : Matrix (Fin m) (Fin m) (Dbl K)) (r c : Nat) (v : Dbl K) :
    Matrix (Fin m) (Fin m) (Dbl K) :=
  fun i j => if i.val = r ∧ j.val = c then v else A i j

/-- The matrix `A.inverse()`.  When every coefficient of `A` is finite and the
determinant is not zero, it is the inverse of `A`, each coefficient being
subject to overflow; otherwise every coefficient of the result is `NaN`. -/
def inverse (A : Matrix (Fin m) (Fin m) (Dbl K)) : Matrix (Fin m) (Fin m) (Dbl K) :=
  if ∀ i j, (A i j).toFinite.isSome then
    let M : Matrix (Fin m) (Fin m) K := fun i j => (A i j).val
    if M.det = 0 then fun _ _ => Dbl.nan
    else fun i j => Dbl.ofExact ((M.det⁻¹ • M.adjugate) i j)
  else fun _ _ => Dbl.nan

/-- Product of a row of a matrix with a vector. -/
def rowDot (r : Fin m → Dbl K) (Y : List (Dbl K)) : Dbl K :=
  ((List.finRange m).map (fun j => r j * Y.getD j.val (Dbl.fin 0))).foldl
    (fun acc v => acc + v) (Dbl.fin 0)

/-- Product of a matrix with a vector. -/
def mulVec (M : Matrix (Fin m) (Fin m) (Dbl K)) (Y : List (Dbl K)) : List (Dbl K) :=
  List.ofFn (fun i => rowDot (M i) Y)

end Matrices

end TensionSpline

/-- The data members of the class. -/
structure TensionSpline (K : Type) where
  /-- abscissas of the knots -/
  t : List K
  /-- ordinates of the knots -/
  y : List K
  /-- tension parameter -/
  tau : K
  /-- moments, set by `fit` -/
  z : List (TensionSpline.Dbl K)
  /-- interval lengths, set by `fit` -/
  h : List (TensionSpline.Dbl K)
  /-- member `is_fitted`, initialised to `false` -/
  is_fitted : Bool

namespace TensionSpline

/-! ## The member functions -/

section Program

variable {K : Type} [LinearOrderedField K]

/-- Body of the loop of `fit` for one value of `row`: the three assignments to
`A(row, row-1)`, `A(row, row)` and `A(row, row+1)`.  The loop runs over
`1 ≤ row < n` and `a_`, `b_` have `n` coefficients, so every index is in range. -/
def fitRow {m : Nat} (a_ b_ : List (Dbl K)) (A : Matrix (Fin m) (Fin m) (Dbl K)) (row : Nat) :
    Matrix (Fin m) (Fin m) (Dbl K) :=
  let A1 := setCoeff A row (row - 1) (a_.getD (row - 1) Dbl.nan)
  let A2 := setCoeff A1 row row (b_.getD (row - 1) Dbl.nan + b_.getD row Dbl.nan)
  setCoeff A2 row (row + 1) (a_.getD row Dbl.nan)

/-- The system matrix built by `fit`: `Zero(n+1, n+1)`, then `A(0,0) = 1`,
`A(n,n) = 1` and the loop `for (row = 1; row < n; row++)`. -/
def systemMatrix (n : Nat) (a_ b_ : List (Dbl K)) : Matrix (Fin (n + 1)) (Fin (n + 1)) (Dbl K) :=
  let A0 : Matrix (Fin (n + 1)) (Fin (n + 1)) (Dbl K) := fun _ _ => Dbl.fin 0
  let A1 := setCoeff A0 0 0 (Dbl.fin 1)
  let A2 := setCoeff A1 n n (Dbl.fin 1)
  (List.range' 1 (n - 1)).foldl (fitRow a_ b_) A2

/-- The right-hand side built by `fit`: `Zero(n+1)`, then
`Y.segment(1,n-1) = g_.tail(n-1) - g_.head(n-1)`. -/
def rightHandSide (n : Nat) (g_ : List (Dbl K)) : List (Dbl K) :=
  setSegment (List.replicate (n + 1) (Dbl.fin 0)) 1 (vsub (tail (n - 1) g_) (head (n - 1) g_))

/-- The vector `g_` of `fit`: `pow(tau,2) * (y.tail(n) - y.head(n)) / h`,
coefficient by coefficient. -/
def fit_g (tau : K) (y : List K) (h : List (Dbl K)) (n : Nat) : List (Dbl K) :=
  List.zipWith (fun dy hi => Dbl.ofExact (tau ^ 2) * dy / hi)
    (vsub (tail n (y.map Dbl.fin)) (head n (y.map Dbl.fin))) h

/-- The vector `a_` of `fit`: `1 / h - tau / sinh(tau * h)`, coefficient by coefficient. -/
def fit_a (lm : Libm K) (tau : K) (h : List (Dbl K)) : List (Dbl K) :=
  h.map (fun hi => Dbl.fin 1 / hi - Dbl.fin tau / lm.sinhD (Dbl.fin tau * hi))

/-- The vector `b_` of `fit`: `tau * cosh(tau * h) / sinh(tau * h) - 1 / h`,
coefficient by coefficient. -/
def fit_b (lm : Libm K) (tau : K) (h : List (Dbl K)) : List (Dbl K) :=
  h.map (fun hi =>
    Dbl.fin tau * lm.coshD (Dbl.fin tau * hi) / lm.sinhD (Dbl.fin tau * hi) - Dbl.fin 1 / hi)

/-- The end of `fit`: the system `A`, `Y` and the moments `z = A.inverse() * Y`. -/
def fit_z (n : Nat) (a_ b_ g_ : List (Dbl K)) : List (Dbl K) :=
  mulVec (inverse (systemMatrix n a_ b_)) (rightHandSide n g_)

/-- The member function `fit`.  It runs on the object that the constructor has
initialised and returns the fitted object, or the way in which it fails. -/
def fit (lm : Libm K) (s : TensionSpline K) : Outcome (TensionSpline K) :=
  -- `int n = t.size()-1;` followed by `Zero(n)`: a negative size when `t` is empty
  if s.t.length = 0 then Outcome.undefined
  else
    let n := s.t.length - 1
    let t := s.t.map Dbl.fin
    -- the four checks, in the order of the source
    if s.t.length ≠ s.y.length then error_handler ERRORS.T_AND_Y_MUST_HAVE_SAME_LENGTH
    else if s.tau ≤ 0 then error_handler ERRORS.TAU_MUST_BE_POSITIVE
    else
      -- `(t.tail(n) - t.head(n)).minCoeff() < 0`
      match minCoeff (vsub (tail n t) (head n t)) with
      | none => Outcome.undefined
      | some d =>
        if Dbl.lt d (Dbl.fin 0) then error_handler ERRORS.T_MUST_BE_STRICTLY_INCREASING
        else if s.t.length < 3 then error_handler ERRORS.T_AND_Y_MUST_HAVE_AT_LEAST_3_ELEMENTS
        else
          let h := vsub (tail n t) (head n t)
          let g_ := fit_g s.tau s.y h n
          let a_ := fit_a lm s.tau h
          let b_ := fit_b lm s.tau h
          -- the guard `isNaN().any()` on `g_`, `a_` and `b_`
          if g_.any Dbl.isNaN || a_.any Dbl.isNaN || b_.any Dbl.isNaN then
            error_handler ERRORS.TAU_IS_TOO_SMALL_OR_TOO_LARGE
          else
            -- `z = A.inverse()*(Y); is_fitted = true;`
            Outcome.ok { s with h := h, z := fit_z n a_ b_ g_, is_fitted := true }

/-- The constructor `TensionSpline(t, y, tau)`: it stores its arguments and calls `fit`. -/
def new (lm : Libm K) (t y : List K) (tau : K) : Outcome (TensionSpline K) :=
  fit lm { t := t, y := y, tau := tau, z := [], h := [], is_fitted := false }

/-- The member function `fitted`. -/
def fitted (s : TensionSpline K) : Bool := s.is_fitted

/-- The member function `eval_spline`: the three terms of the basis formula on
interval `i`, the test `std::isnan` on each of them, and their sum.  Reading a
coefficient out of range is outside the precondition of the accessor. -/
def eval_spline (lm : Libm K) (s : TensionSpline K) (x : K) (i : Nat) : Outcome (Dbl K) :=
  match s.h[i]?, s.t[i]?, s.t[i + 1]?, s.y[i]?, s.y[i + 1]?, s.z[i]?, s.z[i + 1]? with
  | some hi, some ti, some ti1, some yi, some yi1, some zi, some zi1 =>
    let tau : Dbl K := Dbl.fin s.tau
    let sinh_tau_h := lm.sinhD (tau * hi)
    let sinh_tau_h_i := lm.sinhD (tau * (Dbl.fin ti1 - Dbl.fin x))
    let sinh_tau_h_ip1 := lm.sinhD (tau * (Dbl.fin x - Dbl.fin ti))
    let t1 := (zi * sinh_tau_h_i + zi1 * sinh_tau_h_ip1) / (tau * tau * sinh_tau_h)
    let t2 := (Dbl.fin yi - zi / (tau * tau)) * (Dbl.fin ti1 - Dbl.fin x) / hi
    let t3 := (Dbl.fin yi1 - zi1 / (tau * tau)) * (Dbl.fin x - Dbl.fin ti) / hi
    if t1.isNaN || t2.isNaN || t3.isNaN then error_handler ERRORS.TAU_IS_TOO_SMALL_OR_TOO_LARGE
    else Outcome.ok (t1 + t2 + t3)
  | _, _, _, _, _, _, _ => Outcome.undefined

/-- The cursor after the statement
`if ((i < this->t.size() - 2) && (t(j) > this->t(i+1))) i += 1;`
at the head of the loop body of `eval_vector`, for the query `x = t(j)`. -/
def advance (s : TensionSpline K) (i : Nat) (x : K) : Nat :=
  if hi : i + 2 < s.t.length then
    if x > s.t[i + 1] then i + 1 else i
  else i

/-- The loop `while (j < t.size())` of `eval_vector`, from cursor `i`, over the
queries still to be evaluated.  An exception of `eval_spline` is caught and
thrown again as `TAU_IS_TOO_SMALL_OR_TOO_LARGE`. -/
def eval_loop (lm : Libm K) (s : TensionSpline K) : Nat → List K → Outcome (List (Dbl K))
  | _, [] => Outcome.ok []
  | i, x :: xs =>
    match eval_spline lm s x (advance s i x) with
    | Outcome.ok v =>
      match eval_loop lm s (advance s i x) xs with
      | Outcome.ok vs => Outcome.ok (v :: vs)
      | Outcome.thrown e => Outcome.thrown e
      | Outcome.undefined => Outcome.undefined
    | Outcome.thrown _ => error_handler ERRORS.TAU_IS_TOO_SMALL_OR_TOO_LARGE
    | Outcome.undefined => Outcome.undefined

/-- The member function `eval_vector`; its argument `t` holds the queries. -/
def eval_vector (lm : Libm K) (s : TensionSpline K) (t : List K) : Outcome (List (Dbl K)) :=
  -- `int n = t.size()-1;` followed by `t.tail(n)`: a negative size when `t` is empty
  if t.length = 0 then Outcome.undefined
  else
    let n := t.length - 1
    let q := t.map Dbl.fin
    -- `(t.tail(n) - t.head(n)).minCoeff() < 0`
    match minCoeff (vsub (tail n q) (head n q)) with
    | none => Outcome.undefined
    | some d =>
      if Dbl.lt d (Dbl.fin 0) then error_handler ERRORS.T_MUST_BE_STRICTLY_INCREASING
      else if !s.is_fitted then error_handler ERRORS.SPLINE_HAS_NOT_BEEN_FITTED
      else eval_loop lm s 0 t

end Program

/-! ## The second copy of the class, `src/tension_spline.cpp`

The second copy has no error codes, no member `is_fitted` and no test of
`NaN`; its exceptions carry a message, represented here by the error code of
the first copy that has the same meaning.  It allocates the matrix `A` and the
vector `Y` without initialising them, and reads coefficients that it has not
written: what the storage holds is a parameter of the embedding. -/

/-- The content of the storage that the second copy reads before writing it. -/
structure Fresh (K : Type) where
  /-- content of the matrix declared by `Eigen::MatrixXd A(n + 1, n + 1)` -/
  A : Nat → Nat → Dbl K
  /-- content of the vector declared by `Eigen::VectorXd Y(n+1)` -/
  Y : Nat → Dbl K

/-- The data members of the second copy of the class. -/
structure SrcSpline (K : Type) where
  /-- abscissas of the knots -/
  t : List K
  /-- ordinates of the knots -/
  y : List K
  /-- tension parameter -/
  tau : K
  /-- moments, set by `fit` -/
  z : List (Dbl K)
  /-- interval lengths, set by `fit` -/
  h : List (Dbl K)

namespace Src

section Program

variable {K : Type} [LinearOrderedField K]

/-- Body of the loop of `fit` in the second copy: the three assignments of the
row, then `A(0,0) = 1` and `A(n,n) = 1`. -/
def loopBody {m : Nat} (n : Nat) (a_ b_ : List (Dbl K)) (A : Matrix (Fin m) (Fin m) (Dbl K))
    (row : Nat) : Matrix (Fin m) (Fin m) (Dbl K) :=
  setCoeff (setCoeff (fitRow a_ b_ A row) 0 0 (Dbl.fin 1)) n n (Dbl.fin 1)

/-- The system matrix of the second copy: the storage as it is found, then the
loop `for (row = 1; row < n; row++)`. -/
def systemMatrix (fr : Fresh K) (n : Nat) (a_ b_ : List (Dbl K)) :
    Matrix (Fin (n + 1)) (Fin (n + 1)) (Dbl K) :=
  (List.range' 1 (n - 1)).foldl (loopBody n a_ b_) (fun i j => fr.A i.val j.val)

/-- The right-hand side of the second copy: the storage as it is found, then
`Y.segment(1,n-1) = g_.tail(n-1) - g_.head(n-1)`. -/
def rightHandSide (fr : Fresh K) (n : Nat) (g_ : List (Dbl K)) : List (Dbl K) :=
  setSegment (List.ofFn (fun i : Fin (n + 1) => fr.Y i.val)) 1
    (vsub (tail (n - 1) g_) (head (n - 1) g_))

/-- The vector `g_` of the second copy: `pow(tau,2) * (y.tail(n) - y.head(n))`,
without the division by `h`. -/
def fit_g (tau : K) (y : List K) (n : Nat) : List (Dbl K) :=
  (vsub (tail n (y.map Dbl.fin)) (head n (y.map Dbl.fin))).map
    (fun dy => Dbl.ofExact (tau ^ 2) * dy)

/-- The call `A.colPivHouseholderQr().solve(Y)`, represented as the product of
the inverse of `A` with `Y`: the solution of the system when `A` is invertible
and holds finite coefficients, `NaN` otherwise. -/
def solve {m : Nat} (A : Matrix (Fin m) (Fin m) (Dbl K)) (Y : List (Dbl K)) : List (Dbl K) :=
  mulVec (inverse A) Y

/-- The member function `fit` of the second copy. -/
def fit (fr : Fresh K) (lm : Libm K) (s : SrcSpline K) : Outcome (SrcSpline K) :=
  -- `int n = t.size()-1;` followed by `Eigen::VectorXd a_(n)`: a negative size when `t` is empty
  if s.t.length = 0 then Outcome.undefined
  else
    let n := s.t.length - 1
    let t := s.t.map Dbl.fin
    if s.t.length ≠ s.y.length then Outcome.thrown ERRORS.T_AND_Y_MUST_HAVE_SAME_LENGTH
    else if s.tau ≤ 0 then Outcome.thrown ERRORS.TAU_MUST_BE_POSITIVE
    else
      match minCoeff (vsub (tail n t) (head n t)) with
      | none => Outcome.undefined
      | some d =>
        if Dbl.lt d (Dbl.fin 0) then Outcome.thrown ERRORS.T_MUST_BE_STRICTLY_INCREASING
        else if s.t.length < 3 then
          Outcome.thrown ERRORS.T_AND_Y_MUST_HAVE_AT_LEAST_3_ELEMENTS
        else
          let h := vsub (tail n t) (head n t)
          let g_ := fit_g s.tau s.y n
          let a_ := fit_a lm s.tau h
          let b_ := fit_b lm s.tau h
          -- `z = A.colPivHouseholderQr().solve(Y);`
          let z := solve (systemMatrix fr n a_ b_) (rightHandSide fr n g_)
          Outcome.ok { s with h := h, z := z }

/-- The constructor of the second copy: it stores its arguments and calls `fit`. -/
def new (fr : Fresh K) (lm : Libm K) (t y : List K) (tau : K) : Outcome (SrcSpline K) :=
  fit fr lm { t := t, y := y, tau := tau, z := [], h := [] }

/-- The member function `eval_spline` of the second copy: the sum of the three
terms, without a test of `NaN`. -/
def eval_spline (lm : Libm K) (s : SrcSpline K) (x : K) (i : Nat) : Outcome (Dbl K) :=
  match s.h[i]?, s.t[i]?, s.t[i + 1]?, s.y[i]?, s.y[i + 1]?, s.z[i]?, s.z[i + 1]? with
  | some hi, some ti, some ti1, some yi, some yi1, some zi, some zi1 =>
    let tau : Dbl K := Dbl.fin s.tau
    let sinh_tau_h := lm.sinhD (tau * hi)
    let sinh_tau_h_i := lm.sinhD (tau * (Dbl.fin ti1 - Dbl.fin x))
    let sinh_tau_h_ip1 := lm.sinhD (tau * (Dbl.fin x - Dbl.fin ti))
    let t1 := (zi * sinh_tau_h_i + zi1 * sinh_tau_h_ip1) / (tau * tau * sinh_tau_h)
    let t2 := (Dbl.fin yi - zi / (tau * tau)) * (Dbl.fin ti1 - Dbl.fin x) / hi
    let t3 := (Dbl.fin yi1 - zi1 / (tau * tau)) * (Dbl.fin x - Dbl.fin ti) / hi
    Outcome.ok (t1 + t2 + t3)
  | _, _, _, _, _, _, _ => Outcome.undefined

/-- The cursor after the test at the head of the loop body of `eval_vector`. -/
def advance (s : SrcSpline K) (i : Nat) (x : K) : Nat :=
  if hi : i + 2 < s.t.length then
    if x > s.t[i + 1] then i + 1 else i
  else i

/-- The loop `while (j < t.size())` of `eval_vector` in the second copy. -/
def eval_loop (lm : Libm K) (s : SrcSpline K) : Nat → List K → Outcome (List (Dbl K))
  | _, [] => Outcome.ok []
  | i, x :: xs =>
    match eval_spline lm s x (advance s i x) with
    | Outcome.ok v =>
      match eval_loop lm s (advance s i x) xs with
      | Outcome.ok vs => Outcome.ok (v :: vs)
      | Outcome.thrown e => Outcome.thrown e
      | Outcome.undefined => Outcome.undefined
    | Outcome.thrown e => Outcome.thrown e
    | Outcome.undefined => Outcome.undefined

/-- The member function `eval_vector` of the second copy. -/
def eval_vector (lm : Libm K) (s : SrcSpline K) (t : List K) : Outcome (List (Dbl K)) :=
  if t.length = 0 then Outcome.undefined
  else
    let n := t.length - 1
    let q := t.map Dbl.fin
    match minCoeff (vsub (tail n q) (head n q)) with
    | none => Outcome.undefined
    | some d =>
      if Dbl.lt d (Dbl.fin 0) then Outcome.thrown ERRORS.T_MUST_BE_STRICTLY_INCREASING
      else eval_loop lm s 0 t

end Program

end Src

/-- Storage that holds zero everywhere. -/
def zeroFresh (K : Type) [LinearOrderedField K] : Fresh K :=
  { A := fun _ _ => Dbl.fin 0, Y := fun _ => Dbl.fin 0 }

/-! ## The quantities of the specification -/

section Specification

variable {K : Type} [LinearOrderedField K]

/-- Consecutive differences of a vector: `v_{i+1} - v_i`. -/
def diffs {α : Type} [Sub α] : List α → List α
  | [] => []
  | [_] => []
  | a :: b :: r => (b - a) :: diffs (b :: r)

/-- The knots are strictly increasing. -/
def StrictlyIncreasing (t : List K) : Prop := List.Chain' (fun a b => a < b) t

/-- The queries are non-decreasing. -/
def NonDecreasing (t : List K) : Prop := List.Chain' (fun a b => a ≤ b) t

/-- The input passes validation: equal lengths, positive tension, strictly
increasing knots, at least three knots. -/
def ValidInput (t y : List K) (tau : K) : Prop :=
  t.length = y.length ∧ 0 < tau ∧ StrictlyIncreasing t ∧ 3 ≤ t.length

/-- A number of moderate magnitude: at most `2^100` in absolute value.  Sums
and products of a few numbers of moderate magnitude are far below the overflow
threshold. -/
def Moderate (x : K) : Prop := |x| ≤ 2 ^ 100

/-- Interval length `h_i = t_{i+1} - t_i`. -/
def hSpec (t : List K) (i : Nat) : K := t.getD (i + 1) 0 - t.getD i 0

/-- The tension and the ordinates are of moderate magnitude, and the tension is
not too close to zero. -/
def ModerateData (tau : K) (y : List K) : Prop :=
  Moderate tau ∧ Moderate tau⁻¹ ∧ ∀ v ∈ y, Moderate v

/-- Interval `i` is regular for the library: its length `h_i` is not zero, `h_i`
and `1/h_i` are of moderate magnitude, and at `tau h_i` the library returns finite
values of moderate magnitude, with a hyperbolic sine that is not zero and whose
inverse is of moderate magnitude. -/
def RegularInterval (lm : Libm K) (tau : K) (t : List K) (i : Nat) : Prop :=
  hSpec t i ≠ 0 ∧ Moderate (hSpec t i) ∧ Moderate (hSpec t i)⁻¹ ∧
  ∃ S C : K, lm.sinh (tau * hSpec t i) = Dbl.fin S ∧ lm.cosh (tau * hSpec t i) = Dbl.fin C ∧
    S ≠ 0 ∧ Moderate S ∧ Moderate S⁻¹ ∧ Moderate C

/-- The query `x` is regular for interval `i`: its distances to the two knots of
the interval are of moderate magnitude, and the library returns finite values
of moderate magnitude for the hyperbolic sine at `tau (t_{i+1} - x)` and at
`tau (x - t_i)`. -/
def RegularQuery (lm : Libm K) (tau : K) (t : List K) (i : Nat) (x : K) : Prop :=
  Moderate (t.getD (i + 1) 0 - x) ∧ Moderate (x - t.getD i 0) ∧
  ∃ s1 s2 : K, lm.sinh (tau * (t.getD (i + 1) 0 - x)) = Dbl.fin s1 ∧
    lm.sinh (tau * (x - t.getD i 0)) = Dbl.fin s2 ∧ Moderate s1 ∧ Moderate s2

/-- Scaled slope `g_i = tau^2 (y_{i+1} - y_i) / h_i`. -/
def gSpec (tau : K) (t y : List K) (i : Nat) : K :=
  tau ^ 2 * (y.getD (i + 1) 0 - y.getD i 0) / hSpec t i

/-- Coefficient `a_i = 1/h_i - tau / sinh(tau h_i)`, with the value that the
library returns for the hyperbolic sine. -/
def aSpec (lm : Libm K) (tau : K) (t : List K) (i : Nat) : K :=
  1 / hSpec t i - tau / lm.sinhValue (tau * hSpec t i)

/-- Coefficient `b_i = tau cosh(tau h_i) / sinh(tau h_i) - 1/h_i`, with the
values that the library returns for the hyperbolic functions. -/
def bSpec (lm : Libm K) (tau : K) (t : List K) (i : Nat) : K :=
  tau * lm.coshValue (tau * hSpec t i) / lm.sinhValue (tau * hSpec t i) - 1 / hSpec t i

/-- The system matrix as the specification states it: `A[0,0] = A[n,n] = 1`,
`A[r,r-1] = a_{r-1}`, `A[r,r] = b_{r-1} + b_r`, `A[r,r+1] = a_r` for
`r = 1..n-1`, zero elsewhere. -/
def ASpec (lm : Libm K) (tau : K) (t : List K) (n : Nat) : Matrix (Fin (n + 1)) (Fin (n + 1)) K :=
  fun r c =>
    if r.val = 0 then (if c.val = 0 then 1 else 0)
    else if r.val = n then (if c.val = n then 1 else 0)
    else if c.val + 1 = r.val then aSpec lm tau t (r.val - 1)
    else if c.val = r.val then bSpec lm tau t (r.val - 1) + bSpec lm tau t r.val
    else if c.val = r.val + 1 then aSpec lm tau t r.val
    else 0

/-- The right-hand side as the specification states it: `Y[0] = Y[n] = 0`,
`Y[i] = g_i - g_{i-1}` for `i = 1..n-1`. -/
def YSpec (tau : K) (t y : List K) (n : Nat) : Fin (n + 1) → K :=
  fun i => if i.val = 0 ∨ i.val = n then 0 else gSpec tau t y i.val - gSpec tau t y (i.val - 1)

/-- The moments as the specification states them: the solution of `A z = Y`,
computed with the inverse of `A`. -/
def zSpec (lm : Libm K) (tau : K) (t y : List K) (n : Nat) : Fin (n + 1) → K :=
  ((ASpec lm tau t n).det⁻¹ • (ASpec lm tau t n).adjugate).mulVec (YSpec tau t y n)

/-- The moment `z_i` of the specification, indexed by a natural number. -/
def zAt (lm : Libm K) (tau : K) (t y : List K) (n : Nat) (i : Nat) : K :=
  if h : i < n + 1 then zSpec lm tau t y n ⟨i, h⟩ else 0

/-- The basis formula of the specification for a query `x` and the interval `i`:
`term1 + term2 + term3`. -/
def splineSpec (lm : Libm K) (tau : K) (t y : List K) (n : Nat) (i : Nat) (x : K) : K :=
  (zAt lm tau t y n i * lm.sinhValue (tau * (t.getD (i + 1) 0 - x))
      + zAt lm tau t y n (i + 1) * lm.sinhValue (tau * (x - t.getD i 0)))
    / (tau * tau * lm.sinhValue (tau * hSpec t i))
  + (y.getD i 0 - zAt lm tau t y n i / (tau * tau)) * (t.getD (i + 1) 0 - x) / hSpec t i
  + (y.getD (i + 1) 0 - zAt lm tau t y n (i + 1) / (tau * tau)) * (x - t.getD i 0) / hSpec t i

/-- The fitted model as the specification states it: the tuple `(t, y, tau, h, z)`
with the fitted flag set. -/
def modelSpec (lm : Libm K) (t y : List K) (tau : K) (n : Nat) : TensionSpline K :=
  { t := t, y := y, tau := tau,
    z := List.ofFn (fun i => Dbl.fin (zSpec lm tau t y n i)),
    h := (diffs t).map Dbl.fin, is_fitted := true }

/-- The values that the loop of `eval_vector` produces from cursor `i`: each
query is evaluated with the basis formula of the interval that the cursor
designates after the test at the head of the loop body. -/
def loopSpec (lm : Libm K) (tau : K) (t y : List K) (n : Nat) : Nat → List K → List K
  | _, [] => []
  | i, x :: xs =>
    splineSpec lm tau t y n (advance (modelSpec lm t y tau n) i x) x
      :: loopSpec lm tau t y n (advance (modelSpec lm t y tau n) i x) xs

/-- The successive values of the cursor in the loop of `eval_vector`, from cursor
`i`: the value with which `eval_spline` is called for each query. -/
def cursors (s : TensionSpline K) : Nat → List K → List Nat
  | _, [] => []
  | i, x :: xs => advance s i x :: cursors s (advance s i x) xs

end Specification

/-- The C library of binary64, as far as the embedding represents it.  On an
argument of absolute value below `2^-28` the library returns the argument for
`sinh` and `1` for `cosh` (these are the nearest doubles); elsewhere it returns
the real hyperbolic sine and cosine, or an infinity when they overflow (from
an argument of about `710.5` on). -/
noncomputable def realLibm : Libm ℝ :=
  { sinh := fun x => if |x| < 1 / 2 ^ 28 then Dbl.fin x else Dbl.ofExact (Real.sinh x)
    cosh := fun x => if |x| < 1 / 2 ^ 28 then Dbl.fin 1 else Dbl.ofExact (Real.cosh x) }

/-- The model fitted to the knots `(0,1), (1,0), (2,0), (3,0)` with tension `1`. -/
noncomputable def exampleSpline : TensionSpline ℝ :=
  modelSpec realLibm [0, 1, 2, 3] [1, 0, 0, 0] 1 3

/-- The right-hand side that the second copy builds, in storage that holds zero,
for the knots `(0,0), (1,1), (3,3)` and tension `1`: `g = (1, 2)`. -/
def srcExampleY : Fin (2 + 1) → ℝ := fun j => if j.val = 1 then 1 else 0

/-- The moments that the second copy computes for the knots `(0,0), (1,1), (3,3)`
and tension `1`, in storage that holds zero. -/
noncomputable def srcExampleZ : Fin (2 + 1) → ℝ :=
  ((ASpec realLibm 1 [0, 1, 3] 2).det⁻¹ • (ASpec realLibm 1 [0, 1, 3] 2).adjugate).mulVec
    srcExampleY

/-- The object that the second copy constructs from the knots `(0,0), (1,1), (3,3)`
and tension `1`, in storage that holds zero. -/
noncomputable def srcExample : SrcSpline ℝ :=
  { t := [0, 1, 3], y := [0, 1, 3], tau := 1,
    z := List.ofFn (fun i => Dbl.fin (srcExampleZ i)), h := (diffs [0, 1, 3]).map Dbl.fin }

/-! ## Arithmetic of doubles -/

section Arithmetic

variable {K : Type} [LinearOrderedField K]

theorem Dbl.pow_lt_overflowThreshold (p : Nat) (hp : p ≤ 1023) :
    (2 : K) ^ p < Dbl.overflowThreshold := by
  have h1 : (2 : K) ^ p ≤ 2 ^ 1023 := pow_le_pow_right₀ (by norm_num) hp
  have h2 : (2 : K) ^ 970 < 2 ^ 1023 := pow_lt_pow_right₀ (by norm_num) (by norm_num)
  have h3 : (2 : K) ^ 1024 = 2 * 2 ^ 1023 := by rw [← pow_succ']
  unfold Dbl.overflowThreshold
  rw [h3]
  linarith

theorem Dbl.overflowThreshold_pos : (0 : K) < Dbl.overflowThreshold :=
  lt_trans (by positivity) (Dbl.pow_lt_overflowThreshold 0 (by norm_num))

theorem Dbl.inRange_of_abs_le {x : K} (p : Nat) (h : |x| ≤ 2 ^ p) (hp : p ≤ 1023) :
    Dbl.InRange x :=
  lt_of_le_of_lt h (Dbl.pow_lt_overflowThreshold p hp)

theorem Dbl.inRange_zero : Dbl.InRange (0 : K) := by
  unfold Dbl.InRange
  rw [abs_zero]
  exact Dbl.overflowThreshold_pos

theorem Dbl.inRange_one : Dbl.InRange (1 : K) :=
  Dbl.inRange_of_abs_le 0 (by simp) (by norm_num)

theorem Dbl.inRange_neg {x : K} (h : Dbl.InRange x) : Dbl.InRange (-x) := by
  unfold Dbl.InRange at h ⊢
  rwa [abs_neg]

theorem Dbl.ofExact_eq {x : K} (h : Dbl.InRange x) : Dbl.ofExact x = Dbl.fin x := by
  unfold Dbl.ofExact
  rw [if_neg (not_le.2 h)]

theorem Dbl.ofExact_zero : Dbl.ofExact (0 : K) = Dbl.fin 0 := Dbl.ofExact_eq Dbl.inRange_zero

/-- An exact result at or above the threshold becomes the infinity of its sign. -/
theorem Dbl.ofExact_overflow {x : K} (h : Dbl.overflowThreshold ≤ x) :
    Dbl.ofExact x = Dbl.pinf := by
  have hx : 0 < x := lt_of_lt_of_le Dbl.overflowThreshold_pos h
  unfold Dbl.ofExact Dbl.signedInf
  rw [abs_of_pos hx, if_pos h, if_neg (ne_of_gt hx), if_pos hx]

/-- An operation never turns an exact result into `NaN`. -/
theorem Dbl.isNaN_ofExact (x : K) : (Dbl.ofExact x).isNaN = false := by
  unfold Dbl.ofExact
  by_cases h : Dbl.overflowThreshold ≤ |x|
  · have hx : x ≠ 0 := by
      intro h0
      rw [h0, abs_zero] at h
      exact absurd h (not_le.2 Dbl.overflowThreshold_pos)
    rw [if_pos h]
    unfold Dbl.signedInf
    rw [if_neg hx]
    split_ifs <;> rfl
  · rw [if_neg h]
    rfl

theorem Dbl.fin_add_fin {x y : K} (h : Dbl.InRange (x + y)) :
    (Dbl.fin x + Dbl.fin y : Dbl K) = Dbl.fin (x + y) :=
  Dbl.ofExact_eq h

theorem Dbl.fin_sub_fin {x y : K} (h : Dbl.InRange (x - y)) :
    (Dbl.fin x - Dbl.fin y : Dbl K) = Dbl.fin (x - y) := by
  show Dbl.ofExact (x + -y) = _
  rw [← sub_eq_add_neg]
  exact Dbl.ofExact_eq h

theorem Dbl.fin_sub_fin_eq (x y : K) :
    (Dbl.fin x - Dbl.fin y : Dbl K) = Dbl.ofExact (x - y) := by
  show Dbl.ofExact (x + -y) = _
  rw [← sub_eq_add_neg]

theorem Dbl.fin_mul_fin {x y : K} (h : Dbl.InRange (x * y)) :
    (Dbl.fin x * Dbl.fin y : Dbl K) = Dbl.fin (x * y) :=
  Dbl.ofExact_eq h

theorem Dbl.fin_mul_fin_eq (x y : K) :
    (Dbl.fin x * Dbl.fin y : Dbl K) = Dbl.ofExact (x * y) := rfl

theorem Dbl.fin_div_fin {x y : K} (hy : y ≠ 0) (h : Dbl.InRange (x / y)) :
    (Dbl.fin x / Dbl.fin y : Dbl K) = Dbl.fin (x / y) := by
  show Dbl.div (Dbl.fin x) (Dbl.fin y) = _
  simp only [Dbl.div, hy, if_false]
  exact Dbl.ofExact_eq h

theorem Dbl.fin_div_zero (x : K) : (Dbl.fin x / Dbl.fin 0 : Dbl K) = Dbl.signedInf x := by
  show Dbl.div (Dbl.fin x) (Dbl.fin 0) = _
  simp [Dbl.div]

omit [LinearOrderedField K] in
@[simp] theorem Dbl.isNaN_fin (x : K) : (Dbl.fin x : Dbl K).isNaN = false := rfl

theorem Dbl.mul_nan (a : Dbl K) : (a * Dbl.nan : Dbl K) = Dbl.nan := by
  show Dbl.mul a Dbl.nan = _
  cases a <;> rfl

theorem Dbl.nan_add (a : Dbl K) : (Dbl.nan + a : Dbl K) = Dbl.nan := by
  show Dbl.add Dbl.nan a = _
  cases a <;> rfl

theorem abs_mul_le_pow {a b : K} {p q : Nat} (ha : |a| ≤ 2 ^ p) (hb : |b| ≤ 2 ^ q) :
    |a * b| ≤ 2 ^ (p + q) := by
  rw [abs_mul, pow_add]
  exact mul_le_mul ha hb (abs_nonneg _) (by positivity)

theorem abs_add_le_pow {a b : K} {p : Nat} (ha : |a| ≤ 2 ^ p) (hb : |b| ≤ 2 ^ p) :
    |a + b| ≤ 2 ^ (p + 1) := by
  rw [pow_succ]
  linarith [abs_add a b]

theorem abs_sub_le_pow {a b : K} {p : Nat} (ha : |a| ≤ 2 ^ p) (hb : |b| ≤ 2 ^ p) :
    |a - b| ≤ 2 ^ (p + 1) := by
  rw [pow_succ]
  linarith [abs_sub a b]

theorem abs_le_pow_mono {a : K} {p q : Nat} (ha : |a| ≤ 2 ^ p) (hpq : p ≤ q) : |a| ≤ 2 ^ q :=
  le_trans ha (pow_le_pow_right₀ (by norm_num) hpq)

theorem abs_div_le_pow {a b : K} {p q : Nat} (ha : |a| ≤ 2 ^ p) (hb : |b⁻¹| ≤ 2 ^ q) :
    |a / b| ≤ 2 ^ (p + q) := by
  rw [div_eq_mul_inv]
  exact abs_mul_le_pow ha hb

end Arithmetic

/-! ## Differences of a vector and the reduction `minCoeff` -/

section Basics

variable {K : Type} [LinearOrderedField K]

theorem zipWith_sub_take {α : Type} (f : α → α → α) (u t : List α) (n : Nat) (h : u.length ≤ n) :
    List.zipWith f u (t.take n) = List.zipWith f u t := by
  induction u generalizing t n with
  | nil => simp
  | cons a u ih =>
    cases t with
    | nil => simp
    | cons b t =>
      cases n with
      | zero => simp at h
      | succ n =>
        simp only [List.take_succ_cons, List.zipWith_cons_cons]
        rw [ih t n (by simpa using h)]

theorem zipWith_tail_eq_diffs {α : Type} [Sub α] (t : List α) :
    List.zipWith (fun a b => a - b) t.tail t = diffs t := by
  induction t with
  | nil => rfl
  | cons a t ih =>
    cases t with
    | nil => rfl
    | cons b r =>
      simp only [List.tail_cons, List.zipWith_cons_cons, diffs] at ih ⊢
      rw [← ih]

theorem vsub_tail_head {α : Type} [Sub α] (t : List α) :
    vsub (tail (t.length - 1) t) (head (t.length - 1) t) = diffs t := by
  unfold vsub tail head
  have h1 : t.length - (t.length - 1) = 1 ∨ t = [] := by
    cases t with
    | nil => right; rfl
    | cons a t => left; simp
  rcases h1 with h1 | h1
  · rw [h1, List.drop_one, zipWith_sub_take _ _ _ _ (by simp), zipWith_tail_eq_diffs]
  · subst h1; rfl

theorem length_diffs {α : Type} [Sub α] (t : List α) : (diffs t).length = t.length - 1 := by
  rw [← zipWith_tail_eq_diffs]; simp

theorem getElem_diffs {α : Type} [Sub α] (t : List α) (i : Nat) (hi : i + 1 < t.length) (hd : i < (diffs t).length) :
    (diffs t)[i] = t[i + 1] - t[i] := by
  induction t generalizing i with
  | nil => simp at hi
  | cons a t ih =>
    cases t with
    | nil => simp at hi
    | cons b r =>
      cases i with
      | zero => simp [diffs]
      | succ i =>
        simp only [diffs, List.getElem_cons_succ]
        exact ih i (by simpa using hi) _

/-- The differences that the program computes are the exact differences, each
subject to overflow. -/
theorem diffs_map_fin (t : List K) : diffs (t.map Dbl.fin) = (diffs t).map Dbl.ofExact := by
  induction t with
  | nil => rfl
  | cons a t ih =>
    cases t with
    | nil => rfl
    | cons b r =>
      simp only [List.map_cons, diffs] at ih ⊢
      rw [ih, Dbl.fin_sub_fin_eq]

/-- The differences that the program computes, in the form in which `fit` and
`eval_vector` write them. -/
theorem vsub_map_fin (t : List K) :
    vsub (tail (t.length - 1) (t.map Dbl.fin)) (head (t.length - 1) (t.map Dbl.fin))
      = (diffs t).map Dbl.ofExact := by
  have h := vsub_tail_head (t.map Dbl.fin)
  rw [List.length_map] at h
  rw [h, diffs_map_fin]

theorem getD_diffs (t : List K) (i : Nat) (hi : i + 1 < t.length) (d : K) :
    (diffs t).getD i d = hSpec t i := by
  have hd : i < (diffs t).length := by rw [length_diffs]; omega
  have hi0 : i < t.length := by omega
  rw [List.getD_eq_getElem _ _ hd, getElem_diffs t i hi hd]
  simp [hSpec, List.getD_eq_getElem, hi, hi0]

theorem mem_diffs (t : List K) (d : K) (hd : d ∈ diffs t) :
    ∃ i, i + 1 < t.length ∧ d = hSpec t i := by
  obtain ⟨i, hi, rfl⟩ := List.mem_iff_getElem.1 hd
  have hi2 : i + 1 < t.length := by rw [length_diffs] at hi; omega
  refine ⟨i, hi2, ?_⟩
  rw [← getD_diffs t i hi2 0, List.getD_eq_getElem _ _ hi]

theorem hSpec_mem_diffs (t : List K) (i : Nat) (hi : i + 1 < t.length) : hSpec t i ∈ diffs t := by
  have hd : i < (diffs t).length := by rw [length_diffs]; omega
  rw [← getD_diffs t i hi 0, List.getD_eq_getElem _ _ hd]
  exact List.getElem_mem _

/-- The test `< 0` on a computed difference is the test on the exact difference:
an overflow keeps the sign. -/
theorem Dbl.lt_ofExact_zero (x : K) : Dbl.lt (Dbl.ofExact x) (Dbl.fin 0) = decide (x < 0) := by
  unfold Dbl.ofExact
  by_cases h : Dbl.overflowThreshold ≤ |x|
  · rw [if_pos h]
    have hx : x ≠ 0 := by
      intro h0
      rw [h0, abs_zero] at h
      exact absurd h (not_le.2 Dbl.overflowThreshold_pos)
    unfold Dbl.signedInf
    rw [if_neg hx]
    by_cases hp : 0 < x
    · rw [if_pos hp]
      simp [Dbl.lt, not_lt.2 hp.le]
    · rw [if_neg hp]
      have : x < 0 := lt_of_le_of_ne (not_lt.1 hp) hx
      simp [Dbl.lt, this]
  · rw [if_neg h]
    rfl

theorem Dbl.min_def (a b : Dbl K) : min a b = if Dbl.lt b a then b else a := rfl

/-- The smaller of two doubles that are not `NaN` is negative exactly when one
of them is, and it is not `NaN`. -/
theorem Dbl.min_lt_zero (a b : Dbl K) (ha : a.isNaN = false) (hb : b.isNaN = false) :
    (min a b).isNaN = false ∧
    (Dbl.lt (min a b) (Dbl.fin 0) = true
      ↔ Dbl.lt a (Dbl.fin 0) = true ∨ Dbl.lt b (Dbl.fin 0) = true) := by
  rw [Dbl.min_def]
  cases a with
  | nan => cases ha
  | fin x =>
    cases b with
    | nan => cases hb
    | fin y =>
      by_cases hxy : y < x
      · have e : Dbl.lt (Dbl.fin y) (Dbl.fin x) = true := by simp [Dbl.lt, hxy]
        rw [e, if_pos rfl]
        simp only [Dbl.isNaN, Dbl.lt, decide_eq_true_eq, true_and]
        constructor
        · intro h; exact Or.inr h
        · rintro (h | h)
          · exact lt_trans hxy h
          · exact h
      · have e : Dbl.lt (Dbl.fin y) (Dbl.fin x) = false := by simp [Dbl.lt, hxy]
        rw [e, if_neg (by simp)]
        simp only [Dbl.isNaN, Dbl.lt, decide_eq_true_eq, true_and]
        constructor
        · intro h; exact Or.inl h
        · rintro (h | h)
          · exact h
          · exact lt_of_le_of_lt (not_lt.1 hxy) h
    | pinf => simp [Dbl.lt, Dbl.isNaN]
    | ninf => simp [Dbl.lt, Dbl.isNaN]
  | pinf =>
    cases b with
    | nan => cases hb
    | fin y => simp [Dbl.lt, Dbl.isNaN]
    | pinf => simp [Dbl.lt, Dbl.isNaN]
    | ninf => simp [Dbl.lt, Dbl.isNaN]
  | ninf =>
    cases b with
    | nan => cases hb
    | fin y => simp [Dbl.lt, Dbl.isNaN]
    | pinf => simp [Dbl.lt, Dbl.isNaN]
    | ninf => simp [Dbl.lt, Dbl.isNaN]

theorem foldl_min_lt_zero (v : List (Dbl K)) (a : Dbl K) (ha : a.isNaN = false)
    (hv : ∀ x ∈ v, Dbl.isNaN x = false) :
    Dbl.lt (v.foldl min a) (Dbl.fin 0) = true
      ↔ Dbl.lt a (Dbl.fin 0) = true ∨ ∃ x ∈ v, Dbl.lt x (Dbl.fin 0) = true := by
  induction v generalizing a with
  | nil => simp
  | cons b v ih =>
    have hb := hv b (List.mem_cons_self _ _)
    have h1 := Dbl.min_lt_zero a b ha hb
    rw [List.foldl_cons, ih (min a b) h1.1 (fun x hx => hv x (List.mem_cons_of_mem _ hx)), h1.2]
    simp only [List.mem_cons, exists_eq_or_imp]
    tauto

omit [LinearOrderedField K] in
theorem minCoeff_eq_none {α : Type} [Min α] (v : List α) : minCoeff v = none ↔ v = [] := by
  cases v <;> simp [minCoeff]

/-- The test `minCoeff() < 0` on the computed differences of a vector of finite
values fires exactly when an exact difference is negative. -/
theorem minCoeff_diffs_lt (t : List K) (d : Dbl K)
    (h : minCoeff ((diffs t).map Dbl.ofExact) = some d) :
    Dbl.lt d (Dbl.fin 0) = true ↔ ∃ x ∈ diffs t, x < 0 := by
  cases hv : diffs t with
  | nil => rw [hv] at h; simp [minCoeff] at h
  | cons a v =>
    rw [hv] at h
    simp only [List.map_cons, minCoeff, Option.some.injEq] at h
    subst h
    rw [foldl_min_lt_zero _ _ (Dbl.isNaN_ofExact a)]
    · simp only [Dbl.lt_ofExact_zero, decide_eq_true_eq, List.mem_map, List.mem_cons,
        exists_eq_or_imp]
      constructor
      · rintro (h | ⟨x, ⟨y, hy, rfl⟩, hx⟩)
        · exact Or.inl h
        · rw [Dbl.lt_ofExact_zero, decide_eq_true_eq] at hx
          exact Or.inr ⟨y, hy, hx⟩
      · rintro (h | ⟨y, hy, hx⟩)
        · exact Or.inl h
        · refine Or.inr ⟨_, ⟨y, hy, rfl⟩, ?_⟩
          rw [Dbl.lt_ofExact_zero, decide_eq_true_eq]
          exact hx
    · intro x hx
      obtain ⟨y, _, rfl⟩ := List.mem_map.1 hx
      exact Dbl.isNaN_ofExact y

/-- With at least two coefficients the vector of differences is not empty. -/
theorem minCoeff_diffs_isSome (t : List K) (h2 : 2 ≤ t.length) :
    ∃ d, minCoeff ((diffs t).map Dbl.ofExact) = some d := by
  cases hm : minCoeff ((diffs t).map Dbl.ofExact) with
  | none =>
    have := (minCoeff_eq_none _).1 hm
    have hl := length_diffs t
    rw [List.map_eq_nil_iff] at this
    rw [this] at hl
    simp at hl
    omega
  | some d => exact ⟨d, rfl⟩

end Basics

/-! ## Closed form of the matrix built by the loop of `fit` -/

section SystemMatrix

variable {K : Type} [LinearOrderedField K]

theorem fitRow_apply {m : Nat} (a_ b_ : List (Dbl K)) (A : Matrix (Fin m) (Fin m) (Dbl K))
    (row : Nat) (i j : Fin m) :
    fitRow a_ b_ A row i j =
      if i.val = row then
        (if j.val = row + 1 then a_.getD row Dbl.nan
         else if j.val = row then b_.getD (row - 1) Dbl.nan + b_.getD row Dbl.nan
         else if j.val = row - 1 then a_.getD (row - 1) Dbl.nan
         else A i j)
      else A i j := by
  unfold fitRow setCoeff
  by_cases hi : i.val = row <;> simp [hi]

theorem foldl_fitRow_apply {m : Nat} (a_ b_ : List (Dbl K)) (L : List Nat)
    (A : Matrix (Fin m) (Fin m) (Dbl K)) (i j : Fin m) :
    (L.foldl (fitRow a_ b_) A) i j =
      if i.val ∈ L then
        (if j.val = i.val + 1 then a_.getD i.val Dbl.nan
         else if j.val = i.val then b_.getD (i.val - 1) Dbl.nan + b_.getD i.val Dbl.nan
         else if j.val = i.val - 1 then a_.getD (i.val - 1) Dbl.nan
         else A i j)
      else A i j := by
  induction L generalizing A with
  | nil => simp
  | cons r L ih =>
    rw [List.foldl_cons, ih, fitRow_apply]
    by_cases hr : i.val = r
    · subst hr
      simp
      split_ifs <;> exact fun _ => rfl
    · have hr2 : ¬ r = i.val := fun h => hr h.symm
      simp [hr, hr2]

theorem systemMatrix_apply (n : Nat) (a_ b_ : List (Dbl K)) (i j : Fin (n + 1)) :
    systemMatrix n a_ b_ i j =
      if 1 ≤ i.val ∧ i.val < n then
        (if j.val = i.val + 1 then a_.getD i.val Dbl.nan
         else if j.val = i.val then b_.getD (i.val - 1) Dbl.nan + b_.getD i.val Dbl.nan
         else if j.val = i.val - 1 then a_.getD (i.val - 1) Dbl.nan
         else Dbl.fin 0)
      else if i.val = j.val ∧ (i.val = 0 ∨ i.val = n) then Dbl.fin 1 else Dbl.fin 0 := by
  unfold systemMatrix
  simp only [foldl_fitRow_apply, setCoeff, List.mem_range'_1]
  have hi := i.isLt
  have hj := j.isLt
  by_cases h1 : 1 ≤ i.val ∧ i.val < n
  · have h2 : 1 ≤ i.val ∧ i.val < 1 + (n - 1) := ⟨h1.1, by omega⟩
    rw [if_pos h1, if_pos h2]
    have e1 : ¬ (i.val = n ∧ j.val = n) := by omega
    have e2 : ¬ (i.val = 0 ∧ j.val = 0) := by omega
    simp [e1, e2]
  · have h2 : ¬ (1 ≤ i.val ∧ i.val < 1 + (n - 1)) := by omega
    rw [if_neg h1, if_neg h2]
    by_cases e1 : i.val = n ∧ j.val = n
    · simp [e1]
    · by_cases e2 : i.val = 0 ∧ j.val = 0
      · simp [e2]
      · have e3 : ¬ (i.val = j.val ∧ (i.val = 0 ∨ i.val = n)) := by omega
        simp [e1, e2, e3]

end SystemMatrix

/-! ## The coefficients computed by `fit` on regular intervals -/

section FinitePath

variable {K : Type} [LinearOrderedField K]

theorem Dbl.inRange_of_moderate {x : K} (h : Moderate x) : Dbl.InRange x :=
  Dbl.inRange_of_abs_le 100 h (by norm_num)

theorem Libm.sinhValue_eq (lm : Libm K) {x S : K} (h : lm.sinh x = Dbl.fin S) :
    lm.sinhValue x = S := by
  unfold Libm.sinhValue
  rw [h]
  rfl

theorem Libm.coshValue_eq (lm : Libm K) {x C : K} (h : lm.cosh x = Dbl.fin C) :
    lm.coshValue x = C := by
  unfold Libm.coshValue
  rw [h]
  rfl

theorem moderate_one : Moderate (1 : K) := by
  unfold Moderate
  rw [abs_one]
  exact one_le_pow₀ (by norm_num)

theorem moderate_zero : Moderate (0 : K) := by
  unfold Moderate
  rw [abs_zero]
  positivity

/-- The computed length of an interval whose exact length is of moderate magnitude. -/
theorem computed_h_getElem (t : List K) (i : Nat) (hi : i + 1 < t.length)
    (mh : Moderate (hSpec t i)) (hd : i < ((diffs t).map Dbl.ofExact).length) :
    ((diffs t).map Dbl.ofExact)[i] = Dbl.fin (hSpec t i) := by
  have hd2 : i < (diffs t).length := by simpa using hd
  rw [List.getElem_map, ← Dbl.ofExact_eq (Dbl.inRange_of_moderate mh)]
  congr 1
  rw [← getD_diffs t i hi 0, List.getD_eq_getElem _ _ hd2]

/-- The coefficient `a_i` computed by `fit` on a regular interval. -/
theorem fit_a_getD (lm : Libm K) (tau : K) (t : List K) (i : Nat) (hi : i + 1 < t.length)
    (mt : Moderate tau) (hreg : RegularInterval lm tau t i) :
    (fit_a lm tau ((diffs t).map Dbl.ofExact)).getD i Dbl.nan = Dbl.fin (aSpec lm tau t i) := by
  obtain ⟨h0, mh, mh', S, C, hS, hC, hS0, mS, mS', mC⟩ := hreg
  have hd : i < ((diffs t).map Dbl.ofExact).length := by
    rw [List.length_map, length_diffs]; omega
  have r1 : Dbl.InRange (1 / hSpec t i) := by
    rw [one_div]; exact Dbl.inRange_of_moderate mh'
  have r2 : Dbl.InRange (tau * hSpec t i) :=
    Dbl.inRange_of_abs_le _ (abs_mul_le_pow mt mh) (by norm_num)
  have b3 : |tau / S| ≤ 2 ^ (100 + 100) := abs_div_le_pow mt mS'
  have r3 : Dbl.InRange (tau / S) := Dbl.inRange_of_abs_le _ b3 (by norm_num)
  have b1 : |1 / hSpec t i| ≤ 2 ^ (100 + 100) := by
    rw [one_div]; exact abs_le_pow_mono mh' (by norm_num)
  have r4 : Dbl.InRange (1 / hSpec t i - tau / S) :=
    Dbl.inRange_of_abs_le _ (abs_sub_le_pow b1 b3) (by norm_num)
  unfold fit_a
  rw [List.getD_eq_getElem _ _ (by simpa using hd), List.getElem_map,
    computed_h_getElem t i hi mh hd, Dbl.fin_div_fin h0 r1, Dbl.fin_mul_fin r2]
  show Dbl.fin (1 / hSpec t i) - Dbl.fin tau / lm.sinh (tau * hSpec t i) = _
  rw [hS, Dbl.fin_div_fin hS0 r3, Dbl.fin_sub_fin r4]
  unfold aSpec
  rw [lm.sinhValue_eq hS]

/-- The coefficient `b_i` computed by `fit` on a regular interval. -/
theorem fit_b_getD (lm : Libm K) (tau : K) (t : List K) (i : Nat) (hi : i + 1 < t.length)
    (mt : Moderate tau) (hreg : RegularInterval lm tau t i) :
    (fit_b lm tau ((diffs t).map Dbl.ofExact)).getD i Dbl.nan = Dbl.fin (bSpec lm tau t i) := by
  obtain ⟨h0, mh, mh', S, C, hS, hC, hS0, mS, mS', mC⟩ := hreg
  have hd : i < ((diffs t).map Dbl.ofExact).length := by
    rw [List.length_map, length_diffs]; omega
  have r1 : Dbl.InRange (1 / hSpec t i) := by
    rw [one_div]; exact Dbl.inRange_of_moderate mh'
  have r2 : Dbl.InRange (tau * hSpec t i) :=
    Dbl.inRange_of_abs_le _ (abs_mul_le_pow mt mh) (by norm_num)
  have b2 : |tau * C| ≤ 2 ^ (100 + 100) := abs_mul_le_pow mt mC
  have r3 : Dbl.InRange (tau * C) := Dbl.inRange_of_abs_le _ b2 (by norm_num)
  have b4 : |tau * C / S| ≤ 2 ^ (100 + 100 + 100) := abs_div_le_pow b2 mS'
  have r4 : Dbl.InRange (tau * C / S) := Dbl.inRange_of_abs_le _ b4 (by norm_num)
  have b1 : |1 / hSpec t i| ≤ 2 ^ (100 + 100 + 100) := by
    rw [one_div]; exact abs_le_pow_mono mh' (by norm_num)
  have r5 : Dbl.InRange (tau * C / S - 1 / hSpec t i) :=
    Dbl.inRange_of_abs_le _ (abs_sub_le_pow b4 b1) (by norm_num)
  unfold fit_b
  rw [List.getD_eq_getElem _ _ (by simpa using hd), List.getElem_map,
    computed_h_getElem t i hi mh hd, Dbl.fin_div_fin h0 r1, Dbl.fin_mul_fin r2]
  show Dbl.fin tau * lm.cosh (tau * hSpec t i) / lm.sinh (tau * hSpec t i) - _ = _
  rw [hS, hC, Dbl.fin_mul_fin r3, Dbl.fin_div_fin hS0 r4, Dbl.fin_sub_fin r5]
  unfold bSpec
  rw [lm.sinhValue_eq hS, lm.coshValue_eq hC]

theorem moderate_getD (y : List K) (my : ∀ v ∈ y, Moderate v) (i : Nat) :
    Moderate (y.getD i 0) := by
  by_cases hi : i < y.length
  · rw [List.getD_eq_getElem _ _ hi]
    exact my _ (List.getElem_mem _)
  · rw [List.getD_eq_default _ _ (by omega)]
    exact moderate_zero

/-- The coefficient `g_i` computed by `fit` on a regular interval. -/
theorem fit_g_getD (tau : K) (t y : List K) (i : Nat) (hlen : t.length = y.length)
    (hi : i + 1 < t.length) (mt : Moderate tau) (my : ∀ v ∈ y, Moderate v)
    (h0 : hSpec t i ≠ 0) (mh : Moderate (hSpec t i)) (mh' : Moderate (hSpec t i)⁻¹)
    (d : Dbl K) :
    (fit_g tau y ((diffs t).map Dbl.ofExact) (t.length - 1)).getD i d
      = Dbl.fin (gSpec tau t y i) := by
  have hd : i < ((diffs t).map Dbl.ofExact).length := by
    rw [List.length_map, length_diffs]; omega
  have hdy : i < ((diffs y).map Dbl.ofExact).length := by
    rw [List.length_map, length_diffs]; omega
  have bdy : |hSpec y i| ≤ 2 ^ (100 + 1) :=
    abs_sub_le_pow (moderate_getD y my (i + 1)) (moderate_getD y my i)
  have ey : ((diffs y).map Dbl.ofExact)[i] = Dbl.fin (hSpec y i) := by
    have hd2 : i < (diffs y).length := by simpa using hdy
    rw [List.getElem_map, ← Dbl.ofExact_eq (Dbl.inRange_of_abs_le _ bdy (by norm_num))]
    congr 1
    rw [← getD_diffs y i (by omega) 0, List.getD_eq_getElem _ _ hd2]
  have b1 : |tau ^ 2| ≤ 2 ^ (100 + 100) := by
    rw [pow_two]; exact abs_mul_le_pow mt mt
  have b2 : |tau ^ 2 * hSpec y i| ≤ 2 ^ (100 + 100 + (100 + 1)) := abs_mul_le_pow b1 bdy
  have b3 : |tau ^ 2 * hSpec y i / hSpec t i| ≤ 2 ^ (100 + 100 + (100 + 1) + 100) :=
    abs_div_le_pow b2 mh'
  unfold fit_g
  rw [hlen, vsub_map_fin]
  rw [List.getD_eq_getElem _ _ (by simp [length_diffs]; omega), List.getElem_zipWith, ey,
    computed_h_getElem t i hi mh hd, Dbl.ofExact_eq (Dbl.inRange_of_abs_le _ b1 (by norm_num)),
    Dbl.fin_mul_fin (Dbl.inRange_of_abs_le _ b2 (by norm_num)),
    Dbl.fin_div_fin h0 (Dbl.inRange_of_abs_le _ b3 (by norm_num))]
  rfl

omit [LinearOrderedField K] in
theorem any_isNaN_eq_false (l : List (Dbl K)) (h : ∀ x ∈ l, ∃ v, x = Dbl.fin v) :
    l.any Dbl.isNaN = false := by
  rw [List.any_eq_false]
  intro x hx
  obtain ⟨v, rfl⟩ := h x hx
  simp

theorem length_fit_a (lm : Libm K) (tau : K) (h : List (Dbl K)) :
    (fit_a lm tau h).length = h.length := by
  simp [fit_a]

theorem length_fit_b (lm : Libm K) (tau : K) (h : List (Dbl K)) :
    (fit_b lm tau h).length = h.length := by
  simp [fit_b]

theorem length_fit_g (tau : K) (t y : List K) (hlen : t.length = y.length) :
    (fit_g tau y ((diffs t).map Dbl.ofExact) (t.length - 1)).length = t.length - 1 := by
  unfold fit_g
  rw [hlen, vsub_map_fin]
  simp [length_diffs, hlen]

theorem fit_a_finite (lm : Libm K) (tau : K) (t : List K) (mt : Moderate tau)
    (hreg : ∀ i, i + 1 < t.length → RegularInterval lm tau t i) :
    ∀ x ∈ fit_a lm tau ((diffs t).map Dbl.ofExact), ∃ v, x = Dbl.fin v := by
  intro x hx
  obtain ⟨i, hi, rfl⟩ := List.mem_iff_getElem.1 hx
  have hi2 : i + 1 < t.length := by
    rw [length_fit_a, List.length_map, length_diffs] at hi; omega
  refine ⟨aSpec lm tau t i, ?_⟩
  rw [← fit_a_getD lm tau t i hi2 mt (hreg i hi2), List.getD_eq_getElem _ _ hi]

theorem fit_b_finite (lm : Libm K) (tau : K) (t : List K) (mt : Moderate tau)
    (hreg : ∀ i, i + 1 < t.length → RegularInterval lm tau t i) :
    ∀ x ∈ fit_b lm tau ((diffs t).map Dbl.ofExact), ∃ v, x = Dbl.fin v := by
  intro x hx
  obtain ⟨i, hi, rfl⟩ := List.mem_iff_getElem.1 hx
  have hi2 : i + 1 < t.length := by
    rw [length_fit_b, List.length_map, length_diffs] at hi; omega
  refine ⟨bSpec lm tau t i, ?_⟩
  rw [← fit_b_getD lm tau t i hi2 mt (hreg i hi2), List.getD_eq_getElem _ _ hi]

theorem fit_g_finite (lm : Libm K) (tau : K) (t y : List K) (hlen : t.length = y.length)
    (mt : Moderate tau) (my : ∀ v ∈ y, Moderate v)
    (hreg : ∀ i, i + 1 < t.length → RegularInterval lm tau t i) :
    ∀ x ∈ fit_g tau y ((diffs t).map Dbl.ofExact) (t.length - 1), ∃ v, x = Dbl.fin v := by
  intro x hx
  obtain ⟨i, hi, rfl⟩ := List.mem_iff_getElem.1 hx
  have hi2 : i + 1 < t.length := by rw [length_fit_g tau t y hlen] at hi; omega
  refine ⟨gSpec tau t y i, ?_⟩
  rw [← fit_g_getD tau t y i hlen hi2 mt my (hreg i hi2).1 (hreg i hi2).2.1 (hreg i hi2).2.2.1
    Dbl.nan, List.getD_eq_getElem _ _ hi]

/-- On regular intervals the matrix built by `fit` is the matrix of the specification. -/
theorem systemMatrix_fit (lm : Libm K) (tau : K) (t : List K) (n : Nat) (hn : t.length = n + 1)
    (mt : Moderate tau) (hreg : ∀ i, i + 1 < t.length → RegularInterval lm tau t i)
    (i j : Fin (n + 1)) :
    systemMatrix n (fit_a lm tau ((diffs t).map Dbl.ofExact))
        (fit_b lm tau ((diffs t).map Dbl.ofExact)) i j
      = Dbl.fin (ASpec lm tau t n i j) := by
  rw [systemMatrix_apply]
  unfold ASpec
  have hi := i.isLt
  have hj := j.isLt
  by_cases h1 : 1 ≤ i.val ∧ i.val < n
  · have ha : ∀ k, k < n → (fit_a lm tau ((diffs t).map Dbl.ofExact)).getD k Dbl.nan
        = Dbl.fin (aSpec lm tau t k) :=
      fun k hk => fit_a_getD lm tau t k (by omega) mt (hreg k (by omega))
    have hb : ∀ k, k < n → (fit_b lm tau ((diffs t).map Dbl.ofExact)).getD k Dbl.nan
        = Dbl.fin (bSpec lm tau t k) :=
      fun k hk => fit_b_getD lm tau t k (by omega) mt (hreg k (by omega))
    have bb : ∀ k, k < n → |bSpec lm tau t k| ≤ 2 ^ 301 := by
      intro k hk
      obtain ⟨h0, mh, mh', S, C, hS, hC, hS0, mS, mS', mC⟩ := hreg k (by omega)
      unfold bSpec
      rw [lm.sinhValue_eq hS, lm.coshValue_eq hC]
      have b4 : |tau * C / S| ≤ 2 ^ (100 + 100 + 100) :=
        abs_div_le_pow (abs_mul_le_pow mt mC) mS'
      have b1 : |1 / hSpec t k| ≤ 2 ^ (100 + 100 + 100) := by
        rw [one_div]; exact abs_le_pow_mono mh' (by norm_num)
      exact abs_sub_le_pow b4 b1
    have e0 : ¬ i.val = 0 := by omega
    have en : ¬ i.val = n := by omega
    rw [if_pos h1, if_neg e0, if_neg en, ha i.val h1.2, ha (i.val - 1) (by omega),
      hb i.val h1.2, hb (i.val - 1) (by omega),
      Dbl.fin_add_fin (Dbl.inRange_of_abs_le _
        (abs_add_le_pow (bb (i.val - 1) (by omega)) (bb i.val h1.2)) (by norm_num))]
    by_cases c1 : j.val = i.val + 1
    · have c2 : ¬ j.val + 1 = i.val := by omega
      have c3 : ¬ j.val = i.val := by omega
      have c5 : ¬ i.val + 1 + 1 = i.val := by omega
      simp [c1, c5]
    · by_cases c3 : j.val = i.val
      · have c2 : ¬ j.val + 1 = i.val := by omega
        simp [c1, c2, c3]
      · by_cases c2 : j.val = i.val - 1
        · have c4 : j.val + 1 = i.val := by omega
          simp [c1, c3, c4]
          intro h; omega
        · have c4 : ¬ j.val + 1 = i.val := by omega
          simp [c1, c2, c3, c4]
  · rw [if_neg h1]
    by_cases e0 : i.val = 0
    · by_cases c : j.val = 0
      · simp [e0, c]
      · have c' : ¬ (0 = j.val) := fun h => c h.symm
        simp [e0, c, c']
    · have en : i.val = n := by omega
      have n0 : ¬ n = 0 := by omega
      by_cases c : j.val = n
      · simp [en, c, n0]
      · have c' : ¬ (n = j.val) := fun h => c h.symm
        simp [en, c, c', n0]

end FinitePath

/-! ## The right-hand side, the inverse and the moments -/

section Forward

variable {K : Type} [LinearOrderedField K]

omit [LinearOrderedField K] in
theorem setSegment_getD (x : Dbl K) (n : Nat) (D : List (Dbl K)) (hD : D.length + 1 = n)
    (j : Nat) (hj : j < n + 1) :
    (setSegment (List.replicate (n + 1) x) 1 D).getD j x
      = if 1 ≤ j ∧ j < n then D.getD (j - 1) x else x := by
  unfold setSegment
  have e1 : List.take 1 (List.replicate (n + 1) x) = [x] := by
    simp [List.take_replicate]
  have e2 : [x] ++ D ++ List.drop (1 + D.length) (List.replicate (n + 1) x)
      = x :: (D ++ List.drop (1 + D.length) (List.replicate (n + 1) x)) := by simp
  rw [e1, e2]
  cases j with
  | zero => simp
  | succ k =>
    rw [List.getD_cons_succ]
    by_cases hk : k < D.length
    · rw [List.getD_append _ _ _ _ hk, if_pos (by omega)]
      simp
    · rw [List.getD_append_right _ _ _ _ (by omega), if_neg (by omega)]
      simp only [List.getD_eq_getElem?_getD, List.drop_replicate, List.getElem?_replicate]
      split_ifs <;> rfl

theorem gSpec_bound (tau : K) (t y : List K) (i : Nat) (mt : Moderate tau)
    (my : ∀ v ∈ y, Moderate v) (mh' : Moderate (hSpec t i)⁻¹) :
    |gSpec tau t y i| ≤ 2 ^ 401 := by
  have bdy : |y.getD (i + 1) 0 - y.getD i 0| ≤ 2 ^ (100 + 1) :=
    abs_sub_le_pow (moderate_getD y my (i + 1)) (moderate_getD y my i)
  have b1 : |tau ^ 2| ≤ 2 ^ (100 + 100) := by
    rw [pow_two]; exact abs_mul_le_pow mt mt
  exact abs_div_le_pow (abs_mul_le_pow b1 bdy) mh'

theorem rightHandSide_getD (lm : Libm K) (tau : K) (t y : List K) (n : Nat)
    (hn : t.length = n + 1) (hlen : t.length = y.length) (hn1 : 1 ≤ n)
    (mt : Moderate tau) (my : ∀ v ∈ y, Moderate v)
    (hreg : ∀ i, i + 1 < t.length → RegularInterval lm tau t i) (j : Fin (n + 1)) :
    (rightHandSide n (fit_g tau y ((diffs t).map Dbl.ofExact) (t.length - 1))).getD j.val
        (Dbl.fin 0)
      = Dbl.fin (YSpec tau t y n j) := by
  have hgl : (fit_g tau y ((diffs t).map Dbl.ofExact) (t.length - 1)).length = n := by
    rw [length_fit_g tau t y hlen]; omega
  have hg : ∀ k, k < n →
      ∀ (hk : k < (fit_g tau y ((diffs t).map Dbl.ofExact) (t.length - 1)).length),
      (fit_g tau y ((diffs t).map Dbl.ofExact) (t.length - 1))[k]
        = Dbl.fin (gSpec tau t y k) := by
    intro k hk hk2
    rw [← fit_g_getD tau t y k hlen (by omega) mt my (hreg k (by omega)).1
      (hreg k (by omega)).2.1 (hreg k (by omega)).2.2.1 Dbl.nan, List.getD_eq_getElem _ _ hk2]
  have hb : ∀ k, k < n → |gSpec tau t y k| ≤ 2 ^ 401 := fun k hk =>
    gSpec_bound tau t y k mt my (hreg k (by omega)).2.2.1
  unfold rightHandSide
  have e : n - 1 = (fit_g tau y ((diffs t).map Dbl.ofExact) (t.length - 1)).length - 1 := by
    rw [hgl]
  rw [e, vsub_tail_head]
  have hdl : (diffs (fit_g tau y ((diffs t).map Dbl.ofExact) (t.length - 1))).length + 1 = n := by
    rw [length_diffs, hgl]; omega
  rw [setSegment_getD _ n _ hdl j.val j.isLt]
  unfold YSpec
  by_cases h1 : 1 ≤ j.val ∧ j.val < n
  · have h2 : ¬ (j.val = 0 ∨ j.val = n) := by omega
    have h3 : j.val - 1
        < (diffs (fit_g tau y ((diffs t).map Dbl.ofExact) (t.length - 1))).length := by omega
    have e2 : j.val - 1 + 1 = j.val := by omega
    have hr : Dbl.InRange (gSpec tau t y (j.val - 1 + 1) - gSpec tau t y (j.val - 1)) :=
      Dbl.inRange_of_abs_le _ (abs_sub_le_pow (hb _ (by omega)) (hb _ (by omega))) (by norm_num)
    rw [if_pos h1, if_neg h2, List.getD_eq_getElem _ _ h3,
      getElem_diffs _ (j.val - 1) (by omega) h3, hg _ (by omega), hg _ (by omega),
      Dbl.fin_sub_fin hr]
    simp only [e2]
  · have h2 : j.val = 0 ∨ j.val = n := by omega
    rw [if_neg h1, if_pos h2]

/-- The bound `|Y_j| ≤ 2^402` on the right-hand side of the specification. -/
theorem YSpec_bound (lm : Libm K) (tau : K) (t y : List K) (n : Nat) (hn : t.length = n + 1)
    (mt : Moderate tau) (my : ∀ v ∈ y, Moderate v)
    (hreg : ∀ i, i + 1 < t.length → RegularInterval lm tau t i) (j : Fin (n + 1)) :
    |YSpec tau t y n j| ≤ 2 ^ 402 := by
  unfold YSpec
  have hj := j.isLt
  by_cases h : j.val = 0 ∨ j.val = n
  · rw [if_pos h, abs_zero]; positivity
  · rw [if_neg h]
    exact abs_sub_le_pow (gSpec_bound tau t y _ mt my (hreg _ (by omega)).2.2.1)
      (gSpec_bound tau t y _ mt my (hreg _ (by omega)).2.2.1)

/-- The inverse of a matrix of finite coefficients whose determinant is not zero,
when no coefficient of the inverse overflows. -/
theorem inverse_fin {m : Nat} (M : Matrix (Fin m) (Fin m) K) (hdet : M.det ≠ 0)
    (hr : ∀ i j, Dbl.InRange ((M.det⁻¹ • M.adjugate) i j)) :
    inverse (fun i j => Dbl.fin (M i j)) = fun i j => Dbl.fin ((M.det⁻¹ • M.adjugate) i j) := by
  unfold inverse
  have e : (fun i j => ((Dbl.fin (M i j) : Dbl K)).val) = M := by
    funext i j; rfl
  simp only [Dbl.toFinite, Option.isSome_some, implies_true, if_true]
  rw [e, if_neg hdet]
  funext i j
  exact Dbl.ofExact_eq (hr i j)

theorem foldl_add_fin (l : List K) (acc β : K) (hl : ∀ x ∈ l, |x| ≤ β)
    (hb : |acc| + l.length * β < Dbl.overflowThreshold) :
    (l.map Dbl.fin).foldl (fun a v => a + v) (Dbl.fin acc) = Dbl.fin (acc + l.sum) := by
  induction l generalizing acc with
  | nil => simp
  | cons a l ih =>
    have ha : |a| ≤ β := hl a (List.mem_cons_self _ _)
    have hβ : 0 ≤ β := le_trans (abs_nonneg a) ha
    have hlen : (0 : K) ≤ (l.length : K) * β := mul_nonneg (Nat.cast_nonneg _) hβ
    simp only [List.length_cons, Nat.cast_add, Nat.cast_one] at hb
    have h1 : |acc + a| ≤ |acc| + β := le_trans (abs_add _ _) (by linarith)
    have hr : Dbl.InRange (acc + a) := by
      unfold Dbl.InRange
      nlinarith
    simp only [List.map_cons, List.foldl_cons]
    rw [Dbl.fin_add_fin hr, ih (acc + a) (fun x hx => hl x (List.mem_cons_of_mem _ hx))
      (by nlinarith), List.sum_cons, add_assoc]

/-- The product of a row with a vector, when no partial sum overflows. -/
theorem rowDot_fin {m : Nat} (r : Fin m → K) (Y : List (Dbl K)) (Yv : Fin m → K) (β : K)
    (hY : ∀ j : Fin m, Y.getD j.val (Dbl.fin 0) = Dbl.fin (Yv j))
    (hβ : ∀ j, |r j * Yv j| ≤ β) (hm : (m : K) * β < Dbl.overflowThreshold) :
    rowDot (fun j => Dbl.fin (r j)) Y = Dbl.fin (∑ j, r j * Yv j) := by
  unfold rowDot
  have hβ0 : m = 0 ∨ β < Dbl.overflowThreshold := by
    rcases Nat.eq_zero_or_pos m with h | h
    · exact Or.inl h
    · right
      have h1 : (1 : K) ≤ (m : K) := by exact_mod_cast h
      have h0 : 0 ≤ β := le_trans (abs_nonneg _) (hβ ⟨0, h⟩)
      nlinarith
  have e : (List.finRange m).map (fun j => Dbl.fin (r j) * Y.getD j.val (Dbl.fin 0))
      = ((List.finRange m).map (fun j => r j * Yv j)).map Dbl.fin := by
    rw [List.map_map]
    apply List.map_congr_left
    intro j _
    show Dbl.fin (r j) * Y.getD j.val (Dbl.fin 0) = Dbl.fin (r j * Yv j)
    rw [hY j]
    rcases hβ0 with h | h
    · exact absurd j.isLt (by omega)
    · exact Dbl.fin_mul_fin (lt_of_le_of_lt (hβ j) h)
  rw [e, foldl_add_fin _ 0 β, zero_add, Fin.sum_univ_def]
  · intro x hx
    obtain ⟨j, _, rfl⟩ := List.mem_map.1 hx
    exact hβ j
  · simpa using hm

theorem mulVec_fin {m : Nat} (M : Matrix (Fin m) (Fin m) K) (Y : List (Dbl K)) (Yv : Fin m → K)
    (β : K) (hY : ∀ j : Fin m, Y.getD j.val (Dbl.fin 0) = Dbl.fin (Yv j))
    (hβ : ∀ i j, |M i j * Yv j| ≤ β) (hm : (m : K) * β < Dbl.overflowThreshold) :
    mulVec (fun i j => Dbl.fin (M i j)) Y = List.ofFn (fun i => Dbl.fin (M.mulVec Yv i)) := by
  unfold mulVec
  congr 1
  funext i
  rw [rowDot_fin (M i) Y Yv β hY (hβ i) hm]
  rfl

end Forward

/-! ## What the constructor checks and what it returns -/

section Construction

variable {K : Type} [LinearOrderedField K]

/-- The code of `fit` on an input that passes the four checks: the guard against
`NaN` decides between the exception and the fitted object. -/
theorem new_checked (lm : Libm K) (t y : List K) (tau : K) (hlen : t.length = y.length)
    (htau : 0 < tau) (h3 : 3 ≤ t.length) (hnn : ∀ d ∈ diffs t, 0 ≤ d) :
    new lm t y tau =
      if ((fit_g tau y ((diffs t).map Dbl.ofExact) (t.length - 1)).any Dbl.isNaN
          || (fit_a lm tau ((diffs t).map Dbl.ofExact)).any Dbl.isNaN
          || (fit_b lm tau ((diffs t).map Dbl.ofExact)).any Dbl.isNaN) = true then
        Outcome.thrown ERRORS.TAU_IS_TOO_SMALL_OR_TOO_LARGE
      else
        Outcome.ok ⟨t, y, tau,
          fit_z (t.length - 1) (fit_a lm tau ((diffs t).map Dbl.ofExact))
            (fit_b lm tau ((diffs t).map Dbl.ofExact))
            (fit_g tau y ((diffs t).map Dbl.ofExact) (t.length - 1)),
          (diffs t).map Dbl.ofExact, true⟩ := by
  obtain ⟨d, hm⟩ := minCoeff_diffs_isSome t (by omega)
  have hd : ¬ Dbl.lt d (Dbl.fin 0) = true := by
    rw [minCoeff_diffs_lt t d hm]
    rintro ⟨x, hx, hx0⟩
    exact absurd (hnn x hx) (not_le.2 hx0)
  unfold new fit
  simp only [vsub_map_fin, error_handler]
  rw [if_neg (by omega), if_neg (not_not.2 hlen), if_neg (not_le.2 htau), hm]
  simp only
  rw [if_neg hd, if_neg (by omega)]

/-- What a successful construction establishes, read off the code of `fit`. -/
theorem new_ok_inv (lm : Libm K) (t y : List K) (tau : K) (s : TensionSpline K)
    (h : new lm t y tau = Outcome.ok s) :
    t.length = y.length ∧ 0 < tau ∧ 3 ≤ t.length ∧ (∀ d ∈ diffs t, 0 ≤ d) ∧
    ((fit_g tau y ((diffs t).map Dbl.ofExact) (t.length - 1)).any Dbl.isNaN = false ∧
      (fit_a lm tau ((diffs t).map Dbl.ofExact)).any Dbl.isNaN = false ∧
      (fit_b lm tau ((diffs t).map Dbl.ofExact)).any Dbl.isNaN = false) ∧
    s.z = fit_z (t.length - 1) (fit_a lm tau ((diffs t).map Dbl.ofExact))
      (fit_b lm tau ((diffs t).map Dbl.ofExact))
      (fit_g tau y ((diffs t).map Dbl.ofExact) (t.length - 1)) ∧
    s.t = t ∧ s.y = y ∧ s.tau = tau ∧ s.h = (diffs t).map Dbl.ofExact
      ∧ s.is_fitted = true := by
  unfold new fit at h
  simp only [vsub_map_fin, error_handler] at h
  by_cases h0 : t.length = 0
  · rw [if_pos h0] at h; cases h
  rw [if_neg h0] at h
  by_cases hl : t.length ≠ y.length
  · rw [if_pos hl] at h; cases h
  rw [if_neg hl] at h
  by_cases ht : tau ≤ 0
  · rw [if_pos ht] at h; cases h
  rw [if_neg ht] at h
  cases hm : minCoeff ((diffs t).map Dbl.ofExact) with
  | none => rw [hm] at h; cases h
  | some d =>
    rw [hm] at h
    simp only at h
    by_cases hd : Dbl.lt d (Dbl.fin 0) = true
    · rw [if_pos hd] at h; cases h
    rw [if_neg hd] at h
    by_cases h3 : t.length < 3
    · rw [if_pos h3] at h; cases h
    rw [if_neg h3] at h
    by_cases hnan : ((fit_g tau y ((diffs t).map Dbl.ofExact) (t.length - 1)).any Dbl.isNaN
        || (fit_a lm tau ((diffs t).map Dbl.ofExact)).any Dbl.isNaN
        || (fit_b lm tau ((diffs t).map Dbl.ofExact)).any Dbl.isNaN) = true
    · rw [if_pos hnan] at h; cases h
    rw [if_neg hnan] at h
    simp only [Outcome.ok.injEq] at h
    subst h
    simp only [Bool.or_eq_true, not_or, Bool.not_eq_true] at hnan
    refine ⟨not_not.1 hl, lt_of_not_le ht, by omega, ?_, ⟨hnan.1.1, hnan.1.2, hnan.2⟩, rfl, rfl,
      rfl, rfl, rfl, rfl⟩
    intro x hx
    by_contra hneg
    exact hd ((minCoeff_diffs_lt t d hm).2 ⟨x, hx, lt_of_not_le hneg⟩)

theorem length_fit_z (n : Nat) (a_ b_ g_ : List (Dbl K)) : (fit_z n a_ b_ g_).length = n + 1 := by
  simp [fit_z, mulVec]

/-- The sizes of the vectors of a constructed object. -/
theorem new_ok_sizes (lm : Libm K) (t y : List K) (tau : K) (s : TensionSpline K)
    (h : new lm t y tau = Outcome.ok s) :
    3 ≤ s.t.length ∧ s.h.length + 1 = s.t.length ∧ s.y.length = s.t.length
      ∧ s.z.length = s.t.length := by
  obtain ⟨hlen, _, h3, _, _, hz, ht, hy, _, hh, _⟩ := new_ok_inv lm t y tau s h
  rw [ht, hy, hh, hz, List.length_map, length_diffs, length_fit_z]
  omega

/-- The moments computed by `fit` on regular intervals, when the matrix of the
specification is invertible and neither its inverse nor the product with the
right-hand side overflows. -/
theorem fit_z_eq (lm : Libm K) (tau : K) (t y : List K) (n : Nat) (hn : t.length = n + 1)
    (hlen : t.length = y.length) (hn1 : 1 ≤ n) (mt : Moderate tau) (my : ∀ v ∈ y, Moderate v)
    (hreg : ∀ i, i + 1 < t.length → RegularInterval lm tau t i)
    (hdet : (ASpec lm tau t n).det ≠ 0) (p : Nat) (hp : p ≤ 500)
    (hinv : ∀ i j, |((ASpec lm tau t n).det⁻¹ • (ASpec lm tau t n).adjugate) i j| ≤ 2 ^ p)
    (hsize : ((n + 1 : Nat) : K) ≤ 2 ^ 100) :
    fit_z n (fit_a lm tau ((diffs t).map Dbl.ofExact)) (fit_b lm tau ((diffs t).map Dbl.ofExact))
        (fit_g tau y ((diffs t).map Dbl.ofExact) (t.length - 1))
      = List.ofFn (fun i => Dbl.fin (zSpec lm tau t y n i)) := by
  unfold fit_z
  have eA : systemMatrix n (fit_a lm tau ((diffs t).map Dbl.ofExact))
      (fit_b lm tau ((diffs t).map Dbl.ofExact))
      = fun i j => Dbl.fin (ASpec lm tau t n i j) := by
    funext i j
    exact systemMatrix_fit lm tau t n hn mt hreg i j
  rw [eA, inverse_fin _ hdet
    (fun i j => Dbl.inRange_of_abs_le p (hinv i j) (by omega))]
  rw [mulVec_fin _ _ (YSpec tau t y n) (2 ^ (p + 402))
    (rightHandSide_getD lm tau t y n hn hlen hn1 mt my hreg)
    (fun i j => abs_mul_le_pow (hinv i j) (YSpec_bound lm tau t y n hn mt my hreg j))]
  · rfl
  · have h1 : ((n + 1 : Nat) : K) * 2 ^ (p + 402) ≤ 2 ^ 100 * 2 ^ (p + 402) :=
      mul_le_mul_of_nonneg_right hsize (by positivity)
    rw [← pow_add] at h1
    exact lt_of_le_of_lt h1 (Dbl.pow_lt_overflowThreshold _ (by omega))

/-- The code of `fit` on an input that passes the four checks, with regular
intervals, an invertible system and no overflow in the solution. -/
theorem new_eq_ok (lm : Libm K) (t y : List K) (tau : K) (n : Nat) (hn : t.length = n + 1)
    (hlen : t.length = y.length) (htau : 0 < tau) (h3 : 3 ≤ t.length)
    (hpos : ∀ i, i + 1 < t.length → 0 < hSpec t i)
    (mt : Moderate tau) (my : ∀ v ∈ y, Moderate v)
    (hreg : ∀ i, i + 1 < t.length → RegularInterval lm tau t i)
    (hdet : (ASpec lm tau t n).det ≠ 0) (p : Nat) (hp : p ≤ 500)
    (hinv : ∀ i j, |((ASpec lm tau t n).det⁻¹ • (ASpec lm tau t n).adjugate) i j| ≤ 2 ^ p)
    (hsize : ((n + 1 : Nat) : K) ≤ 2 ^ 100) :
    new lm t y tau = Outcome.ok (modelSpec lm t y tau n) := by
  have hz := fit_z_eq lm tau t y n hn hlen (by omega) mt my hreg hdet p hp hinv hsize
  have hn' : t.length - 1 = n := by omega
  have hnn : ∀ d ∈ diffs t, 0 ≤ d := by
    intro d hd
    obtain ⟨i, hi, rfl⟩ := mem_diffs t d hd
    exact (hpos i hi).le
  rw [new_checked lm t y tau hlen htau h3 hnn,
    any_isNaN_eq_false _ (fit_g_finite lm tau t y hlen mt my hreg),
    any_isNaN_eq_false _ (fit_a_finite lm tau t mt hreg),
    any_isNaN_eq_false _ (fit_b_finite lm tau t mt hreg)]
  simp only [Bool.or_self, Bool.false_eq_true, if_false]
  rw [hn'] at hz ⊢
  rw [hz]
  have e : ((diffs t).map Dbl.ofExact : List (Dbl K)) = (diffs t).map Dbl.fin := by
    apply List.map_congr_left
    intro d hd
    obtain ⟨i, hi, rfl⟩ := mem_diffs t d hd
    exact Dbl.ofExact_eq (Dbl.inRange_of_moderate (hreg i hi).2.1)
  rw [e]
  rfl

end Construction

/-! ## The hyperbolic functions and the library `realLibm` -/

section RealLibrary

theorem exp_nat_le (n : Nat) : Real.exp n ≤ 3 ^ n := by
  have h : Real.exp (n * 1) = Real.exp 1 ^ n := Real.exp_nat_mul 1 n
  rw [mul_one] at h
  rw [h]
  exact pow_le_pow_left₀ (Real.exp_pos 1).le
    (le_trans Real.exp_one_lt_d9.le (by norm_num)) n

theorem abs_sinh_le_exp (x : ℝ) : |Real.sinh x| ≤ Real.exp |x| := by
  rw [Real.abs_sinh, Real.sinh_eq]
  have := Real.exp_pos (-|x|)
  have := Real.exp_pos |x|
  linarith

theorem cosh_le_exp (x : ℝ) : Real.cosh x ≤ Real.exp |x| := by
  rw [← Real.cosh_abs, Real.cosh_eq]
  have h : Real.exp (-|x|) ≤ Real.exp |x| :=
    Real.exp_le_exp.2 (by linarith [abs_nonneg x])
  linarith

/-- The hyperbolic functions are far below the overflow threshold on `[-64, 64]`. -/
theorem exp_le_of_abs_le {x : ℝ} (hx : |x| ≤ 64) : Real.exp |x| ≤ 2 ^ 128 := by
  have h1 : Real.exp |x| ≤ Real.exp ((64 : Nat) : ℝ) := Real.exp_le_exp.2 (by simpa using hx)
  have h2 := exp_nat_le 64
  have h3 : (3 : ℝ) ^ 64 ≤ 2 ^ 128 := by norm_num
  linarith

theorem realLibm_sinh_zero : realLibm.sinh 0 = Dbl.fin 0 := by
  show (if |(0 : ℝ)| < 1 / 2 ^ 28 then Dbl.fin (0 : ℝ) else _) = _
  rw [if_pos (by norm_num)]

theorem realLibm_cosh_zero : realLibm.cosh 0 = Dbl.fin 1 := by
  show (if |(0 : ℝ)| < 1 / 2 ^ 28 then Dbl.fin (1 : ℝ) else _) = _
  rw [if_pos (by norm_num)]

/-- Away from zero and up to `64` the library returns the real hyperbolic sine. -/
theorem realLibm_sinh_eq {x : ℝ} (h1 : 1 / 2 ^ 28 ≤ |x|) (h2 : |x| ≤ 64) :
    realLibm.sinh x = Dbl.fin (Real.sinh x) := by
  show (if |x| < 1 / 2 ^ 28 then Dbl.fin x else Dbl.ofExact (Real.sinh x)) = _
  rw [if_neg (not_lt.2 h1)]
  exact Dbl.ofExact_eq (Dbl.inRange_of_abs_le 128
    (le_trans (abs_sinh_le_exp x) (exp_le_of_abs_le h2)) (by norm_num))

/-- Away from zero and up to `64` the library returns the real hyperbolic cosine. -/
theorem realLibm_cosh_eq {x : ℝ} (h1 : 1 / 2 ^ 28 ≤ |x|) (h2 : |x| ≤ 64) :
    realLibm.cosh x = Dbl.fin (Real.cosh x) := by
  show (if |x| < 1 / 2 ^ 28 then Dbl.fin 1 else Dbl.ofExact (Real.cosh x)) = _
  rw [if_neg (not_lt.2 h1)]
  refine Dbl.ofExact_eq (Dbl.inRange_of_abs_le 128 ?_ (by norm_num))
  rw [abs_of_pos (Real.cosh_pos x)]
  exact le_trans (cosh_le_exp x) (exp_le_of_abs_le h2)

/-- The value that the library returns for `sinh` on `[-64, 64]`. -/
theorem realLibm_sinhValue {x : ℝ} (h2 : |x| ≤ 64) (h1 : 1 / 2 ^ 28 ≤ |x| ∨ x = 0) :
    realLibm.sinh x = Dbl.fin (Real.sinh x) := by
  rcases h1 with h1 | h1
  · exact realLibm_sinh_eq h1 h2
  · rw [h1, Real.sinh_zero]
    exact realLibm_sinh_zero

theorem exp_1000_ge : (2 : ℝ) ^ 1250 ≤ Real.exp 1000 := by
  have h : Real.exp ((1000 : Nat) * 1) = Real.exp 1 ^ 1000 := Real.exp_nat_mul 1 1000
  have e : ((1000 : Nat) : ℝ) * 1 = 1000 := by norm_num
  rw [e] at h
  rw [h]
  have h1 : (5 / 2 : ℝ) ≤ Real.exp 1 := le_trans (by norm_num) Real.exp_one_gt_d9.le
  have h2 : (5 / 2 : ℝ) ^ 1000 ≤ Real.exp 1 ^ 1000 := pow_le_pow_left₀ (by norm_num) h1 1000
  have h3 : (2 : ℝ) ^ 1250 = (2 ^ 5) ^ 250 := by rw [← pow_mul]
  have h4 : (5 / 2 : ℝ) ^ 1000 = ((5 / 2) ^ 4) ^ 250 := by rw [← pow_mul]
  have h5 : ((2 : ℝ) ^ 5) ^ 250 ≤ ((5 / 2) ^ 4) ^ 250 :=
    pow_le_pow_left₀ (by norm_num) (by norm_num) 250
  rw [h3]
  rw [h4] at h2
  exact le_trans h5 h2

/-- The hyperbolic sine of `1000` is beyond the overflow threshold. -/
theorem sinh_1000_ge : Dbl.overflowThreshold ≤ Real.sinh 1000 := by
  have h1 := exp_1000_ge
  have h2 : Real.exp (-1000) ≤ 1 := by
    rw [← Real.exp_zero]
    exact Real.exp_le_exp.2 (by norm_num)
  have h3 : (2 : ℝ) ^ 1024 ≤ Real.sinh 1000 := by
    rw [Real.sinh_eq]
    have h4 : (2 : ℝ) ^ 1250 = 2 ^ 226 * 2 ^ 1024 := by rw [← pow_add]
    have h5 : (4 : ℝ) ≤ 2 ^ 226 := by
      have : (2 : ℝ) ^ 2 ≤ 2 ^ 226 := pow_le_pow_right₀ (by norm_num) (by norm_num)
      linarith
    have h6 : (0 : ℝ) < 2 ^ 1024 := by positivity
    have h7 : (1 : ℝ) ≤ 2 ^ 1024 := one_le_pow₀ (by norm_num)
    nlinarith
  have h8 : (0 : ℝ) < 2 ^ 970 := by positivity
  unfold Dbl.overflowThreshold
  linarith

theorem realLibm_sinh_1000 : realLibm.sinh 1000 = Dbl.pinf := by
  show (if |(1000 : ℝ)| < 1 / 2 ^ 28 then Dbl.fin 1000 else Dbl.ofExact (Real.sinh 1000)) = _
  rw [if_neg (by norm_num)]
  exact Dbl.ofExact_overflow sinh_1000_ge

theorem realLibm_cosh_1000 : realLibm.cosh 1000 = Dbl.pinf := by
  show (if |(1000 : ℝ)| < 1 / 2 ^ 28 then Dbl.fin 1 else Dbl.ofExact (Real.cosh 1000)) = _
  rw [if_neg (by norm_num)]
  exact Dbl.ofExact_overflow (le_trans sinh_1000_ge (le_of_lt (Real.sinh_lt_cosh 1000)))

end RealLibrary

/-! ## The system matrix: diagonal dominance, determinant, inverse -/

section RealSystem

/-- With the real hyperbolic sine the coefficient `a_i` is positive on an interval
of positive length. -/
theorem aSpec_pos (lm : Libm ℝ) (tau : ℝ) (t : List ℝ) (i : Nat) (htau : 0 < tau)
    (hh : 0 < hSpec t i)
    (hS : lm.sinh (tau * hSpec t i) = Dbl.fin (Real.sinh (tau * hSpec t i))) :
    0 < aSpec lm tau t i := by
  unfold aSpec
  rw [lm.sinhValue_eq hS]
  have hx : 0 < tau * hSpec t i := mul_pos htau hh
  have hs : tau * hSpec t i < Real.sinh (tau * hSpec t i) := Real.self_lt_sinh_iff.2 hx
  have hs0 : 0 < Real.sinh (tau * hSpec t i) := lt_trans hx hs
  rw [sub_pos, div_lt_div_iff₀ hs0 hh]
  linarith

/-- The coefficients of a boundary row of the system matrix. -/
theorem ASpec_row_boundary {K : Type} [LinearOrderedField K] (lm : Libm K) (tau : K)
    (t : List K) (n : Nat) (k : Fin (n + 1)) (hb : k.val = 0 ∨ k.val = n) :
    ASpec lm tau t n k k = 1 ∧ ∀ j, j ≠ k → ASpec lm tau t n k j = 0 := by
  have hk := k.isLt
  constructor
  · unfold ASpec
    rcases hb with hb | hb
    · simp [hb]
    · by_cases h0 : k.val = 0
      · simp [h0]
      · simp [h0, hb]
  · intro j hjk
    have hjk' : j.val ≠ k.val := fun h => hjk (Fin.ext h)
    unfold ASpec
    rcases hb with hb | hb
    · have : ¬ j.val = 0 := by omega
      simp [hb, this]
    · by_cases h0 : k.val = 0
      · have : ¬ j.val = 0 := by omega
        simp [h0, this]
      · have : ¬ j.val = n := by omega
        have hn0 : ¬ n = 0 := by omega
        simp [hb, this, hn0]

/-- The sum of the absolute values of the coefficients of an interior row of the
system matrix, off the diagonal, and the coefficient on the diagonal. -/
theorem ASpec_row_interior (lm : Libm ℝ) (tau : ℝ) (t : List ℝ) (n : Nat) (k : Fin (n + 1))
    (hk1 : 1 ≤ k.val) (hkn : k.val < n) :
    ASpec lm tau t n k k = bSpec lm tau t (k.val - 1) + bSpec lm tau t k.val ∧
    ∑ j in Finset.univ.erase k, |ASpec lm tau t n k j|
      = |aSpec lm tau t (k.val - 1)| + |aSpec lm tau t k.val| := by
  have h0 : ¬ k.val = 0 := by omega
  have hn : ¬ k.val = n := by omega
  let jm : Fin (n + 1) := ⟨k.val - 1, by omega⟩
  let jp : Fin (n + 1) := ⟨k.val + 1, by omega⟩
  have hjm : jm.val = k.val - 1 := rfl
  have hjp : jp.val = k.val + 1 := rfl
  have hne : jm ≠ jp := by
    intro h
    have := congrArg Fin.val h
    rw [hjm, hjp] at this
    omega
  have hsub : ({jm, jp} : Finset (Fin (n + 1))) ⊆ Finset.univ.erase k := by
    intro j hj
    rw [Finset.mem_insert, Finset.mem_singleton] at hj
    rw [Finset.mem_erase]
    refine ⟨?_, Finset.mem_univ _⟩
    intro hjk
    have := congrArg Fin.val hjk
    rcases hj with hj | hj <;> rw [hj] at this <;> simp only [hjm, hjp] at this <;> omega
  have hzero : ∀ j ∈ Finset.univ.erase k, j ∉ ({jm, jp} : Finset (Fin (n + 1))) →
      |ASpec lm tau t n k j| = 0 := by
    intro j hj hj2
    have hjk : j ≠ k := (Finset.mem_erase.1 hj).1
    have hjk' : ¬ j.val = k.val := fun h => hjk (Fin.ext h)
    rw [Finset.mem_insert, Finset.mem_singleton, not_or] at hj2
    have c1 : ¬ j.val + 1 = k.val := by
      intro h
      apply hj2.1
      apply Fin.ext
      rw [hjm]; omega
    have c2 : ¬ j.val = k.val + 1 := by
      intro h
      apply hj2.2
      apply Fin.ext
      rw [hjp]; omega
    unfold ASpec
    simp [h0, hn, c1, c2, hjk']
  have em : ASpec lm tau t n k jm = aSpec lm tau t (k.val - 1) := by
    unfold ASpec
    have : jm.val + 1 = k.val := by rw [hjm]; omega
    simp [h0, hn, this]
  have ep : ASpec lm tau t n k jp = aSpec lm tau t k.val := by
    unfold ASpec
    have c1 : ¬ jp.val + 1 = k.val := by rw [hjp]; omega
    have c2 : ¬ jp.val = k.val := by rw [hjp]; omega
    simp [h0, hn, c1, c2, hjp]
  have ed : ASpec lm tau t n k k
      = bSpec lm tau t (k.val - 1) + bSpec lm tau t k.val := by
    unfold ASpec
    have c1 : ¬ k.val + 1 = k.val := by omega
    simp [h0, hn, c1]
  refine ⟨ed, ?_⟩
  rw [← Finset.sum_subset hsub hzero, Finset.sum_pair hne, em, ep]

/-- Every row of the system matrix is strictly diagonally dominant, with margin
`δ`, when `0 < a_i` and `a_i + δ ≤ b_i` on every interval and `δ ≤ 1`. -/
theorem ASpec_dominant (lm : Libm ℝ) (tau : ℝ) (t : List ℝ) (n : Nat) (δ : ℝ) (hδ1 : δ ≤ 1)
    (hδ0 : 0 ≤ δ)
    (hab : ∀ i, i < n → 0 < aSpec lm tau t i ∧ aSpec lm tau t i + δ ≤ bSpec lm tau t i)
    (k : Fin (n + 1)) :
    δ + ∑ j in Finset.univ.erase k, |ASpec lm tau t n k j| ≤ |ASpec lm tau t n k k| := by
  have hk := k.isLt
  by_cases hb : k.val = 0 ∨ k.val = n
  · obtain ⟨h1, h2⟩ := ASpec_row_boundary lm tau t n k hb
    have hz : ∀ j ∈ Finset.univ.erase k, |ASpec lm tau t n k j| = 0 := by
      intro j hj
      rw [h2 j (Finset.mem_erase.1 hj).1, abs_zero]
    rw [Finset.sum_eq_zero hz, h1, abs_one, add_zero]
    exact hδ1
  · obtain ⟨h1, h2⟩ := ASpec_row_interior lm tau t n k (by omega) (by omega)
    have a1 := hab (k.val - 1) (by omega)
    have a2 := hab k.val (by omega)
    rw [h1, h2, abs_of_pos a1.1, abs_of_pos a2.1, abs_of_pos (by linarith)]
    linarith

/-- A strictly diagonally dominant system matrix is invertible. -/
theorem ASpec_det_ne_zero (lm : Libm ℝ) (tau : ℝ) (t : List ℝ) (n : Nat)
    (hab : ∀ i, i < n → 0 < aSpec lm tau t i ∧ aSpec lm tau t i < bSpec lm tau t i) :
    (ASpec lm tau t n).det ≠ 0 := by
  apply det_ne_zero_of_sum_row_lt_diag
  intro k
  have hk := k.isLt
  simp only [Real.norm_eq_abs]
  by_cases hb : k.val = 0 ∨ k.val = n
  · obtain ⟨h1, h2⟩ := ASpec_row_boundary lm tau t n k hb
    have hz : ∀ j ∈ Finset.univ.erase k, |ASpec lm tau t n k j| = 0 := by
      intro j hj
      rw [h2 j (Finset.mem_erase.1 hj).1, abs_zero]
    rw [Finset.sum_eq_zero hz, h1, abs_one]
    exact one_pos
  · obtain ⟨h1, h2⟩ := ASpec_row_interior lm tau t n k (by omega) (by omega)
    have a1 := hab (k.val - 1) (by omega)
    have a2 := hab k.val (by omega)
    rw [h1, h2, abs_of_pos a1.1, abs_of_pos a2.1, abs_of_pos (by linarith)]
    linarith

/-- The solution of a system whose matrix is strictly diagonally dominant by rows
with margin `δ` is bounded by the right-hand side divided by `δ`. -/
theorem abs_le_of_dominant {m : Nat} (M : Matrix (Fin m) (Fin m) ℝ) (δ β : ℝ) (hδ : 0 < δ)
    (hM : ∀ r, δ + ∑ j in Finset.univ.erase r, |M r j| ≤ |M r r|)
    (x b : Fin m → ℝ) (h : M.mulVec x = b) (hb : ∀ j, |b j| ≤ β) (i : Fin m) :
    |x i| ≤ β / δ := by
  obtain ⟨r, _, hr⟩ := Finset.exists_max_image (Finset.univ : Finset (Fin m)) (fun j => |x j|)
    ⟨i, Finset.mem_univ i⟩
  have hr' : ∀ j, |x j| ≤ |x r| := fun j => hr j (Finset.mem_univ j)
  have hrow : M r r * x r + ∑ j in Finset.univ.erase r, M r j * x j = b r := by
    rw [← h]
    exact Finset.add_sum_erase Finset.univ (fun j => M r j * x j) (Finset.mem_univ r)
  have h1 : |∑ j in Finset.univ.erase r, M r j * x j|
      ≤ (∑ j in Finset.univ.erase r, |M r j|) * |x r| := by
    rw [Finset.sum_mul]
    refine le_trans (Finset.abs_sum_le_sum_abs _ _) (Finset.sum_le_sum ?_)
    intro j _
    rw [abs_mul]
    exact mul_le_mul_of_nonneg_left (hr' j) (abs_nonneg _)
  have h2 : |M r r| * |x r| ≤ β + (∑ j in Finset.univ.erase r, |M r j|) * |x r| := by
    have e : M r r * x r = b r - ∑ j in Finset.univ.erase r, M r j * x j := by linarith
    rw [← abs_mul, e]
    have := abs_sub (b r) (∑ j in Finset.univ.erase r, M r j * x j)
    linarith [hb r]
  have h3 : δ * |x r| ≤ β := by
    have := mul_le_mul_of_nonneg_right (hM r) (abs_nonneg (x r))
    nlinarith
  rw [le_div_iff₀ hδ]
  have := hr' i
  nlinarith [abs_nonneg (x i), abs_nonneg (x r)]

/-- The coefficients of the inverse of a matrix that is strictly diagonally
dominant by rows with margin `δ` are bounded by `1/δ`. -/
theorem inverse_bound {m : Nat} (M : Matrix (Fin m) (Fin m) ℝ) (δ : ℝ) (hδ : 0 < δ)
    (hM : ∀ r, δ + ∑ j in Finset.univ.erase r, |M r j| ≤ |M r r|) (hdet : M.det ≠ 0)
    (i j : Fin m) : |(M.det⁻¹ • M.adjugate) i j| ≤ 1 / δ := by
  have hmul : M * (M.det⁻¹ • M.adjugate) = 1 := by
    rw [Matrix.mul_smul, Matrix.mul_adjugate, smul_smul, inv_mul_cancel₀ hdet, one_smul]
  have hcol : M.mulVec (fun k => (M.det⁻¹ • M.adjugate) k j) = fun k => (1 : Matrix _ _ ℝ) k j := by
    funext k
    have := congrFun (congrFun hmul k) j
    rw [Matrix.mul_apply] at this
    exact this
  refine abs_le_of_dominant M δ 1 hδ hM _ _ hcol ?_ i
  intro k
  rw [Matrix.one_apply]
  split_ifs <;> simp

/-- The coefficients of the inverse of the system matrix are at most `1/δ` when
`0 < a_i` and `a_i + δ ≤ b_i` on every interval. -/
theorem ASpec_inverse_bound (lm : Libm ℝ) (tau : ℝ) (t : List ℝ) (n : Nat) (δ : ℝ)
    (hδ1 : δ ≤ 1) (hδ0 : 0 < δ)
    (hab : ∀ i, i < n → 0 < aSpec lm tau t i ∧ aSpec lm tau t i + δ ≤ bSpec lm tau t i)
    (i j : Fin (n + 1)) :
    (ASpec lm tau t n).det ≠ 0 ∧
    |((ASpec lm tau t n).det⁻¹ • (ASpec lm tau t n).adjugate) i j| ≤ 1 / δ := by
  have hdet : (ASpec lm tau t n).det ≠ 0 :=
    ASpec_det_ne_zero lm tau t n (fun k hk => ⟨(hab k hk).1, by linarith [(hab k hk).2]⟩)
  exact ⟨hdet, inverse_bound _ δ hδ0 (ASpec_dominant lm tau t n δ hδ1 hδ0.le hab) hdet i j⟩

end RealSystem

/-! ## The rows of the system and its solution -/

section Rows

variable {K : Type} [LinearOrderedField K]

theorem nonDecreasing_iff (q : List K) :
    NonDecreasing q ↔ ∀ i, i + 1 < q.length → 0 ≤ hSpec q i := by
  unfold NonDecreasing
  rw [List.chain'_iff_get]
  constructor
  · intro h i hi
    have h1 := h i (by omega)
    have hi0 : i < q.length := by omega
    simp only [List.get_eq_getElem] at h1
    simp only [hSpec, List.getD_eq_getElem _ _ hi, List.getD_eq_getElem _ _ hi0]
    linarith
  · intro h i hi
    have hi1 : i + 1 < q.length := by omega
    have hi0 : i < q.length := by omega
    have h1 := h i hi1
    simp only [hSpec, List.getD_eq_getElem _ _ hi1, List.getD_eq_getElem _ _ hi0] at h1
    simp only [List.get_eq_getElem]
    linarith

theorem exists_diffs_neg_iff (q : List K) :
    (∃ d ∈ diffs q, d < 0) ↔ ∃ j, ∃ (_ : j + 1 < q.length), q[j + 1] < q[j] := by
  constructor
  · rintro ⟨d, hd, hneg⟩
    obtain ⟨i, hi, rfl⟩ := mem_diffs q d hd
    refine ⟨i, hi, ?_⟩
    have hi0 : i < q.length := by omega
    simp only [hSpec, List.getD_eq_getElem _ _ hi, List.getD_eq_getElem _ _ hi0] at hneg
    linarith
  · rintro ⟨j, hj, hlt⟩
    refine ⟨hSpec q j, hSpec_mem_diffs q j hj, ?_⟩
    have hi0 : j < q.length := by omega
    simp only [hSpec, List.getD_eq_getElem _ _ hj, List.getD_eq_getElem _ _ hi0]
    linarith

/-- The moments of the specification solve the system when its matrix is invertible. -/
theorem ASpec_mulVec_zSpec {K : Type} [LinearOrderedField K] (lm : Libm K) (tau : K)
    (t y : List K) (n : Nat) (hdet : (ASpec lm tau t n).det ≠ 0) :
    (ASpec lm tau t n).mulVec (zSpec lm tau t y n) = YSpec tau t y n := by
  unfold zSpec
  rw [Matrix.mulVec_mulVec, Matrix.mul_smul, Matrix.mul_adjugate, smul_smul,
    inv_mul_cancel₀ hdet, one_smul, Matrix.one_mulVec]

/-- The boundary rows of the system: `(A v)_0 = v_0` and `(A v)_n = v_n`. -/
theorem ASpec_mulVec_boundary (lm : Libm K) (tau : K) (t : List K) (n : Nat)
    (v : Fin (n + 1) → K) (k : Fin (n + 1)) (hk : k.val = 0 ∨ k.val = n) :
    (ASpec lm tau t n).mulVec v k = v k := by
  show ∑ j, ASpec lm tau t n k j * v j = v k
  rw [Finset.sum_eq_single k]
  · have : ASpec lm tau t n k k = 1 := by
      unfold ASpec
      rcases hk with hk | hk
      · simp [hk]
      · by_cases h0 : k.val = 0
        · simp [h0]
        · simp [h0, hk]
    rw [this, one_mul]
  · intro j _ hjk
    have hjk' : ¬ j.val = k.val := fun h => hjk (Fin.ext h)
    have : ASpec lm tau t n k j = 0 := by
      unfold ASpec
      rcases hk with hk | hk
      · have : ¬ j.val = 0 := by omega
        simp [hk, this]
      · by_cases h0 : k.val = 0
        · have : ¬ j.val = 0 := by omega
          simp [h0, this]
        · have : ¬ j.val = n := by omega
          have hn0 : ¬ n = 0 := by omega
          simp [hk, this, hn0]
    rw [this, zero_mul]
  · intro h
    exact absurd (Finset.mem_univ k) h

/-- The interior rows of the system are tridiagonal. -/
theorem ASpec_mulVec_interior (lm : Libm K) (tau : K) (t : List K) (n : Nat)
    (v : Fin (n + 1) → K) (k : Nat) (hk1 : 1 ≤ k) (hkn : k < n) :
    (ASpec lm tau t n).mulVec v ⟨k, by omega⟩
      = aSpec lm tau t (k - 1) * v ⟨k - 1, by omega⟩
        + (bSpec lm tau t (k - 1) + bSpec lm tau t k) * v ⟨k, by omega⟩
        + aSpec lm tau t k * v ⟨k + 1, by omega⟩ := by
  have h0 : ¬ k = 0 := by omega
  have hn : ¬ k = n := by omega
  let jm : Fin (n + 1) := ⟨k - 1, by omega⟩
  let jk : Fin (n + 1) := ⟨k, by omega⟩
  let jp : Fin (n + 1) := ⟨k + 1, by omega⟩
  have hmk : jm ≠ jk := by
    intro h
    have := congrArg Fin.val h
    simp only [jm, jk] at this
    omega
  have hmp : jm ≠ jp := by
    intro h
    have := congrArg Fin.val h
    simp only [jm, jp] at this
    omega
  have hkp : jk ≠ jp := by
    intro h
    have := congrArg Fin.val h
    simp only [jk, jp] at this
    omega
  have hzero : ∀ j ∈ (Finset.univ : Finset (Fin (n + 1))),
      j ∉ ({jm, jk, jp} : Finset (Fin (n + 1))) → ASpec lm tau t n jk j * v j = 0 := by
    intro j _ hj
    simp only [Finset.mem_insert, Finset.mem_singleton, not_or] at hj
    have c1 : ¬ j.val + 1 = k := by
      intro h
      apply hj.1
      apply Fin.ext
      simp only [jm]; omega
    have c2 : ¬ j.val = k := by
      intro h
      apply hj.2.1
      apply Fin.ext
      simp only [jk]; omega
    have c3 : ¬ j.val = k + 1 := by
      intro h
      apply hj.2.2
      apply Fin.ext
      simp only [jp]; omega
    have : ASpec lm tau t n jk j = 0 := by
      unfold ASpec
      simp [jk, h0, hn, c1, c2, c3]
    rw [this, zero_mul]
  have em : ASpec lm tau t n jk jm = aSpec lm tau t (k - 1) := by
    unfold ASpec
    have : k - 1 + 1 = k := by omega
    simp [jk, jm, h0, hn, this]
  have ek : ASpec lm tau t n jk jk = bSpec lm tau t (k - 1) + bSpec lm tau t k := by
    unfold ASpec
    simp [jk, h0, hn]
  have ep : ASpec lm tau t n jk jp = aSpec lm tau t k := by
    unfold ASpec
    have c1 : ¬ k + 1 + 1 = k := by omega
    simp [jk, jp, h0, hn, c1]
  show ∑ j, ASpec lm tau t n jk j * v j = _
  rw [← Finset.sum_subset (Finset.subset_univ ({jm, jk, jp} : Finset (Fin (n + 1)))) hzero,
    Finset.sum_insert (by simp [hmk, hmp]), Finset.sum_insert (by simp [hkp]),
    Finset.sum_singleton, em, ek, ep]
  ring

end Rows

/-! ## The value of `eval_spline` and the endpoint identities -/

section Evaluation

variable {K : Type} [LinearOrderedField K]

omit [LinearOrderedField K] in
theorem Libm.sinhD_fin (lm : Libm K) (x : K) : lm.sinhD (Dbl.fin x) = lm.sinh x := rfl

omit [LinearOrderedField K] in
theorem Libm.coshD_fin (lm : Libm K) (x : K) : lm.coshD (Dbl.fin x) = lm.cosh x := rfl

theorem abs_inv_mul_le_pow {a b : K} {p q : Nat} (ha : |a⁻¹| ≤ 2 ^ p) (hb : |b⁻¹| ≤ 2 ^ q) :
    |(a * b)⁻¹| ≤ 2 ^ (p + q) := by
  rw [mul_inv]
  exact abs_mul_le_pow ha hb

/-- The value computed by `eval_spline` when the coefficients it reads are finite,
no divisor vanishes and every operand is of moderate magnitude. -/
theorem eval_spline_fin (lm : Libm K) (s : TensionSpline K) (x : K) (i : Nat)
    (hi ti ti1 yi yi1 zi zi1 S s1 s2 : K)
    (e1 : s.h[i]? = some (Dbl.fin hi)) (e2 : s.t[i]? = some ti) (e3 : s.t[i + 1]? = some ti1)
    (e4 : s.y[i]? = some yi) (e5 : s.y[i + 1]? = some yi1)
    (e6 : s.z[i]? = some (Dbl.fin zi)) (e7 : s.z[i + 1]? = some (Dbl.fin zi1))
    (hh : hi ≠ 0) (ht : s.tau ≠ 0)
    (hS : lm.sinh (s.tau * hi) = Dbl.fin S) (hS0 : S ≠ 0)
    (h1 : lm.sinh (s.tau * (ti1 - x)) = Dbl.fin s1)
    (h2 : lm.sinh (s.tau * (x - ti)) = Dbl.fin s2)
    (mt : Moderate s.tau) (mt' : Moderate s.tau⁻¹) (mh : Moderate hi) (mh' : Moderate hi⁻¹)
    (mS : Moderate S) (mS' : Moderate S⁻¹) (m1 : Moderate s1) (m2 : Moderate s2)
    (md1 : Moderate (ti1 - x)) (md2 : Moderate (x - ti))
    (mzi : Moderate zi) (mzi1 : Moderate zi1) (myi : Moderate yi) (myi1 : Moderate yi1) :
    eval_spline lm s x i = Outcome.ok (Dbl.fin
      ((zi * s1 + zi1 * s2) / (s.tau * s.tau * S)
        + (yi - zi / (s.tau * s.tau)) * (ti1 - x) / hi
        + (yi1 - zi1 / (s.tau * s.tau)) * (x - ti) / hi)) := by
  have htt : s.tau * s.tau ≠ 0 := mul_ne_zero ht ht
  have hd : s.tau * s.tau * S ≠ 0 := mul_ne_zero htt hS0
  -- magnitudes
  have b_th : |s.tau * hi| ≤ 2 ^ (100 + 100) := abs_mul_le_pow mt mh
  have b_td1 : |s.tau * (ti1 - x)| ≤ 2 ^ (100 + 100) := abs_mul_le_pow mt md1
  have b_td2 : |s.tau * (x - ti)| ≤ 2 ^ (100 + 100) := abs_mul_le_pow mt md2
  have b_z1 : |zi * s1| ≤ 2 ^ (100 + 100) := abs_mul_le_pow mzi m1
  have b_z2 : |zi1 * s2| ≤ 2 ^ (100 + 100) := abs_mul_le_pow mzi1 m2
  have b_num : |zi * s1 + zi1 * s2| ≤ 2 ^ (100 + 100 + 1) := abs_add_le_pow b_z1 b_z2
  have b_tt : |s.tau * s.tau| ≤ 2 ^ (100 + 100) := abs_mul_le_pow mt mt
  have b_tt' : |(s.tau * s.tau)⁻¹| ≤ 2 ^ (100 + 100) := abs_inv_mul_le_pow mt' mt'
  have b_den : |s.tau * s.tau * S| ≤ 2 ^ (100 + 100 + 100) := abs_mul_le_pow b_tt mS
  have b_den' : |(s.tau * s.tau * S)⁻¹| ≤ 2 ^ (100 + 100 + 100) := abs_inv_mul_le_pow b_tt' mS'
  have b_t1 : |(zi * s1 + zi1 * s2) / (s.tau * s.tau * S)| ≤ 2 ^ (100 + 100 + 1 + (100 + 100 + 100)) :=
    abs_div_le_pow b_num b_den'
  have b_q1 : |zi / (s.tau * s.tau)| ≤ 2 ^ (100 + (100 + 100)) := abs_div_le_pow mzi b_tt'
  have b_q2 : |zi1 / (s.tau * s.tau)| ≤ 2 ^ (100 + (100 + 100)) := abs_div_le_pow mzi1 b_tt'
  have b_c1 : |yi - zi / (s.tau * s.tau)| ≤ 2 ^ (100 + (100 + 100) + 1) :=
    abs_sub_le_pow (abs_le_pow_mono myi (by norm_num)) b_q1
  have b_c2 : |yi1 - zi1 / (s.tau * s.tau)| ≤ 2 ^ (100 + (100 + 100) + 1) :=
    abs_sub_le_pow (abs_le_pow_mono myi1 (by norm_num)) b_q2
  have b_p1 : |(yi - zi / (s.tau * s.tau)) * (ti1 - x)| ≤ 2 ^ (100 + (100 + 100) + 1 + 100) :=
    abs_mul_le_pow b_c1 md1
  have b_p2 : |(yi1 - zi1 / (s.tau * s.tau)) * (x - ti)| ≤ 2 ^ (100 + (100 + 100) + 1 + 100) :=
    abs_mul_le_pow b_c2 md2
  have b_t2 : |(yi - zi / (s.tau * s.tau)) * (ti1 - x) / hi|
      ≤ 2 ^ (100 + (100 + 100) + 1 + 100 + 100) := abs_div_le_pow b_p1 mh'
  have b_t3 : |(yi1 - zi1 / (s.tau * s.tau)) * (x - ti) / hi|
      ≤ 2 ^ (100 + (100 + 100) + 1 + 100 + 100) := abs_div_le_pow b_p2 mh'
  have b_s1 : |(zi * s1 + zi1 * s2) / (s.tau * s.tau * S)
      + (yi - zi / (s.tau * s.tau)) * (ti1 - x) / hi| ≤ 2 ^ (501 + 1) :=
    abs_add_le_pow b_t1 b_t2
  have b_s2 : |(zi * s1 + zi1 * s2) / (s.tau * s.tau * S)
      + (yi - zi / (s.tau * s.tau)) * (ti1 - x) / hi
      + (yi1 - zi1 / (s.tau * s.tau)) * (x - ti) / hi| ≤ 2 ^ (502 + 1) :=
    abs_add_le_pow b_s1 (abs_le_pow_mono b_t3 (by norm_num))
  unfold eval_spline
  rw [e1, e2, e3, e4, e5, e6, e7]
  simp only [Dbl.fin_mul_fin (Dbl.inRange_of_abs_le _ b_th (by norm_num)),
    Dbl.fin_sub_fin (Dbl.inRange_of_moderate md1), Dbl.fin_sub_fin (Dbl.inRange_of_moderate md2),
    Dbl.fin_mul_fin (Dbl.inRange_of_abs_le _ b_td1 (by norm_num)),
    Dbl.fin_mul_fin (Dbl.inRange_of_abs_le _ b_td2 (by norm_num)),
    Libm.sinhD_fin, hS, h1, h2,
    Dbl.fin_mul_fin (Dbl.inRange_of_abs_le _ b_z1 (by norm_num)),
    Dbl.fin_mul_fin (Dbl.inRange_of_abs_le _ b_z2 (by norm_num)),
    Dbl.fin_add_fin (Dbl.inRange_of_abs_le _ b_num (by norm_num)),
    Dbl.fin_mul_fin (Dbl.inRange_of_abs_le _ b_tt (by norm_num)),
    Dbl.fin_mul_fin (Dbl.inRange_of_abs_le _ b_den (by norm_num)),
    Dbl.fin_div_fin hd (Dbl.inRange_of_abs_le _ b_t1 (by norm_num)),
    Dbl.fin_div_fin htt (Dbl.inRange_of_abs_le _ b_q1 (by norm_num)),
    Dbl.fin_div_fin htt (Dbl.inRange_of_abs_le _ b_q2 (by norm_num)),
    Dbl.fin_sub_fin (Dbl.inRange_of_abs_le _ b_c1 (by norm_num)),
    Dbl.fin_sub_fin (Dbl.inRange_of_abs_le _ b_c2 (by norm_num)),
    Dbl.fin_mul_fin (Dbl.inRange_of_abs_le _ b_p1 (by norm_num)),
    Dbl.fin_mul_fin (Dbl.inRange_of_abs_le _ b_p2 (by norm_num)),
    Dbl.fin_div_fin hh (Dbl.inRange_of_abs_le _ b_t2 (by norm_num)),
    Dbl.fin_div_fin hh (Dbl.inRange_of_abs_le _ b_t3 (by norm_num)),
    Dbl.fin_add_fin (Dbl.inRange_of_abs_le _ b_s1 (by norm_num)),
    Dbl.fin_add_fin (Dbl.inRange_of_abs_le _ b_s2 (by norm_num)),
    Dbl.isNaN_fin, Bool.or_self, Bool.false_eq_true, if_false]

theorem modelSpec_lookup (lm : Libm K) (t y : List K) (tau : K) (n i : Nat)
    (hn : t.length = n + 1) (hlen : t.length = y.length) (hi : i < n) :
    (modelSpec lm t y tau n).h[i]? = some (Dbl.fin (hSpec t i)) ∧
    (modelSpec lm t y tau n).t[i]? = some (t.getD i 0) ∧
    (modelSpec lm t y tau n).t[i + 1]? = some (t.getD (i + 1) 0) ∧
    (modelSpec lm t y tau n).y[i]? = some (y.getD i 0) ∧
    (modelSpec lm t y tau n).y[i + 1]? = some (y.getD (i + 1) 0) ∧
    (modelSpec lm t y tau n).z[i]? = some (Dbl.fin (zAt lm tau t y n i)) ∧
    (modelSpec lm t y tau n).z[i + 1]? = some (Dbl.fin (zAt lm tau t y n (i + 1))) := by
  have hd : i < (diffs t).length := by rw [length_diffs]; omega
  have h1 : i < t.length := by omega
  have h2 : i + 1 < t.length := by omega
  have h3 : i < y.length := by omega
  have h4 : i + 1 < y.length := by omega
  have h5 : i < n + 1 := by omega
  have h6 : i + 1 < n + 1 := by omega
  refine ⟨?_, ?_, ?_, ?_, ?_, ?_, ?_⟩
  · show ((diffs t).map Dbl.fin)[i]? = _
    rw [List.getElem?_eq_getElem (by simpa using hd), List.getElem_map, ← getD_diffs t i h2 0,
      List.getD_eq_getElem _ _ hd]
  · show t[i]? = _
    rw [List.getElem?_eq_getElem h1, List.getD_eq_getElem _ _ h1]
  · show t[i + 1]? = _
    rw [List.getElem?_eq_getElem h2, List.getD_eq_getElem _ _ h2]
  · show y[i]? = _
    rw [List.getElem?_eq_getElem h3, List.getD_eq_getElem _ _ h3]
  · show y[i + 1]? = _
    rw [List.getElem?_eq_getElem h4, List.getD_eq_getElem _ _ h4]
  · show (List.ofFn (fun j => Dbl.fin (zSpec lm tau t y n j)))[i]? = _
    rw [List.getElem?_eq_getElem (by simpa using h5), List.getElem_ofFn]
    simp [zAt, h5]
  · show (List.ofFn (fun j => Dbl.fin (zSpec lm tau t y n j)))[i + 1]? = _
    rw [List.getElem?_eq_getElem (by simpa using h6), List.getElem_ofFn]
    simp [zAt, h6]

/-- On the model of the specification `eval_spline` returns the basis formula, on
a regular interval and for a regular query, when the data and the moments are of
moderate magnitude. -/
theorem eval_spline_model (lm : Libm K) (t y : List K) (tau : K) (n i : Nat) (x : K)
    (hn : t.length = n + 1) (hlen : t.length = y.length) (hi : i < n) (ht : tau ≠ 0)
    (md : ModerateData tau y) (hreg : RegularInterval lm tau t i)
    (hq : RegularQuery lm tau t i x)
    (mz : ∀ k, Moderate (zAt lm tau t y n k)) :
    eval_spline lm (modelSpec lm t y tau n) x i
      = Outcome.ok (Dbl.fin (splineSpec lm tau t y n i x)) := by
  obtain ⟨e1, e2, e3, e4, e5, e6, e7⟩ := modelSpec_lookup lm t y tau n i hn hlen hi
  obtain ⟨mt, mt', my⟩ := md
  obtain ⟨h0, mh, mh', S, C, hS, hC, hS0, mS, mS', mC⟩ := hreg
  obtain ⟨md1, md2, s1, s2, h1, h2, m1, m2⟩ := hq
  rw [eval_spline_fin lm (modelSpec lm t y tau n) x i _ _ _ _ _ _ _ S s1 s2 e1 e2 e3 e4 e5 e6 e7
    h0 ht hS hS0 h1 h2 mt mt' mh mh' mS mS' m1 m2 md1 md2 (mz _) (mz _)
    (moderate_getD y my _) (moderate_getD y my _)]
  unfold splineSpec
  rw [lm.sinhValue_eq hS, lm.sinhValue_eq h1, lm.sinhValue_eq h2]
  rfl

/-- Endpoint identity: the basis formula of interval `i` takes the value `y_{i+1}`
at the right knot of the interval. -/
theorem splineSpec_right (lm : Libm K) (tau : K) (t y : List K) (n i : Nat)
    (h0 : lm.sinhValue 0 = 0) (hh : hSpec t i ≠ 0) (ht : tau ≠ 0)
    (hs : lm.sinhValue (tau * hSpec t i) ≠ 0) :
    splineSpec lm tau t y n i (t.getD (i + 1) 0) = y.getD (i + 1) 0 := by
  unfold splineSpec
  have e : t.getD (i + 1) 0 - t.getD i 0 = hSpec t i := rfl
  rw [sub_self, mul_zero, h0, e]
  field_simp
  ring

/-- Endpoint identity: the basis formula of interval `i` takes the value `y_i`
at the left knot of the interval. -/
theorem splineSpec_left (lm : Libm K) (tau : K) (t y : List K) (n i : Nat)
    (h0 : lm.sinhValue 0 = 0) (hh : hSpec t i ≠ 0) (ht : tau ≠ 0)
    (hs : lm.sinhValue (tau * hSpec t i) ≠ 0) :
    splineSpec lm tau t y n i (t.getD i 0) = y.getD i 0 := by
  unfold splineSpec
  have e : t.getD (i + 1) 0 - t.getD i 0 = hSpec t i := rfl
  rw [sub_self, mul_zero, h0, e]
  field_simp
  ring

end Evaluation

/-! ## The loop of `eval_vector` and the tests at its head -/

section Loop

variable {K : Type} [LinearOrderedField K]

theorem advance_eq (s : TensionSpline K) (i : Nat) (x : K) :
    advance s i x = if i + 2 < s.t.length ∧ s.t.getD (i + 1) 0 < x then i + 1 else i := by
  unfold advance
  by_cases h : i + 2 < s.t.length
  · have h1 : i + 1 < s.t.length := by omega
    rw [dif_pos h, List.getD_eq_getElem _ _ h1]
    by_cases hx : s.t[i + 1] < x
    · rw [if_pos hx, if_pos ⟨h, hx⟩]
    · rw [if_neg hx, if_neg (fun hc => hx hc.2)]
  · rw [dif_neg h, if_neg (fun hc => h hc.1)]

/-- The cursor stays below `n`: the interval that it designates exists. -/
theorem advance_lt (s : TensionSpline K) (i n : Nat) (x : K) (hn : s.t.length = n + 1)
    (hi : i < n) : advance s i x < n := by
  rw [advance_eq]
  split_ifs with h
  · omega
  · exact hi

theorem eval_loop_thrown (lm : Libm K) (s : TensionSpline K) (q : List K) (i : Nat) (e : ERRORS)
    (h : eval_loop lm s i q = Outcome.thrown e) : e = ERRORS.TAU_IS_TOO_SMALL_OR_TOO_LARGE := by
  induction q generalizing i with
  | nil => cases h
  | cons x xs ih =>
    unfold eval_loop at h
    cases h1 : eval_spline lm s x (advance s i x) with
    | ok v =>
      rw [h1] at h
      simp only at h
      cases h2 : eval_loop lm s (advance s i x) xs with
      | ok vs => rw [h2] at h; cases h
      | thrown e2 =>
        rw [h2] at h
        simp only [Outcome.thrown.injEq] at h
        subst h
        exact ih _ h2
      | undefined => rw [h2] at h; cases h
    | thrown e1 =>
      rw [h1] at h
      simp only [error_handler, Outcome.thrown.injEq] at h
      exact h.symm
    | undefined => rw [h1] at h; cases h

theorem eval_loop_length (lm : Libm K) (s : TensionSpline K) (q : List K) (i : Nat)
    (out : List (Dbl K)) (h : eval_loop lm s i q = Outcome.ok out) : out.length = q.length := by
  induction q generalizing i out with
  | nil =>
    unfold eval_loop at h
    simp only [Outcome.ok.injEq] at h
    subst h
    rfl
  | cons x xs ih =>
    unfold eval_loop at h
    cases h1 : eval_spline lm s x (advance s i x) with
    | ok v =>
      rw [h1] at h
      simp only at h
      cases h2 : eval_loop lm s (advance s i x) xs with
      | ok vs =>
        rw [h2] at h
        simp only [Outcome.ok.injEq] at h
        subst h
        simp [ih _ _ h2]
      | thrown e2 => rw [h2] at h; cases h
      | undefined => rw [h2] at h; cases h
    | thrown e1 => rw [h1] at h; cases h
    | undefined => rw [h1] at h; cases h

theorem advance_ge (s : TensionSpline K) (i : Nat) (x : K) : i ≤ advance s i x := by
  rw [advance_eq]
  split_ifs <;> omega

theorem advance_le (s : TensionSpline K) (i : Nat) (x : K) : advance s i x ≤ i + 1 := by
  rw [advance_eq]
  split_ifs <;> omega

theorem advance_in_range (s : TensionSpline K) (i : Nat) (x : K) (hi : i + 1 < s.t.length) :
    advance s i x + 1 < s.t.length := by
  rw [advance_eq]
  split_ifs with h
  · omega
  · exact hi

theorem eval_spline_ne_undefined (lm : Libm K) (s : TensionSpline K) (x : K) (i : Nat)
    (h1 : i < s.h.length) (h2 : i + 1 < s.t.length) (h3 : i + 1 < s.y.length)
    (h4 : i + 1 < s.z.length) :
    eval_spline lm s x i ≠ Outcome.undefined := by
  unfold eval_spline
  rw [List.getElem?_eq_getElem h1, List.getElem?_eq_getElem (show i < s.t.length by omega),
    List.getElem?_eq_getElem h2, List.getElem?_eq_getElem (show i < s.y.length by omega),
    List.getElem?_eq_getElem h3, List.getElem?_eq_getElem (show i < s.z.length by omega),
    List.getElem?_eq_getElem h4]
  simp only [error_handler]
  split_ifs <;> simp

theorem eval_loop_ne_undefined (lm : Libm K) (s : TensionSpline K)
    (hh : s.h.length + 1 = s.t.length) (hy : s.y.length = s.t.length)
    (hz : s.z.length = s.t.length) (q : List K) (i : Nat) (hi : i + 1 < s.t.length) :
    eval_loop lm s i q ≠ Outcome.undefined := by
  induction q generalizing i with
  | nil => simp [eval_loop]
  | cons x xs ih =>
    have hi2 := advance_in_range s i x hi
    have h1 := eval_spline_ne_undefined lm s x (advance s i x) (by omega) hi2 (by omega)
      (by omega)
    have h2 := ih _ hi2
    unfold eval_loop
    cases e1 : eval_spline lm s x (advance s i x) with
    | ok v =>
      simp only
      cases e2 : eval_loop lm s (advance s i x) xs with
      | ok vs => simp
      | thrown e => simp
      | undefined => exact absurd e2 h2
    | thrown e => simp [error_handler]
    | undefined => exact absurd e1 h1

theorem cursors_chain (s : TensionSpline K) (q : List K) (i : Nat) :
    List.Chain (fun a b => a ≤ b ∧ b ≤ a + 1) i (cursors s i q) := by
  induction q generalizing i with
  | nil => exact List.Chain.nil
  | cons x xs ih =>
    exact List.Chain.cons ⟨advance_ge s i x, advance_le s i x⟩ (ih _)

theorem cursors_in_range (s : TensionSpline K) (q : List K) (i : Nat)
    (hi : i + 1 < s.t.length) : ∀ c ∈ cursors s i q, c + 1 < s.t.length := by
  induction q generalizing i with
  | nil => intro c hc; cases hc
  | cons x xs ih =>
    intro c hc
    have hi2 := advance_in_range s i x hi
    rcases List.mem_cons.1 hc with h | h
    · rw [h]; exact hi2
    · exact ih _ hi2 c h

/-- The two tests at the head of `eval_vector`, for at least two queries. -/
theorem eval_vector_eq (lm : Libm K) (s : TensionSpline K) (q : List K) (hq : 2 ≤ q.length) :
    eval_vector lm s q =
      if ∃ d ∈ diffs q, d < 0 then Outcome.thrown ERRORS.T_MUST_BE_STRICTLY_INCREASING
      else if s.is_fitted = false then Outcome.thrown ERRORS.SPLINE_HAS_NOT_BEEN_FITTED
      else eval_loop lm s 0 q := by
  unfold eval_vector
  simp only [vsub_map_fin, error_handler]
  rw [if_neg (by omega)]
  obtain ⟨d, hm⟩ := minCoeff_diffs_isSome q hq
  rw [hm]
  simp only
  have hiff := minCoeff_diffs_lt q d hm
  by_cases h1 : ∃ x ∈ diffs q, x < 0
  · rw [if_pos (hiff.2 h1), if_pos h1]
  · rw [if_neg (fun hc => h1 (hiff.1 hc)), if_neg h1]
    cases s.is_fitted <;> simp

theorem eval_vector_thrown_iff (lm : Libm K) (s : TensionSpline K) (q : List K)
    (hq : 2 ≤ q.length) (hf : s.is_fitted = true) :
    eval_vector lm s q = Outcome.thrown ERRORS.T_MUST_BE_STRICTLY_INCREASING
      ↔ ∃ d ∈ diffs q, d < 0 := by
  rw [eval_vector_eq lm s q hq]
  by_cases h1 : ∃ x ∈ diffs q, x < 0
  · simp [h1]
  · rw [if_neg h1, if_neg (by simp [hf])]
    constructor
    · intro h
      have := eval_loop_thrown lm s q 0 _ h
      cases this
    · intro h
      exact absurd h h1

/-- What a result of `eval_vector` establishes: the object is fitted and the
result is the one of the loop. -/
theorem eval_vector_ok_inv (lm : Libm K) (s : TensionSpline K) (q : List K)
    (out : List (Dbl K)) (h : eval_vector lm s q = Outcome.ok out) :
    s.is_fitted = true ∧ eval_loop lm s 0 q = Outcome.ok out := by
  unfold eval_vector at h
  simp only [error_handler] at h
  by_cases h0 : q.length = 0
  · rw [if_pos h0] at h; cases h
  rw [if_neg h0] at h
  cases hm : minCoeff (vsub (tail (q.length - 1) (q.map Dbl.fin))
      (head (q.length - 1) (q.map Dbl.fin))) with
  | none => rw [hm] at h; cases h
  | some d =>
    rw [hm] at h
    simp only at h
    by_cases hd : Dbl.lt d (Dbl.fin 0) = true
    · rw [if_pos hd] at h; cases h
    rw [if_neg hd] at h
    cases hf : s.is_fitted with
    | false => rw [hf] at h; simp at h
    | true =>
      rw [hf] at h
      exact ⟨rfl, by simpa using h⟩

theorem eval_vector_ok_loop (lm : Libm K) (s : TensionSpline K) (q : List K)
    (out : List (Dbl K)) (h : eval_vector lm s q = Outcome.ok out) :
    eval_loop lm s 0 q = Outcome.ok out :=
  (eval_vector_ok_inv lm s q out h).2

theorem eval_vector_length (lm : Libm K) (s : TensionSpline K) (q : List K)
    (out : List (Dbl K)) (h : eval_vector lm s q = Outcome.ok out) : out.length = q.length :=
  eval_loop_length lm s q 0 out (eval_vector_ok_loop lm s q out h)

theorem eval_vector_not_fitted (lm : Libm K) (s : TensionSpline K) (q : List K)
    (hf : s.is_fitted = true) :
    eval_vector lm s q ≠ Outcome.thrown ERRORS.SPLINE_HAS_NOT_BEEN_FITTED := by
  intro h
  unfold eval_vector at h
  simp only [error_handler] at h
  by_cases h0 : q.length = 0
  · rw [if_pos h0] at h; cases h
  rw [if_neg h0] at h
  cases hm : minCoeff (vsub (tail (q.length - 1) (q.map Dbl.fin))
      (head (q.length - 1) (q.map Dbl.fin))) with
  | none => rw [hm] at h; cases h
  | some d =>
    rw [hm] at h
    simp only at h
    by_cases hd : Dbl.lt d (Dbl.fin 0) = true
    · rw [if_pos hd] at h; cases h
    rw [if_neg hd, hf] at h
    simp only [Bool.not_true, Bool.false_eq_true, if_false] at h
    have := eval_loop_thrown lm s q 0 _ h
    cases this

end Loop

/-! ## The order of the checks of `fit` -/

section Validation

variable {K : Type} [LinearOrderedField K]

/-- The order of the four checks of `fit`, for at least two knots: the first
check that fails decides the error. -/
theorem new_validation_order (lm : Libm K) (t y : List K) (tau : K) (h2 : 2 ≤ t.length) :
    (t.length ≠ y.length →
      new lm t y tau = Outcome.thrown ERRORS.T_AND_Y_MUST_HAVE_SAME_LENGTH) ∧
    (t.length = y.length → tau ≤ 0 →
      new lm t y tau = Outcome.thrown ERRORS.TAU_MUST_BE_POSITIVE) ∧
    (t.length = y.length → 0 < tau → (∃ d ∈ diffs t, d < 0) →
      new lm t y tau = Outcome.thrown ERRORS.T_MUST_BE_STRICTLY_INCREASING) ∧
    (t.length = y.length → 0 < tau → (∀ d ∈ diffs t, 0 ≤ d) → t.length < 3 →
      new lm t y tau = Outcome.thrown ERRORS.T_AND_Y_MUST_HAVE_AT_LEAST_3_ELEMENTS) := by
  have h0 : ¬ t.length = 0 := by omega
  obtain ⟨d, hm⟩ := minCoeff_diffs_isSome t h2
  have hiff := minCoeff_diffs_lt t d hm
  refine ⟨?_, ?_, ?_, ?_⟩
  · intro hl
    unfold new fit
    simp only [error_handler]
    rw [if_neg h0, if_pos hl]
  · intro hl ht
    unfold new fit
    simp only [error_handler]
    rw [if_neg h0, if_neg (not_not.2 hl), if_pos ht]
  · intro hl ht hd
    unfold new fit
    simp only [error_handler, vsub_map_fin]
    rw [if_neg h0, if_neg (not_not.2 hl), if_neg (not_le.2 ht), hm]
    simp only
    rw [if_pos (hiff.2 hd)]
  · intro hl ht hd h3
    unfold new fit
    simp only [error_handler, vsub_map_fin]
    rw [if_neg h0, if_neg (not_not.2 hl), if_neg (not_le.2 ht), hm]
    simp only
    have : ¬ Dbl.lt d (Dbl.fin 0) = true := by
      intro hc
      obtain ⟨x, hx, hx0⟩ := hiff.1 hc
      exact absurd (hd x hx) (not_le.2 hx0)
    rw [if_neg this, if_pos h3]

/-- The examples of the specification that have at least two knots. -/
theorem new_validation_examples (lm : Libm ℝ) (y : List ℝ) :
    (y.length = 5 →
      new lm [1, 2, 3, 4] y 1 = Outcome.thrown ERRORS.T_AND_Y_MUST_HAVE_SAME_LENGTH) ∧
    (y.length = 5 →
      new lm [1, 2, 3, 4, 5] y (-1) = Outcome.thrown ERRORS.TAU_MUST_BE_POSITIVE) ∧
    (y.length = 5 →
      new lm [1, 2, 3, 4, 1] y 1 = Outcome.thrown ERRORS.T_MUST_BE_STRICTLY_INCREASING) ∧
    (y.length = 2 →
      new lm [1, 2] y 1 = Outcome.thrown ERRORS.T_AND_Y_MUST_HAVE_AT_LEAST_3_ELEMENTS) := by
  refine ⟨?_, ?_, ?_, ?_⟩
  · intro hy
    exact (new_validation_order lm [1, 2, 3, 4] y 1 (by simp)).1 (by simp [hy])
  · intro hy
    exact (new_validation_order lm [1, 2, 3, 4, 5] y (-1) (by simp)).2.1 (by simp [hy])
      (by norm_num)
  · intro hy
    exact (new_validation_order lm [1, 2, 3, 4, 1] y 1 (by simp)).2.2.1 (by simp [hy])
      one_pos ⟨1 - 4, by simp [diffs], by norm_num⟩
  · intro hy
    exact (new_validation_order lm [1, 2] y 1 (by simp)).2.2.2 (by simp [hy])
      one_pos (by simp [diffs]) (by simp)

/-- An interval of length zero makes `a_` hold a `NaN` (`inf - inf`), when the
library returns `0` for `sinh(0)`. -/
theorem fit_a_nan_of_zero (lm : Libm K) (tau : K) (t : List K) (htau : 0 < tau)
    (h0 : lm.sinh 0 = Dbl.fin 0) (i : Nat) (hi : i + 1 < t.length) (hz : hSpec t i = 0) :
    (fit_a lm tau ((diffs t).map Dbl.ofExact)).any Dbl.isNaN = true := by
  rw [List.any_eq_true]
  refine ⟨Dbl.nan, ?_, rfl⟩
  unfold fit_a
  rw [List.mem_map]
  refine ⟨Dbl.fin 0, ?_, ?_⟩
  · rw [List.mem_map]
    exact ⟨hSpec t i, hSpec_mem_diffs t i hi, by rw [hz, Dbl.ofExact_zero]⟩
  · have e : (Dbl.fin tau * Dbl.fin 0 : Dbl K) = Dbl.fin 0 := by
      rw [Dbl.fin_mul_fin (by rw [mul_zero]; exact Dbl.inRange_zero), mul_zero]
    rw [e, Libm.sinhD_fin, h0, Dbl.fin_div_zero, Dbl.fin_div_zero]
    show Dbl.add (Dbl.signedInf 1) (Dbl.neg (Dbl.signedInf tau)) = Dbl.nan
    simp [Dbl.signedInf, Dbl.neg, Dbl.add, htau, ne_of_gt htau]

end Validation

/-! ## Regular intervals and regular queries for `realLibm` -/

section RealRegular

theorem exp_le_of_abs_le_32 {x : ℝ} (hx : |x| ≤ 32) : Real.exp |x| ≤ 2 ^ 100 := by
  have h1 : Real.exp |x| ≤ Real.exp ((32 : Nat) : ℝ) := Real.exp_le_exp.2 (by simpa using hx)
  have h2 := exp_nat_le 32
  have h3 : (3 : ℝ) ^ 32 ≤ 2 ^ 100 := by norm_num
  linarith

/-- On `[-32, 32]`, away from zero or at zero, the library returns the real
hyperbolic sine, which is of moderate magnitude. -/
theorem realLibm_sinh_moderate {x : ℝ} (h2 : |x| ≤ 32) (h1 : 1 / 2 ^ 28 ≤ |x| ∨ x = 0) :
    realLibm.sinh x = Dbl.fin (Real.sinh x) ∧ Moderate (Real.sinh x) :=
  ⟨realLibm_sinhValue (le_trans h2 (by norm_num)) h1,
    le_trans (abs_sinh_le_exp x) (exp_le_of_abs_le_32 h2)⟩

theorem realLibm_cosh_moderate {x : ℝ} (h2 : |x| ≤ 32) (h1 : 1 / 2 ^ 28 ≤ |x|) :
    realLibm.cosh x = Dbl.fin (Real.cosh x) ∧ Moderate (Real.cosh x) := by
  refine ⟨realLibm_cosh_eq h1 (le_trans h2 (by norm_num)), ?_⟩
  unfold Moderate
  rw [abs_of_pos (Real.cosh_pos x)]
  exact le_trans (cosh_le_exp x) (exp_le_of_abs_le_32 h2)

theorem realLibm_sinhValue_eq {x : ℝ} (h2 : |x| ≤ 32) (h1 : 1 / 2 ^ 28 ≤ |x| ∨ x = 0) :
    realLibm.sinhValue x = Real.sinh x :=
  realLibm.sinhValue_eq (realLibm_sinh_moderate h2 h1).1

theorem realLibm_coshValue_eq {x : ℝ} (h2 : |x| ≤ 32) (h1 : 1 / 2 ^ 28 ≤ |x|) :
    realLibm.coshValue x = Real.cosh x :=
  realLibm.coshValue_eq (realLibm_cosh_moderate h2 h1).1

/-- An interval is regular for `realLibm` when `tau h_i` lies between `2^-28` and
`32` and the length `h_i` lies between `2^-100` and `2^100`. -/
theorem realLibm_regularInterval (tau : ℝ) (t : List ℝ) (i : Nat)
    (h1 : 1 / 2 ^ 28 ≤ tau * hSpec t i) (h2 : tau * hSpec t i ≤ 32)
    (hh : 0 < hSpec t i) (mh : Moderate (hSpec t i)) (mh' : Moderate (hSpec t i)⁻¹) :
    RegularInterval realLibm tau t i := by
  have hx : 0 < tau * hSpec t i := lt_of_lt_of_le (by positivity) h1
  have hab : |tau * hSpec t i| = tau * hSpec t i := abs_of_pos hx
  obtain ⟨hS, mS⟩ := realLibm_sinh_moderate (x := tau * hSpec t i) (by rw [hab]; exact h2)
    (Or.inl (by rw [hab]; exact h1))
  obtain ⟨hC, mC⟩ := realLibm_cosh_moderate (x := tau * hSpec t i) (by rw [hab]; exact h2)
    (by rw [hab]; exact h1)
  have hs : tau * hSpec t i < Real.sinh (tau * hSpec t i) := Real.self_lt_sinh_iff.2 hx
  have hs0 : 0 < Real.sinh (tau * hSpec t i) := lt_trans hx hs
  refine ⟨ne_of_gt hh, mh, mh', _, _, hS, hC, ne_of_gt hs0, mS, ?_, mC⟩
  unfold Moderate
  rw [abs_of_pos (inv_pos.2 hs0)]
  have h3 : (Real.sinh (tau * hSpec t i))⁻¹ ≤ (1 / 2 ^ 28 : ℝ)⁻¹ :=
    inv_anti₀ (by positivity) (le_trans h1 hs.le)
  have h4 : (1 / 2 ^ 28 : ℝ)⁻¹ ≤ 2 ^ 100 := by norm_num
  linarith

/-- A query is regular for `realLibm` and interval `i` when `tau (t_{i+1} - x)` and
`tau (x - t_i)` lie in `[-32, 32]`, away from zero or at zero, and the two
distances are of moderate magnitude. -/
theorem realLibm_regularQuery (tau : ℝ) (t : List ℝ) (i : Nat) (x : ℝ)
    (m1 : Moderate (t.getD (i + 1) 0 - x)) (m2 : Moderate (x - t.getD i 0))
    (h1 : |tau * (t.getD (i + 1) 0 - x)| ≤ 32)
    (h1' : 1 / 2 ^ 28 ≤ |tau * (t.getD (i + 1) 0 - x)| ∨ tau * (t.getD (i + 1) 0 - x) = 0)
    (h2 : |tau * (x - t.getD i 0)| ≤ 32)
    (h2' : 1 / 2 ^ 28 ≤ |tau * (x - t.getD i 0)| ∨ tau * (x - t.getD i 0) = 0) :
    RegularQuery realLibm tau t i x :=
  ⟨m1, m2, _, _, (realLibm_sinh_moderate h1 h1').1, (realLibm_sinh_moderate h2 h2').1,
    (realLibm_sinh_moderate h1 h1').2, (realLibm_sinh_moderate h2 h2').2⟩

theorem exp_one_inv_bounds : (0.3678 : ℝ) < (Real.exp 1)⁻¹ ∧ (Real.exp 1)⁻¹ < 0.3679 := by
  have h1 := Real.exp_one_gt_d9
  have h2 := Real.exp_one_lt_d9
  have hp : 0 < Real.exp 1 := Real.exp_pos 1
  constructor
  · rw [lt_inv_comm₀ (by norm_num) hp]
    exact lt_trans h2 (by norm_num)
  · rw [inv_lt_comm₀ hp (by norm_num)]
    exact lt_trans (by norm_num) h1

theorem margin_aux (s c h : ℝ) (hs : 0 < s) (key : (2 / h + 1 / 8) * s ≤ c + 1) :
    1 / h - 1 / s + 1 / 8 ≤ 1 * c / s - 1 / h := by
  have h1 : 2 / h + 1 / 8 ≤ (c + 1) / s := (le_div_iff₀ hs).2 key
  have h2 : (c + 1) / s = c / s + 1 / s := add_div c 1 s
  have h3 : 2 / h = 1 / h + 1 / h := by ring
  rw [one_mul]
  linarith

/-- The margin of diagonal dominance for tension `1` and an interval of length `1`. -/
theorem margin_one : 1 / (1 : ℝ) - 1 / Real.sinh 1 + 1 / 8
    ≤ 1 * Real.cosh 1 / Real.sinh 1 - 1 / 1 := by
  have hs : 0 < Real.sinh 1 := Real.sinh_pos_iff.2 one_pos
  obtain ⟨i1, i2⟩ := exp_one_inv_bounds
  have h1 := Real.exp_one_gt_d9
  have h2 := Real.exp_one_lt_d9
  have e : Real.exp (-1) = (Real.exp 1)⁻¹ := Real.exp_neg 1
  apply margin_aux _ _ _ hs
  rw [Real.sinh_eq, Real.cosh_eq, e]
  linarith

/-- The margin of diagonal dominance for tension `1` and an interval of length `2`. -/
theorem margin_two : 1 / (2 : ℝ) - 1 / Real.sinh 2 + 1 / 8
    ≤ 1 * Real.cosh 2 / Real.sinh 2 - 1 / 2 := by
  have hs : 0 < Real.sinh 2 := Real.sinh_pos_iff.2 (by norm_num)
  obtain ⟨i1, i2⟩ := exp_one_inv_bounds
  have h1 := Real.exp_one_gt_d9
  have h2 := Real.exp_one_lt_d9
  have hp : 0 < Real.exp 1 := Real.exp_pos 1
  have e2 : Real.exp 2 = Real.exp 1 * Real.exp 1 := by
    rw [← Real.exp_add]; norm_num
  have e2' : Real.exp (-2) = (Real.exp 1)⁻¹ * (Real.exp 1)⁻¹ := by
    rw [← Real.exp_neg, ← Real.exp_add]; norm_num
  have u1 : Real.exp 1 * Real.exp 1 ≤ 7.4 := by nlinarith
  have u2 : 0 ≤ (Real.exp 1)⁻¹ * (Real.exp 1)⁻¹ := by positivity
  apply margin_aux _ _ _ hs
  rw [Real.sinh_eq, Real.cosh_eq, e2, e2']
  linarith

end RealRegular

/-! ## Computations on the example model -/

section Example

/-- The moments of the specification are bounded by the right-hand side divided
by the margin of diagonal dominance. -/
theorem zAt_bound (lm : Libm ℝ) (tau : ℝ) (t y : List ℝ) (n : Nat) (δ β : ℝ)
    (hδ1 : δ ≤ 1) (hδ0 : 0 < δ)
    (hab : ∀ i, i < n → 0 < aSpec lm tau t i ∧ aSpec lm tau t i + δ ≤ bSpec lm tau t i)
    (hY : ∀ j, |YSpec tau t y n j| ≤ β) (k : Nat) :
    |zAt lm tau t y n k| ≤ β / δ := by
  have hdet := (ASpec_inverse_bound lm tau t n δ hδ1 hδ0 hab 0 0).1
  have hβ : 0 ≤ β := le_trans (abs_nonneg _) (hY 0)
  unfold zAt
  by_cases hk : k < n + 1
  · rw [dif_pos hk]
    exact abs_le_of_dominant _ δ β hδ0 (ASpec_dominant lm tau t n δ hδ1 hδ0.le hab) _ _
      (ASpec_mulVec_zSpec lm tau t y n hdet) hY _
  · rw [dif_neg hk, abs_zero]
    exact div_nonneg hβ hδ0.le

theorem example_hSpec (k : Nat) (hk : k < 3) : hSpec ([0, 1, 2, 3] : List ℝ) k = 1 := by
  interval_cases k <;> norm_num [hSpec]

theorem example_moderate : ModerateData (1 : ℝ) [1, 0, 0, 0] := by
  refine ⟨moderate_one, by rw [inv_one]; exact moderate_one, ?_⟩
  intro v hv
  simp only [List.mem_cons, List.mem_singleton, List.not_mem_nil, or_false] at hv
  rcases hv with h | h | h | h <;> rw [h]
  · exact moderate_one
  all_goals exact moderate_zero

theorem example_regular (k : Nat) (hk : k + 1 < ([0, 1, 2, 3] : List ℝ).length) :
    RegularInterval realLibm 1 [0, 1, 2, 3] k := by
  have hk3 : k < 3 := by simp at hk; omega
  apply realLibm_regularInterval <;> rw [example_hSpec k hk3]
  · norm_num
  · norm_num
  · norm_num
  · exact moderate_one
  · rw [inv_one]; exact moderate_one

theorem example_exact (k : Nat) (hk : k < 3) :
    realLibm.sinh (1 * hSpec ([0, 1, 2, 3] : List ℝ) k)
        = Dbl.fin (Real.sinh (1 * hSpec ([0, 1, 2, 3] : List ℝ) k)) ∧
    realLibm.cosh (1 * hSpec ([0, 1, 2, 3] : List ℝ) k)
        = Dbl.fin (Real.cosh (1 * hSpec ([0, 1, 2, 3] : List ℝ) k)) := by
  rw [example_hSpec k hk]
  exact ⟨realLibm_sinh_eq (by norm_num) (by norm_num), realLibm_cosh_eq (by norm_num) (by norm_num)⟩

theorem example_coeff (k : Nat) (hk : k < 3) :
    0 < aSpec realLibm 1 ([0, 1, 2, 3] : List ℝ) k ∧
    aSpec realLibm 1 ([0, 1, 2, 3] : List ℝ) k + 1 / 8 ≤ bSpec realLibm 1 [0, 1, 2, 3] k := by
  obtain ⟨hS, hC⟩ := example_exact k hk
  refine ⟨aSpec_pos realLibm 1 _ k one_pos (by rw [example_hSpec k hk]; exact one_pos) hS, ?_⟩
  unfold aSpec bSpec
  rw [realLibm.sinhValue_eq hS, realLibm.coshValue_eq hC, example_hSpec k hk, mul_one]
  exact margin_one

theorem example_det : (ASpec realLibm 1 ([0, 1, 2, 3] : List ℝ) 3).det ≠ 0 :=
  (ASpec_inverse_bound realLibm 1 _ 3 (1 / 8) (by norm_num) (by norm_num) example_coeff 0 0).1

theorem example_inverse_bound (i j : Fin (3 + 1)) :
    |((ASpec realLibm 1 ([0, 1, 2, 3] : List ℝ) 3).det⁻¹
        • (ASpec realLibm 1 ([0, 1, 2, 3] : List ℝ) 3).adjugate) i j| ≤ 2 ^ 3 := by
  have h := (ASpec_inverse_bound realLibm 1 ([0, 1, 2, 3] : List ℝ) 3 (1 / 8) (by norm_num)
    (by norm_num) example_coeff i j).2
  have e : (1 : ℝ) / (1 / 8) = 2 ^ 3 := by norm_num
  rw [e] at h
  exact h

/-- The example model is the one that the constructor returns. -/
theorem new_example : new realLibm [0, 1, 2, 3] [1, 0, 0, 0] 1 = Outcome.ok exampleSpline := by
  refine new_eq_ok realLibm [0, 1, 2, 3] [1, 0, 0, 0] 1 3 rfl rfl one_pos (by simp) ?_
    moderate_one example_moderate.2.2 example_regular example_det 3 (by norm_num)
    example_inverse_bound (by norm_num)
  intro i hi
  rw [example_hSpec i (by simp at hi; omega)]
  exact one_pos

theorem example_YSpec (j : Fin (3 + 1)) :
    YSpec (1 : ℝ) [0, 1, 2, 3] [1, 0, 0, 0] 3 j = if j.val = 1 then 1 else 0 := by
  fin_cases j <;> norm_num [YSpec, gSpec, hSpec]

/-- The moments of the example are of moderate magnitude. -/
theorem example_z_moderate (k : Nat) : Moderate (zAt realLibm 1 [0, 1, 2, 3] [1, 0, 0, 0] 3 k) := by
  have h := zAt_bound realLibm 1 [0, 1, 2, 3] [1, 0, 0, 0] 3 (1 / 8) 1 (by norm_num) (by norm_num)
    example_coeff (fun j => by rw [example_YSpec]; split_ifs <;> simp) k
  unfold Moderate
  have e : (1 : ℝ) / (1 / 8) ≤ 2 ^ 100 := by norm_num
  linarith

/-- On the example model `eval_spline` returns the basis formula, for the
queries whose distance to the knots is at most `32` and is zero or at least `2^-28`. -/
theorem example_eval_spline (i : Nat) (hi : i < 3) (x : ℝ)
    (h1 : |([0, 1, 2, 3] : List ℝ).getD (i + 1) 0 - x| ≤ 32)
    (h1' : 1 / 2 ^ 28 ≤ |([0, 1, 2, 3] : List ℝ).getD (i + 1) 0 - x|
      ∨ ([0, 1, 2, 3] : List ℝ).getD (i + 1) 0 - x = 0)
    (h2 : |x - ([0, 1, 2, 3] : List ℝ).getD i 0| ≤ 32)
    (h2' : 1 / 2 ^ 28 ≤ |x - ([0, 1, 2, 3] : List ℝ).getD i 0|
      ∨ x - ([0, 1, 2, 3] : List ℝ).getD i 0 = 0) :
    eval_spline realLibm exampleSpline x i
      = Outcome.ok (Dbl.fin (splineSpec realLibm 1 [0, 1, 2, 3] [1, 0, 0, 0] 3 i x)) := by
  refine eval_spline_model realLibm [0, 1, 2, 3] [1, 0, 0, 0] 1 3 i x rfl rfl hi one_ne_zero
    example_moderate (example_regular i (by simp; omega)) ?_ example_z_moderate
  apply realLibm_regularQuery
  · exact le_trans h1 (by norm_num)
  · exact le_trans h2 (by norm_num)
  · rw [one_mul]; exact h1
  · simp only [one_mul]; exact h1'
  · rw [one_mul]; exact h2
  · simp only [one_mul]; exact h2'

/-- In the example the moment `z_2` is not zero. -/
theorem example_z2_ne_zero : zAt realLibm 1 [0, 1, 2, 3] [1, 0, 0, 0] 3 2 ≠ 0 := by
  have hA := ASpec_mulVec_zSpec realLibm 1 [0, 1, 2, 3] [1, 0, 0, 0] 3 example_det
  have r0 := ASpec_mulVec_boundary realLibm 1 [0, 1, 2, 3] 3
    (zSpec realLibm 1 [0, 1, 2, 3] [1, 0, 0, 0] 3) ⟨0, by omega⟩ (Or.inl rfl)
  have r3 := ASpec_mulVec_boundary realLibm 1 [0, 1, 2, 3] 3
    (zSpec realLibm 1 [0, 1, 2, 3] [1, 0, 0, 0] 3) ⟨3, by omega⟩ (Or.inr rfl)
  have r1 := ASpec_mulVec_interior realLibm 1 [0, 1, 2, 3] 3
    (zSpec realLibm 1 [0, 1, 2, 3] [1, 0, 0, 0] 3) 1 le_rfl (by omega)
  have r2 := ASpec_mulVec_interior realLibm 1 [0, 1, 2, 3] 3
    (zSpec realLibm 1 [0, 1, 2, 3] [1, 0, 0, 0] 3) 2 (by omega) (by omega)
  rw [hA] at r0 r1 r2 r3
  have y0 : YSpec (1 : ℝ) [0, 1, 2, 3] [1, 0, 0, 0] 3 ⟨0, by omega⟩ = 0 := by simp [YSpec]
  have y3 : YSpec (1 : ℝ) [0, 1, 2, 3] [1, 0, 0, 0] 3 ⟨3, by omega⟩ = 0 := by simp [YSpec]
  have y1 : YSpec (1 : ℝ) [0, 1, 2, 3] [1, 0, 0, 0] 3 ⟨1, by omega⟩ = 1 := by
    norm_num [YSpec, gSpec, hSpec]
  have y2 : YSpec (1 : ℝ) [0, 1, 2, 3] [1, 0, 0, 0] 3 ⟨2, by omega⟩ = 0 := by
    norm_num [YSpec, gSpec, hSpec]
  rw [y0] at r0
  rw [y1] at r1
  rw [y2] at r2
  rw [y3] at r3
  simp only [Nat.sub_self, Nat.reduceAdd, Nat.add_one_sub_one] at r1 r2
  have a1 : 0 < aSpec realLibm 1 ([0, 1, 2, 3] : List ℝ) 1 := (example_coeff 1 (by omega)).1
  intro hz
  have e2 : zSpec realLibm 1 [0, 1, 2, 3] [1, 0, 0, 0] 3 ⟨2, by omega⟩ = 0 := by
    simpa [zAt] using hz
  rw [e2, ← r3] at r2
  rw [e2, ← r0] at r1
  simp only [mul_zero, add_zero] at r1 r2
  have z1 : zSpec realLibm 1 [0, 1, 2, 3] [1, 0, 0, 0] 3 ⟨1, by omega⟩ = 0 := by
    rcases mul_eq_zero.1 r2.symm with h | h
    · exact absurd h (ne_of_gt a1)
    · exact h
  rw [z1] at r1
  simp at r1

/-- In the example the formula of interval 1, extended to the knot `t_3 = 3`,
does not take the value `y_3 = 0`. -/
theorem example_interval1_at_3 :
    splineSpec realLibm 1 [0, 1, 2, 3] [1, 0, 0, 0] 3 1 3 ≠ 0 := by
  have hs1 : Real.sinh 1 ≠ 0 := by rw [Real.sinh_ne_zero]; norm_num
  have hc1 : (1 : ℝ) < Real.cosh 1 := Real.one_lt_cosh.2 one_ne_zero
  have v0 : realLibm.sinhValue (1 * hSpec ([0, 1, 2, 3] : List ℝ) 1) = Real.sinh 1 := by
    rw [example_hSpec 1 (by omega), mul_one]
    exact realLibm_sinhValue_eq (by norm_num) (Or.inl (by norm_num))
  have v1 : realLibm.sinhValue (1 * (([0, 1, 2, 3] : List ℝ).getD (1 + 1) 0 - 3))
      = - Real.sinh 1 := by
    have e : (1 : ℝ) * (([0, 1, 2, 3] : List ℝ).getD (1 + 1) 0 - 3) = -1 := by norm_num
    rw [e, realLibm_sinhValue_eq (by norm_num) (Or.inl (by norm_num)), Real.sinh_neg]
  have v2 : realLibm.sinhValue (1 * (3 - ([0, 1, 2, 3] : List ℝ).getD 1 0))
      = 2 * Real.sinh 1 * Real.cosh 1 := by
    have e : (1 : ℝ) * (3 - ([0, 1, 2, 3] : List ℝ).getD 1 0) = 2 * 1 := by norm_num
    rw [e, realLibm_sinhValue_eq (by norm_num) (Or.inl (by norm_num)), Real.sinh_two_mul]
  have e : splineSpec realLibm 1 [0, 1, 2, 3] [1, 0, 0, 0] 3 1 3
      = 2 * zAt realLibm 1 [0, 1, 2, 3] [1, 0, 0, 0] 3 2 * (Real.cosh 1 - 1) := by
    unfold splineSpec
    rw [v0, v1, v2, example_hSpec 1 (by omega)]
    norm_num
    field_simp
    ring
  rw [e]
  exact mul_ne_zero (mul_ne_zero two_ne_zero example_z2_ne_zero) (sub_ne_zero.2 (ne_of_gt hc1))

theorem example_advance_0_3 : advance exampleSpline 0 (3 : ℝ) = 1 := by
  rw [advance_eq]
  show (if 0 + 2 < ([0, 1, 2, 3] : List ℝ).length ∧ ([0, 1, 2, 3] : List ℝ).getD (0 + 1) 0 < 3
    then 0 + 1 else 0) = 1
  norm_num

theorem example_advance_0_0 : advance exampleSpline 0 (0 : ℝ) = 0 := by
  rw [advance_eq]
  show (if 0 + 2 < ([0, 1, 2, 3] : List ℝ).length ∧ ([0, 1, 2, 3] : List ℝ).getD (0 + 1) 0 < 0
    then 0 + 1 else 0) = 0
  norm_num

theorem example_eval_1_3 :
    eval_spline realLibm exampleSpline 3 1
      = Outcome.ok (Dbl.fin (splineSpec realLibm 1 [0, 1, 2, 3] [1, 0, 0, 0] 3 1 3)) :=
  example_eval_spline 1 (by omega) 3 (by norm_num) (Or.inl (by norm_num)) (by norm_num)
    (Or.inl (by norm_num))

theorem example_sinhValue_zero : realLibm.sinhValue 0 = 0 := by
  rw [realLibm_sinhValue_eq (by norm_num) (Or.inr rfl), Real.sinh_zero]

theorem example_sinhValue_ne (k : Nat) (hk : k < 3) :
    realLibm.sinhValue (1 * hSpec ([0, 1, 2, 3] : List ℝ) k) ≠ 0 := by
  rw [realLibm.sinhValue_eq (example_exact k hk).1, example_hSpec k hk, Real.sinh_ne_zero]
  norm_num

theorem example_eval_0_0 : eval_spline realLibm exampleSpline 0 0 = Outcome.ok (Dbl.fin 1) := by
  rw [example_eval_spline 0 (by omega) 0 (by norm_num) (Or.inl (by norm_num)) (by norm_num)
    (Or.inr (by norm_num))]
  have hl := splineSpec_left realLibm 1 [0, 1, 2, 3] [1, 0, 0, 0] 3 0 example_sinhValue_zero
    (by rw [example_hSpec 0 (by omega)]; exact one_ne_zero) one_ne_zero
    (example_sinhValue_ne 0 (by omega))
  simp only [List.getD_cons_zero] at hl
  rw [hl]

/-- The loop of `eval_vector` on the single query `3`, from cursor `0`. -/
theorem example_loop_single :
    eval_loop realLibm exampleSpline 0 [3]
      = Outcome.ok [Dbl.fin (splineSpec realLibm 1 [0, 1, 2, 3] [1, 0, 0, 0] 3 1 3)] := by
  unfold eval_loop
  rw [example_advance_0_3, example_eval_1_3]
  simp only
  unfold eval_loop
  rfl

/-- The call `eval_vector` on the queries `0, 3`. -/
theorem example_eval_pair :
    eval_vector realLibm exampleSpline [0, 3]
      = Outcome.ok [Dbl.fin 1, Dbl.fin (splineSpec realLibm 1 [0, 1, 2, 3] [1, 0, 0, 0] 3 1 3)] := by
  rw [eval_vector_eq realLibm exampleSpline [0, 3] (by simp)]
  have h1 : ¬ ∃ d ∈ diffs ([0, 3] : List ℝ), d < 0 := by
    simp [diffs]
  rw [if_neg h1, if_neg (by simp [exampleSpline, modelSpec])]
  unfold eval_loop
  rw [example_advance_0_0, example_eval_0_0]
  simp only
  rw [example_loop_single]

/-- In the example the formula of the last interval takes the value `y_3 = 0` at `t_3 = 3`. -/
theorem example_last_interval :
    eval_spline realLibm exampleSpline 3 2 = Outcome.ok (Dbl.fin 0) := by
  rw [example_eval_spline 2 (by omega) 3 (by norm_num) (Or.inr (by norm_num)) (by norm_num)
    (Or.inl (by norm_num))]
  have hr := splineSpec_right realLibm 1 [0, 1, 2, 3] [1, 0, 0, 0] 3 2 example_sinhValue_zero
    (by rw [example_hSpec 2 (by omega)]; exact one_ne_zero) one_ne_zero
    (example_sinhValue_ne 2 (by omega))
  have e1 : ([0, 1, 2, 3] : List ℝ).getD (2 + 1) 0 = 3 := rfl
  have e2 : ([1, 0, 0, 0] : List ℝ).getD (2 + 1) 0 = 0 := rfl
  rw [e1, e2] at hr
  rw [hr]

end Example

/-! ## Collinear data -/

section Collinear

variable {K : Type} [LinearOrderedField K]

theorem getD_map_line (t : List K) (m c : K) (i : Nat) (hi : i < t.length) :
    (t.map (fun x => m * x + c)).getD i 0 = m * t.getD i 0 + c := by
  rw [List.getD_eq_getElem _ _ (by simpa using hi), List.getD_eq_getElem _ _ hi, List.getElem_map]

theorem gSpec_collinear (tau : K) (t : List K) (m c : K) (i : Nat) (hi : i + 1 < t.length)
    (hh : hSpec t i ≠ 0) :
    gSpec tau t (t.map (fun x => m * x + c)) i = tau ^ 2 * m := by
  unfold gSpec
  rw [getD_map_line t m c (i + 1) hi, getD_map_line t m c i (by omega)]
  have e : m * t.getD (i + 1) 0 + c - (m * t.getD i 0 + c) = m * hSpec t i := by
    unfold hSpec; ring
  rw [e]
  field_simp
  ring

theorem YSpec_collinear (tau : K) (t : List K) (m c : K) (n : Nat) (hn : t.length = n + 1)
    (hh : ∀ i, i < n → hSpec t i ≠ 0) :
    YSpec tau t (t.map (fun x => m * x + c)) n = 0 := by
  funext i
  unfold YSpec
  by_cases hb : i.val = 0 ∨ i.val = n
  · rw [if_pos hb]; rfl
  · have hi := i.isLt
    rw [if_neg hb, gSpec_collinear tau t m c i.val (by omega) (hh _ (by omega)),
      gSpec_collinear tau t m c (i.val - 1) (by omega) (hh _ (by omega)), sub_self]
    rfl

/-- For collinear data all the moments of the specification are zero. -/
theorem zAt_collinear (lm : Libm K) (tau : K) (t : List K) (m c : K) (n : Nat)
    (hn : t.length = n + 1) (hh : ∀ i, i < n → hSpec t i ≠ 0) (i : Nat) :
    zAt lm tau t (t.map (fun x => m * x + c)) n i = 0 := by
  unfold zAt zSpec
  rw [YSpec_collinear tau t m c n hn hh, Matrix.mulVec_zero]
  split_ifs <;> rfl

/-- For collinear data the basis formula of every interval is the line itself. -/
theorem splineSpec_collinear (lm : Libm K) (tau : K) (t : List K) (m c : K) (n : Nat)
    (hn : t.length = n + 1) (hh : ∀ i, i < n → hSpec t i ≠ 0) (i : Nat) (hi : i < n) (x : K) :
    splineSpec lm tau t (t.map (fun x => m * x + c)) n i x = m * x + c := by
  unfold splineSpec
  rw [zAt_collinear lm tau t m c n hn hh, zAt_collinear lm tau t m c n hn hh,
    getD_map_line t m c (i + 1) (by omega), getD_map_line t m c i (by omega)]
  have h0 := hh i hi
  have e : t.getD (i + 1) 0 - t.getD i 0 = hSpec t i := rfl
  simp only [zero_mul, add_zero, zero_div, sub_zero, zero_add]
  rw [← add_div, div_eq_iff h0, ← e]
  ring

end Collinear

/-! ## The loop on regular queries and on the knots -/

section Knots

variable {K : Type} [LinearOrderedField K]

/-- The loop of `eval_vector` on the model of the specification produces the
values of `loopSpec` when every query is regular for every interval. -/
theorem eval_loop_model (lm : Libm K) (t y : List K) (tau : K) (n : Nat)
    (hn : t.length = n + 1) (hlen : t.length = y.length) (ht : tau ≠ 0)
    (md : ModerateData tau y) (hreg : ∀ k, k + 1 < t.length → RegularInterval lm tau t k)
    (mz : ∀ k, Moderate (zAt lm tau t y n k))
    (q : List K) (hq : ∀ x ∈ q, ∀ k, k < n → RegularQuery lm tau t k x) (i : Nat) (hi : i < n) :
    eval_loop lm (modelSpec lm t y tau n) i q
      = Outcome.ok ((loopSpec lm tau t y n i q).map Dbl.fin) := by
  induction q generalizing i with
  | nil => rfl
  | cons x xs ih =>
    have hi2 : advance (modelSpec lm t y tau n) i x < n :=
      advance_lt (modelSpec lm t y tau n) i n x hn hi
    unfold eval_loop
    rw [eval_spline_model lm t y tau n _ x hn hlen hi2 ht md (hreg _ (by omega))
      (hq x (List.mem_cons_self _ _) _ hi2) mz]
    simp only
    rw [ih (fun u hu => hq u (List.mem_cons_of_mem _ hu)) _ hi2]
    rfl

theorem loopSpec_collinear (lm : Libm K) (tau : K) (t : List K) (m c : K) (n : Nat)
    (hn : t.length = n + 1) (hh : ∀ i, i < n → hSpec t i ≠ 0) (q : List K) (i : Nat)
    (hi : i < n) :
    loopSpec lm tau t (t.map (fun x => m * x + c)) n i q = q.map (fun x => m * x + c) := by
  induction q generalizing i with
  | nil => rfl
  | cons x xs ih =>
    have hi2 : advance (modelSpec lm t (t.map (fun x => m * x + c)) tau n) i x < n :=
      advance_lt _ i n x hn hi
    unfold loopSpec
    rw [splineSpec_collinear lm tau t m c n hn hh _ hi2, ih _ hi2]
    rfl

end Knots

/-! ## The guard against `NaN` and the degenerate cases -/

section Degenerate

variable {K : Type} [LinearOrderedField K]

theorem Dbl.isNaN_fin_mul (c : K) (hc : c ≠ 0) (x : Dbl K) (hx : x.isNaN = false) :
    (Dbl.fin c * x).isNaN = false := by
  cases x with
  | fin v => exact Dbl.isNaN_ofExact _
  | pinf =>
    show (Dbl.signedInf c).isNaN = false
    unfold Dbl.signedInf
    rw [if_neg hc]
    split_ifs <;> rfl
  | ninf =>
    show (Dbl.signedInf (-c)).isNaN = false
    unfold Dbl.signedInf
    rw [if_neg (neg_ne_zero.2 hc)]
    split_ifs <;> rfl
  | nan => cases hx

theorem Dbl.isNaN_div_fin (x : Dbl K) (hx : x.isNaN = false) (h : K) (hh : h ≠ 0) :
    (x / Dbl.fin h).isNaN = false := by
  cases x with
  | fin v =>
    show (Dbl.div (Dbl.fin v) (Dbl.fin h)).isNaN = false
    simp only [Dbl.div, hh, if_false]
    exact Dbl.isNaN_ofExact _
  | pinf =>
    show (Dbl.div Dbl.pinf (Dbl.fin h)).isNaN = false
    simp only [Dbl.div]
    split_ifs <;> rfl
  | ninf =>
    show (Dbl.div Dbl.ninf (Dbl.fin h)).isNaN = false
    simp only [Dbl.div]
    split_ifs <;> rfl
  | nan => cases hx

omit [LinearOrderedField K] in
theorem mem_zipWith_elim {α β γ : Type} (f : α → β → γ) (l1 : List α) (l2 : List β) (x : γ)
    (h : x ∈ List.zipWith f l1 l2) : ∃ a ∈ l1, ∃ b ∈ l2, x = f a b := by
  induction l1 generalizing l2 with
  | nil => simp at h
  | cons a l1 ih =>
    cases l2 with
    | nil => simp at h
    | cons b l2 =>
      rw [List.zipWith_cons_cons, List.mem_cons] at h
      rcases h with h | h
      · exact ⟨a, List.mem_cons_self _ _, b, List.mem_cons_self _ _, h⟩
      · obtain ⟨a', ha, b', hb, hx⟩ := ih l2 h
        exact ⟨a', List.mem_cons_of_mem _ ha, b', List.mem_cons_of_mem _ hb, hx⟩

/-- The vector `g_` holds no `NaN` when the tension is of moderate magnitude and
not zero and every interval has a length of moderate magnitude that is not zero,
whatever the ordinates are. -/
theorem fit_g_no_nan (tau : K) (t y : List K) (hlen : t.length = y.length)
    (ht : tau ≠ 0) (mt : Moderate tau)
    (hh : ∀ i, i + 1 < t.length → hSpec t i ≠ 0 ∧ Moderate (hSpec t i)) :
    (fit_g tau y ((diffs t).map Dbl.ofExact) (t.length - 1)).any Dbl.isNaN = false := by
  rw [List.any_eq_false]
  intro x hx
  have b1 : |tau ^ 2| ≤ 2 ^ (100 + 100) := by
    rw [pow_two]; exact abs_mul_le_pow mt mt
  unfold fit_g at hx
  rw [hlen, vsub_map_fin] at hx
  obtain ⟨dy, hdy, hi, hhi, rfl⟩ := mem_zipWith_elim _ _ _ _ hx
  obtain ⟨d, _, rfl⟩ := List.mem_map.1 hdy
  obtain ⟨v, hv, rfl⟩ := List.mem_map.1 hhi
  obtain ⟨k, hk, rfl⟩ := mem_diffs t v hv
  rw [Dbl.ofExact_eq (Dbl.inRange_of_moderate (hh k hk).2),
    Dbl.ofExact_eq (Dbl.inRange_of_abs_le _ b1 (by norm_num))]
  simp only [Bool.not_eq_true]
  exact Dbl.isNaN_div_fin _ (Dbl.isNaN_fin_mul _ (pow_ne_zero 2 ht) _ (Dbl.isNaN_ofExact d)) _
    (hh k hk).1

end Degenerate

/-! ## The knots `1, 2, 3, 4, 5` -/

section UnitKnots

theorem unit_hSpec (k : Nat) (hk : k < 4) : hSpec ([1, 2, 3, 4, 5] : List ℝ) k = 1 := by
  interval_cases k <;> norm_num [hSpec]

theorem unit_nonneg : ∀ d ∈ diffs ([1, 2, 3, 4, 5] : List ℝ), 0 ≤ d := by
  intro d hd
  obtain ⟨i, hi, rfl⟩ := mem_diffs _ d hd
  rw [unit_hSpec i (by simp at hi; omega)]
  exact zero_le_one

theorem unit_computed_h :
    (diffs ([1, 2, 3, 4, 5] : List ℝ)).map Dbl.ofExact = List.replicate 4 (Dbl.fin 1) := by
  have e : (diffs ([1, 2, 3, 4, 5] : List ℝ)).map Dbl.ofExact
      = (diffs ([1, 2, 3, 4, 5] : List ℝ)).map (fun _ => Dbl.fin 1) := by
    apply List.map_congr_left
    intro d hd
    obtain ⟨i, hi, rfl⟩ := mem_diffs _ d hd
    rw [unit_hSpec i (by simp at hi; omega)]
    exact Dbl.ofExact_eq Dbl.inRange_one
  rw [e]
  rfl

/-- With tension `1000` the vector `b_` holds a `NaN`: `sinh` and `cosh` overflow
and `inf / inf` is `NaN`. -/
theorem unit_fit_b_nan :
    (fit_b realLibm 1000 ((diffs ([1, 2, 3, 4, 5] : List ℝ)).map Dbl.ofExact)).any Dbl.isNaN
      = true := by
  rw [unit_computed_h, List.any_eq_true]
  refine ⟨Dbl.nan, ?_, rfl⟩
  unfold fit_b
  rw [List.mem_map]
  refine ⟨Dbl.fin 1, by simp [List.replicate], ?_⟩
  have e : (Dbl.fin 1000 * Dbl.fin 1 : Dbl ℝ) = Dbl.fin 1000 := by
    rw [Dbl.fin_mul_fin (Dbl.inRange_of_abs_le 10 (by norm_num) (by norm_num)), mul_one]
  rw [e, Libm.sinhD_fin, Libm.coshD_fin, realLibm_sinh_1000, realLibm_cosh_1000]
  have e2 : (Dbl.fin (1000 : ℝ) * Dbl.pinf : Dbl ℝ) = Dbl.pinf := by
    show Dbl.mul (Dbl.fin (1000 : ℝ)) Dbl.pinf = Dbl.pinf
    simp [Dbl.mul, Dbl.signedInf]
  have e3 : (Dbl.pinf / Dbl.pinf : Dbl ℝ) = Dbl.nan := rfl
  rw [e2, e3]
  exact Dbl.nan_add _

/-- With tension `1000` the constructor throws at the guard against `NaN`,
whatever the five ordinates are. -/
theorem new_unit_1000 (y : List ℝ) (hy : y.length = 5) :
    new realLibm [1, 2, 3, 4, 5] y 1000
      = Outcome.thrown ERRORS.TAU_IS_TOO_SMALL_OR_TOO_LARGE := by
  rw [new_checked realLibm [1, 2, 3, 4, 5] y 1000 (by simp [hy]) (by norm_num) (by simp)
    unit_nonneg, unit_fit_b_nan]
  simp

theorem unit_regular_one (k : Nat) (hk : k + 1 < ([1, 2, 3, 4, 5] : List ℝ).length) :
    RegularInterval realLibm 1 [1, 2, 3, 4, 5] k := by
  have hk4 : k < 4 := by simp at hk; omega
  apply realLibm_regularInterval <;> rw [unit_hSpec k hk4]
  · norm_num
  · norm_num
  · norm_num
  · exact moderate_one
  · rw [inv_one]; exact moderate_one

/-- With tension `1` the constructor returns an object, whatever the five
ordinates are, and the object is fitted. -/
theorem new_unit_one (y : List ℝ) (hy : y.length = 5) :
    ∃ s, new realLibm [1, 2, 3, 4, 5] y 1 = Outcome.ok s ∧ fitted s = true := by
  have hlen : ([1, 2, 3, 4, 5] : List ℝ).length = y.length := by simp [hy]
  have hg := fit_g_no_nan (1 : ℝ) [1, 2, 3, 4, 5] y hlen one_ne_zero moderate_one
    (fun i hi => ⟨(unit_regular_one i hi).1, (unit_regular_one i hi).2.1⟩)
  rw [new_checked realLibm [1, 2, 3, 4, 5] y 1 hlen one_pos (by simp) unit_nonneg, hg,
    any_isNaN_eq_false _ (fit_a_finite realLibm 1 _ moderate_one unit_regular_one),
    any_isNaN_eq_false _ (fit_b_finite realLibm 1 _ moderate_one unit_regular_one)]
  simp only [Bool.or_self, Bool.false_eq_true, if_false]
  exact ⟨_, rfl, rfl⟩

/-! ## The tension `10^-9` on the knots `1, 2, 3, 4, 5` -/

end UnitKnots

/-! ## The two copies on the knots `(0,0), (1,1), (3,3)` -/

section Copies

/-- The value computed by `eval_spline` of the second copy when the coefficients it reads are finite,
no divisor vanishes and every operand is of moderate magnitude. -/
theorem src_eval_spline_fin {K : Type} [LinearOrderedField K] (lm : Libm K) (s : SrcSpline K) (x : K) (i : Nat)
    (hi ti ti1 yi yi1 zi zi1 S s1 s2 : K)
    (e1 : s.h[i]? = some (Dbl.fin hi)) (e2 : s.t[i]? = some ti) (e3 : s.t[i + 1]? = some ti1)
    (e4 : s.y[i]? = some yi) (e5 : s.y[i + 1]? = some yi1)
    (e6 : s.z[i]? = some (Dbl.fin zi)) (e7 : s.z[i + 1]? = some (Dbl.fin zi1))
    (hh : hi ≠ 0) (ht : s.tau ≠ 0)
    (hS : lm.sinh (s.tau * hi) = Dbl.fin S) (hS0 : S ≠ 0)
    (h1 : lm.sinh (s.tau * (ti1 - x)) = Dbl.fin s1)
    (h2 : lm.sinh (s.tau * (x - ti)) = Dbl.fin s2)
    (mt : Moderate s.tau) (mt' : Moderate s.tau⁻¹) (mh : Moderate hi) (mh' : Moderate hi⁻¹)
    (mS : Moderate S) (mS' : Moderate S⁻¹) (m1 : Moderate s1) (m2 : Moderate s2)
    (md1 : Moderate (ti1 - x)) (md2 : Moderate (x - ti))
    (mzi : Moderate zi) (mzi1 : Moderate zi1) (myi : Moderate yi) (myi1 : Moderate yi1) :
    Src.eval_spline lm s x i = Outcome.ok (Dbl.fin
      ((zi * s1 + zi1 * s2) / (s.tau * s.tau * S)
        + (yi - zi / (s.tau * s.tau)) * (ti1 - x) / hi
        + (yi1 - zi1 / (s.tau * s.tau)) * (x - ti) / hi)) := by
  have htt : s.tau * s.tau ≠ 0 := mul_ne_zero ht ht
  have hd : s.tau * s.tau * S ≠ 0 := mul_ne_zero htt hS0
  -- magnitudes
  have b_th : |s.tau * hi| ≤ 2 ^ (100 + 100) := abs_mul_le_pow mt mh
  have b_td1 : |s.tau * (ti1 - x)| ≤ 2 ^ (100 + 100) := abs_mul_le_pow mt md1
  have b_td2 : |s.tau * (x - ti)| ≤ 2 ^ (100 + 100) := abs_mul_le_pow mt md2
  have b_z1 : |zi * s1| ≤ 2 ^ (100 + 100) := abs_mul_le_pow mzi m1
  have b_z2 : |zi1 * s2| ≤ 2 ^ (100 + 100) := abs_mul_le_pow mzi1 m2
  have b_num : |zi * s1 + zi1 * s2| ≤ 2 ^ (100 + 100 + 1) := abs_add_le_pow b_z1 b_z2
  have b_tt : |s.tau * s.tau| ≤ 2 ^ (100 + 100) := abs_mul_le_pow mt mt
  have b_tt' : |(s.tau * s.tau)⁻¹| ≤ 2 ^ (100 + 100) := abs_inv_mul_le_pow mt' mt'
  have b_den : |s.tau * s.tau * S| ≤ 2 ^ (100 + 100 + 100) := abs_mul_le_pow b_tt mS
  have b_den' : |(s.tau * s.tau * S)⁻¹| ≤ 2 ^ (100 + 100 + 100) := abs_inv_mul_le_pow b_tt' mS'
  have b_t1 : |(zi * s1 + zi1 * s2) / (s.tau * s.tau * S)| ≤ 2 ^ (100 + 100 + 1 + (100 + 100 + 100)) :=
    abs_div_le_pow b_num b_den'
  have b_q1 : |zi / (s.tau * s.tau)| ≤ 2 ^ (100 + (100 + 100)) := abs_div_le_pow mzi b_tt'
  have b_q2 : |zi1 / (s.tau * s.tau)| ≤ 2 ^ (100 + (100 + 100)) := abs_div_le_pow mzi1 b_tt'
  have b_c1 : |yi - zi / (s.tau * s.tau)| ≤ 2 ^ (100 + (100 + 100) + 1) :=
    abs_sub_le_pow (abs_le_pow_mono myi (by norm_num)) b_q1
  have b_c2 : |yi1 - zi1 / (s.tau * s.tau)| ≤ 2 ^ (100 + (100 + 100) + 1) :=
    abs_sub_le_pow (abs_le_pow_mono myi1 (by norm_num)) b_q2
  have b_p1 : |(yi - zi / (s.tau * s.tau)) * (ti1 - x)| ≤ 2 ^ (100 + (100 + 100) + 1 + 100) :=
    abs_mul_le_pow b_c1 md1
  have b_p2 : |(yi1 - zi1 / (s.tau * s.tau)) * (x - ti)| ≤ 2 ^ (100 + (100 + 100) + 1 + 100) :=
    abs_mul_le_pow b_c2 md2
  have b_t2 : |(yi - zi / (s.tau * s.tau)) * (ti1 - x) / hi|
      ≤ 2 ^ (100 + (100 + 100) + 1 + 100 + 100) := abs_div_le_pow b_p1 mh'
  have b_t3 : |(yi1 - zi1 / (s.tau * s.tau)) * (x - ti) / hi|
      ≤ 2 ^ (100 + (100 + 100) + 1 + 100 + 100) := abs_div_le_pow b_p2 mh'
  have b_s1 : |(zi * s1 + zi1 * s2) / (s.tau * s.tau * S)
      + (yi - zi / (s.tau * s.tau)) * (ti1 - x) / hi| ≤ 2 ^ (501 + 1) :=
    abs_add_le_pow b_t1 b_t2
  have b_s2 : |(zi * s1 + zi1 * s2) / (s.tau * s.tau * S)
      + (yi - zi / (s.tau * s.tau)) * (ti1 - x) / hi
      + (yi1 - zi1 / (s.tau * s.tau)) * (x - ti) / hi| ≤ 2 ^ (502 + 1) :=
    abs_add_le_pow b_s1 (abs_le_pow_mono b_t3 (by norm_num))
  unfold Src.eval_spline
  rw [e1, e2, e3, e4, e5, e6, e7]
  simp only [Dbl.fin_mul_fin (Dbl.inRange_of_abs_le _ b_th (by norm_num)),
    Dbl.fin_sub_fin (Dbl.inRange_of_moderate md1), Dbl.fin_sub_fin (Dbl.inRange_of_moderate md2),
    Dbl.fin_mul_fin (Dbl.inRange_of_abs_le _ b_td1 (by norm_num)),
    Dbl.fin_mul_fin (Dbl.inRange_of_abs_le _ b_td2 (by norm_num)),
    Libm.sinhD_fin, hS, h1, h2,
    Dbl.fin_mul_fin (Dbl.inRange_of_abs_le _ b_z1 (by norm_num)),
    Dbl.fin_mul_fin (Dbl.inRange_of_abs_le _ b_z2 (by norm_num)),
    Dbl.fin_add_fin (Dbl.inRange_of_abs_le _ b_num (by norm_num)),
    Dbl.fin_mul_fin (Dbl.inRange_of_abs_le _ b_tt (by norm_num)),
    Dbl.fin_mul_fin (Dbl.inRange_of_abs_le _ b_den (by norm_num)),
    Dbl.fin_div_fin hd (Dbl.inRange_of_abs_le _ b_t1 (by norm_num)),
    Dbl.fin_div_fin htt (Dbl.inRange_of_abs_le _ b_q1 (by norm_num)),
    Dbl.fin_div_fin htt (Dbl.inRange_of_abs_le _ b_q2 (by norm_num)),
    Dbl.fin_sub_fin (Dbl.inRange_of_abs_le _ b_c1 (by norm_num)),
    Dbl.fin_sub_fin (Dbl.inRange_of_abs_le _ b_c2 (by norm_num)),
    Dbl.fin_mul_fin (Dbl.inRange_of_abs_le _ b_p1 (by norm_num)),
    Dbl.fin_mul_fin (Dbl.inRange_of_abs_le _ b_p2 (by norm_num)),
    Dbl.fin_div_fin hh (Dbl.inRange_of_abs_le _ b_t2 (by norm_num)),
    Dbl.fin_div_fin hh (Dbl.inRange_of_abs_le _ b_t3 (by norm_num)),
    Dbl.fin_add_fin (Dbl.inRange_of_abs_le _ b_s1 (by norm_num)),
    Dbl.fin_add_fin (Dbl.inRange_of_abs_le _ b_s2 (by norm_num))]

theorem copies_hSpec_zero : hSpec ([0, 1, 3] : List ℝ) 0 = 1 := by norm_num [hSpec]

theorem copies_hSpec_one : hSpec ([0, 1, 3] : List ℝ) 1 = 2 := by norm_num [hSpec]

theorem copies_valid : ValidInput [0, 1, 3] [0, 1, 3] (1 : ℝ) := by
  refine ⟨rfl, one_pos, ?_, by simp⟩
  unfold StrictlyIncreasing
  norm_num

theorem moderate_of_abs_le_four {x : ℝ} (h : |x| ≤ 4) : Moderate x := by
  unfold Moderate
  have : (4 : ℝ) ≤ 2 ^ 100 := by norm_num
  linarith

theorem copies_moderate : ModerateData (1 : ℝ) [0, 1, 3] := by
  refine ⟨moderate_one, by rw [inv_one]; exact moderate_one, ?_⟩
  intro v hv
  simp only [List.mem_cons, List.mem_singleton, List.not_mem_nil, or_false] at hv
  rcases hv with h | h | h <;> rw [h] <;> exact moderate_of_abs_le_four (by norm_num)

theorem copies_regular (k : Nat) (hk : k + 1 < ([0, 1, 3] : List ℝ).length) :
    RegularInterval realLibm 1 [0, 1, 3] k := by
  have hk2 : k < 2 := by simp at hk; omega
  interval_cases k
  · apply realLibm_regularInterval <;> rw [copies_hSpec_zero]
    · norm_num
    · norm_num
    · norm_num
    · exact moderate_one
    · rw [inv_one]; exact moderate_one
  · apply realLibm_regularInterval <;> rw [copies_hSpec_one]
    · norm_num
    · norm_num
    · norm_num
    · exact moderate_of_abs_le_four (by norm_num [abs_le])
    · exact moderate_of_abs_le_four (by norm_num [abs_le])

theorem copies_coeff (k : Nat) (hk : k < 2) :
    0 < aSpec realLibm 1 ([0, 1, 3] : List ℝ) k ∧
    aSpec realLibm 1 ([0, 1, 3] : List ℝ) k + 1 / 8 ≤ bSpec realLibm 1 [0, 1, 3] k := by
  interval_cases k
  · have hS : realLibm.sinh (1 * hSpec ([0, 1, 3] : List ℝ) 0)
        = Dbl.fin (Real.sinh (1 * hSpec ([0, 1, 3] : List ℝ) 0)) := by
      rw [copies_hSpec_zero]; exact realLibm_sinh_eq (by norm_num) (by norm_num)
    have hC : realLibm.cosh (1 * hSpec ([0, 1, 3] : List ℝ) 0)
        = Dbl.fin (Real.cosh (1 * hSpec ([0, 1, 3] : List ℝ) 0)) := by
      rw [copies_hSpec_zero]; exact realLibm_cosh_eq (by norm_num) (by norm_num)
    refine ⟨aSpec_pos realLibm 1 _ 0 one_pos (by rw [copies_hSpec_zero]; exact one_pos) hS, ?_⟩
    unfold aSpec bSpec
    rw [realLibm.sinhValue_eq hS, realLibm.coshValue_eq hC, copies_hSpec_zero, mul_one]
    exact margin_one
  · have hS : realLibm.sinh (1 * hSpec ([0, 1, 3] : List ℝ) 1)
        = Dbl.fin (Real.sinh (1 * hSpec ([0, 1, 3] : List ℝ) 1)) := by
      rw [copies_hSpec_one]; exact realLibm_sinh_eq (by norm_num) (by norm_num)
    have hC : realLibm.cosh (1 * hSpec ([0, 1, 3] : List ℝ) 1)
        = Dbl.fin (Real.cosh (1 * hSpec ([0, 1, 3] : List ℝ) 1)) := by
      rw [copies_hSpec_one]; exact realLibm_cosh_eq (by norm_num) (by norm_num)
    refine ⟨aSpec_pos realLibm 1 _ 1 one_pos (by rw [copies_hSpec_one]; norm_num) hS, ?_⟩
    unfold aSpec bSpec
    rw [realLibm.sinhValue_eq hS, realLibm.coshValue_eq hC, copies_hSpec_one, one_mul]
    exact margin_two

theorem copies_det : (ASpec realLibm 1 ([0, 1, 3] : List ℝ) 2).det ≠ 0 :=
  (ASpec_inverse_bound realLibm 1 _ 2 (1 / 8) (by norm_num) (by norm_num) copies_coeff 0 0).1

theorem copies_inverse_bound (i j : Fin (2 + 1)) :
    |((ASpec realLibm 1 ([0, 1, 3] : List ℝ) 2).det⁻¹
        • (ASpec realLibm 1 ([0, 1, 3] : List ℝ) 2).adjugate) i j| ≤ 2 ^ 3 := by
  have h := (ASpec_inverse_bound realLibm 1 ([0, 1, 3] : List ℝ) 2 (1 / 8) (by norm_num)
    (by norm_num) copies_coeff i j).2
  have e : (1 : ℝ) / (1 / 8) = 2 ^ 3 := by norm_num
  rw [e] at h
  exact h

theorem copies_line : ([0, 1, 3] : List ℝ).map (fun x => 1 * x + 0) = [0, 1, 3] := by
  norm_num

/-- The first copy constructs the model of the specification. -/
theorem copies_include_new :
    new realLibm [0, 1, 3] [0, 1, 3] 1
      = Outcome.ok (modelSpec realLibm [0, 1, 3] [0, 1, 3] 1 2) := by
  refine new_eq_ok realLibm [0, 1, 3] [0, 1, 3] 1 2 rfl rfl one_pos (by simp) ?_
    moderate_one copies_moderate.2.2 copies_regular copies_det 3 (by norm_num)
    copies_inverse_bound (by norm_num)
  intro i hi
  have hi2 : i < 2 := by simp at hi; omega
  interval_cases i
  · rw [copies_hSpec_zero]; exact one_pos
  · rw [copies_hSpec_one]; norm_num

theorem copies_hne (i : Nat) (hi : i < 2) : hSpec ([0, 1, 3] : List ℝ) i ≠ 0 :=
  (copies_regular i (by simp; omega)).1

theorem copies_z_moderate (k : Nat) : Moderate (zAt realLibm 1 [0, 1, 3] [0, 1, 3] 2 k) := by
  have h := zAt_collinear realLibm 1 [0, 1, 3] 1 0 2 rfl copies_hne k
  rw [copies_line] at h
  rw [h]
  exact moderate_zero

theorem copies_query (x : ℝ) (hx : x = 0 ∨ x = 1 / 2)
    (k : Nat) (hk : k < 2) : RegularQuery realLibm 1 [0, 1, 3] k x := by
  interval_cases k
  · apply realLibm_regularQuery
    · exact moderate_of_abs_le_four (by
        rcases hx with h | h <;> rw [h] <;> norm_num [abs_le, le_abs])
    · exact moderate_of_abs_le_four (by
        rcases hx with h | h <;> rw [h] <;> norm_num [abs_le, le_abs])
    · rcases hx with h | h <;> rw [h] <;> norm_num [abs_le, le_abs]
    · rcases hx with h | h <;> rw [h] <;> norm_num [abs_le, le_abs]
    · rcases hx with h | h <;> rw [h] <;> norm_num [abs_le, le_abs]
    · rcases hx with h | h <;> rw [h] <;> norm_num [abs_le, le_abs]
  · apply realLibm_regularQuery
    · exact moderate_of_abs_le_four (by
        rcases hx with h | h <;> rw [h] <;> norm_num [abs_le, le_abs])
    · exact moderate_of_abs_le_four (by
        rcases hx with h | h <;> rw [h] <;> norm_num [abs_le, le_abs])
    · rcases hx with h | h <;> rw [h] <;> norm_num [abs_le, le_abs]
    · rcases hx with h | h <;> rw [h] <;> norm_num [abs_le, le_abs]
    · rcases hx with h | h <;> rw [h] <;> norm_num [abs_le, le_abs]
    · rcases hx with h | h <;> rw [h] <;> norm_num [abs_le, le_abs]

/-- The first copy on the knots `(0,0), (1,1), (3,3)` and the queries `0, 1/2`. -/
theorem copies_include_eval :
    eval_vector realLibm (modelSpec realLibm [0, 1, 3] [0, 1, 3] 1 2) [0, 1 / 2]
      = Outcome.ok [Dbl.fin 0, Dbl.fin (1 / 2)] := by
  have hq : ∀ x ∈ ([0, 1 / 2] : List ℝ), ∀ k, k < 2 → RegularQuery realLibm 1 [0, 1, 3] k x := by
    intro x hx k hk
    simp only [List.mem_cons, List.mem_singleton, List.not_mem_nil, or_false] at hx
    exact copies_query x hx k hk
  have h := eval_loop_model realLibm [0, 1, 3] [0, 1, 3] 1 2 rfl rfl one_ne_zero copies_moderate
    copies_regular copies_z_moderate [0, 1 / 2] hq 0 (by omega)
  have hc := loopSpec_collinear realLibm 1 [0, 1, 3] 1 0 2 rfl copies_hne [0, 1 / 2] 0 (by omega)
  rw [copies_line] at hc
  rw [eval_vector_eq realLibm _ [0, 1 / 2] (by simp)]
  have h1 : ¬ ∃ d ∈ diffs ([0, 1 / 2] : List ℝ), d < 0 := by
    simp [diffs]
  rw [if_neg h1, if_neg (by simp [modelSpec]), h, hc]
  norm_num

end Copies

/-! ## The second copy on the knots `(0,0), (1,1), (3,3)` -/

section CopiesSrc

/-- With three knots and storage that holds zero, the loop of the second copy
builds the matrix of the first copy. -/
theorem src_systemMatrix_two (a_ b_ : List (Dbl ℝ)) :
    Src.systemMatrix (zeroFresh ℝ) 2 a_ b_ = systemMatrix 2 a_ b_ := by
  funext i j
  have e : List.range' 1 (2 - 1) = [1] := rfl
  rw [systemMatrix_apply]
  unfold Src.systemMatrix
  rw [e, List.foldl_cons, List.foldl_nil]
  unfold Src.loopBody
  simp only [setCoeff, fitRow_apply, zeroFresh]
  fin_cases i <;> fin_cases j <;> simp

theorem copies_src_matrix :
    Src.systemMatrix (zeroFresh ℝ) 2 (fit_a realLibm 1 ((diffs [0, 1, 3]).map Dbl.ofExact))
        (fit_b realLibm 1 ((diffs [0, 1, 3]).map Dbl.ofExact))
      = fun i j => Dbl.fin (ASpec realLibm 1 [0, 1, 3] 2 i j) := by
  rw [src_systemMatrix_two]
  funext i j
  exact systemMatrix_fit realLibm 1 [0, 1, 3] 2 rfl moderate_one copies_regular i j

theorem ofExact_of_abs_le_four {x : ℝ} (h : |x| ≤ 4) : Dbl.ofExact x = Dbl.fin x :=
  Dbl.ofExact_eq (Dbl.inRange_of_abs_le 2 (by norm_num; exact h) (by norm_num))

/-- In storage that holds zero the right-hand side of the second copy is `(0, 1, 0)`. -/
theorem copies_src_rhs (j : Fin (2 + 1)) :
    (Src.rightHandSide (zeroFresh ℝ) 2 (Src.fit_g 1 [0, 1, 3] 2)).getD j.val (Dbl.fin 0)
      = Dbl.fin (srcExampleY j) := by
  have e : Src.rightHandSide (zeroFresh ℝ) 2 (Src.fit_g (1 : ℝ) [0, 1, 3] 2)
      = [Dbl.fin 0, Dbl.fin 1, Dbl.fin 0] := by
    have e1 : Dbl.ofExact (1 : ℝ) = Dbl.fin 1 := ofExact_of_abs_le_four (by norm_num)
    have e2 : Dbl.fin (1 : ℝ) - Dbl.fin 0 = Dbl.fin 1 := by
      rw [Dbl.fin_sub_fin_eq, sub_zero]; exact ofExact_of_abs_le_four (by norm_num)
    have e3 : Dbl.fin (3 : ℝ) - Dbl.fin 1 = Dbl.fin 2 := by
      rw [Dbl.fin_sub_fin_eq]
      rw [show (3 : ℝ) - 1 = 2 by norm_num]
      exact ofExact_of_abs_le_four (by norm_num)
    have e4 : Dbl.fin (1 : ℝ) * Dbl.fin 1 = Dbl.fin 1 := by
      rw [Dbl.fin_mul_fin_eq, mul_one]; exact ofExact_of_abs_le_four (by norm_num)
    have e5 : Dbl.fin (1 : ℝ) * Dbl.fin 2 = Dbl.fin 2 := by
      rw [Dbl.fin_mul_fin_eq, one_mul]; exact ofExact_of_abs_le_four (by norm_num)
    have e6 : Dbl.fin (2 : ℝ) - Dbl.fin 1 = Dbl.fin 1 := by
      rw [Dbl.fin_sub_fin_eq]
      rw [show (2 : ℝ) - 1 = 1 by norm_num]
      exact ofExact_of_abs_le_four (by norm_num)
    simp [Src.rightHandSide, Src.fit_g, setSegment, vsub, tail, head, zeroFresh, e1, e2, e3, e4,
      e5, e6]
  rw [e]
  fin_cases j <;> simp [srcExampleY]

/-- The second copy, in storage that holds zero, constructs the object `srcExample`. -/
theorem copies_src_new :
    Src.new (zeroFresh ℝ) realLibm [0, 1, 3] [0, 1, 3] 1 = Outcome.ok srcExample := by
  have hs : Src.solve (Src.systemMatrix (zeroFresh ℝ) 2
        (fit_a realLibm 1 ((diffs [0, 1, 3]).map Dbl.ofExact))
        (fit_b realLibm 1 ((diffs [0, 1, 3]).map Dbl.ofExact)))
      (Src.rightHandSide (zeroFresh ℝ) 2 (Src.fit_g 1 [0, 1, 3] 2))
      = List.ofFn (fun i => Dbl.fin (srcExampleZ i)) := by
    unfold Src.solve
    rw [copies_src_matrix, inverse_fin _ copies_det
      (fun i j => Dbl.inRange_of_abs_le 3 (copies_inverse_bound i j) (by norm_num))]
    rw [mulVec_fin _ _ srcExampleY (2 ^ 3) copies_src_rhs ?_ ?_]
    · rfl
    · intro i j
      have hy : |srcExampleY j| ≤ 1 := by
        unfold srcExampleY
        split_ifs <;> norm_num
      rw [abs_mul]
      calc |((ASpec realLibm 1 [0, 1, 3] 2).det⁻¹ • (ASpec realLibm 1 [0, 1, 3] 2).adjugate) i j|
            * |srcExampleY j| ≤ 2 ^ 3 * 1 :=
              mul_le_mul (copies_inverse_bound i j) hy (abs_nonneg _) (by norm_num)
        _ = 2 ^ 3 := mul_one _
    · have h := Dbl.pow_lt_overflowThreshold (K := ℝ) 5 (by norm_num)
      have e : ((2 + 1 : Nat) : ℝ) * 2 ^ 3 ≤ 2 ^ 5 := by norm_num
      exact lt_of_le_of_lt e h
  have hd : vsub (tail 2 (([0, 1, 3] : List ℝ).map Dbl.fin)) (head 2 (([0, 1, 3] : List ℝ).map Dbl.fin))
      = (diffs ([0, 1, 3] : List ℝ)).map Dbl.ofExact := vsub_map_fin ([0, 1, 3] : List ℝ)
  have hh : (diffs ([0, 1, 3] : List ℝ)).map Dbl.ofExact = (diffs ([0, 1, 3] : List ℝ)).map Dbl.fin := by
    simp only [diffs, List.map_cons, List.map_nil]
    rw [ofExact_of_abs_le_four (by norm_num), ofExact_of_abs_le_four (by norm_num [abs_le])]
  obtain ⟨d, hm⟩ := minCoeff_diffs_isSome ([0, 1, 3] : List ℝ) (by simp)
  have hlt : ¬ (Dbl.lt d (Dbl.fin 0) = true) := by
    rw [minCoeff_diffs_lt _ d hm]
    simp [diffs]
  unfold Src.new Src.fit
  simp only [List.length_cons, List.length_nil, Nat.reduceAdd, Nat.add_one_sub_one, hd, hm]
  rw [hs, if_neg (by decide), if_neg (by decide), if_neg (by norm_num), if_neg hlt,
    if_neg (by decide), hh]
  rfl

/-- The moments of the second copy solve the system with the right-hand side `(0, 1, 0)`. -/
theorem copies_src_system :
    (ASpec realLibm 1 [0, 1, 3] 2).mulVec srcExampleZ = srcExampleY := by
  unfold srcExampleZ
  rw [Matrix.mulVec_mulVec, Matrix.mul_smul, Matrix.mul_adjugate, smul_smul,
    inv_mul_cancel₀ copies_det, one_smul, Matrix.one_mulVec]

/-- The moments of the second copy in the example: `z_0 = 0`, `z_2 = 0`, `z_1 ≠ 0`. -/
theorem copies_src_moments :
    srcExampleZ 0 = 0 ∧ srcExampleZ 2 = 0 ∧ srcExampleZ 1 ≠ 0 := by
  have hA := copies_src_system
  have r0 := ASpec_mulVec_boundary realLibm 1 [0, 1, 3] 2 srcExampleZ ⟨0, by omega⟩ (Or.inl rfl)
  have r2 := ASpec_mulVec_boundary realLibm 1 [0, 1, 3] 2 srcExampleZ ⟨2, by omega⟩ (Or.inr rfl)
  have r1 := ASpec_mulVec_interior realLibm 1 [0, 1, 3] 2 srcExampleZ 1 le_rfl (by omega)
  rw [hA] at r0 r1 r2
  have z0 : srcExampleZ 0 = 0 := by
    show srcExampleZ ⟨0, by omega⟩ = 0
    rw [← r0]; simp [srcExampleY]
  have z2 : srcExampleZ 2 = 0 := by
    show srcExampleZ ⟨2, by omega⟩ = 0
    rw [← r2]; simp [srcExampleY]
  refine ⟨z0, z2, ?_⟩
  intro z1
  simp only [Nat.sub_self, Nat.reduceAdd] at r1
  have e0 : (⟨0, by omega⟩ : Fin (2 + 1)) = 0 := rfl
  have e1 : (⟨1, by omega⟩ : Fin (2 + 1)) = 1 := rfl
  have e2 : (⟨2, by omega⟩ : Fin (2 + 1)) = 2 := rfl
  rw [e0, e1, e2, z0, z1, z2] at r1
  simp [srcExampleY] at r1

theorem copies_src_moderate (i : Fin (2 + 1)) : Moderate (srcExampleZ i) := by
  have h := abs_le_of_dominant (ASpec realLibm 1 [0, 1, 3] 2) (1 / 8) 1 (by norm_num)
    (ASpec_dominant realLibm 1 [0, 1, 3] 2 (1 / 8) (by norm_num) (by norm_num) copies_coeff)
    srcExampleZ srcExampleY copies_src_system
    (fun j => by unfold srcExampleY; split_ifs <;> norm_num) i
  unfold Moderate
  have e : (1 : ℝ) / (1 / 8) ≤ 2 ^ 100 := by norm_num
  exact le_trans h e

/-- The value of the second copy at the query `x` of interval 0, for `x = 0` and
`x = 1/2`. -/
theorem copies_src_eval (x : ℝ) (hx : x = 0 ∨ x = 1 / 2) :
    Src.eval_spline realLibm srcExample x 0 = Outcome.ok (Dbl.fin
      (srcExampleZ 1 * Real.sinh x / Real.sinh 1 + (1 - srcExampleZ 1) * x)) := by
  obtain ⟨z0, _, _⟩ := copies_src_moments
  have hz : srcExample.z
      = [Dbl.fin (srcExampleZ 0), Dbl.fin (srcExampleZ 1), Dbl.fin (srcExampleZ 2)] := by
    simp [srcExample, List.ofFn_succ]
  have hS := realLibm_sinh_moderate (x := (1 : ℝ) * 1) (by norm_num) (Or.inl (by norm_num))
  have h1 := realLibm_sinh_moderate (x := (1 : ℝ) * (1 - x))
    (by rcases hx with h | h <;> rw [h] <;> norm_num [abs_le])
    (Or.inl (by rcases hx with h | h <;> rw [h] <;> norm_num [abs_le, le_abs]))
  have h2 := realLibm_sinh_moderate (x := (1 : ℝ) * (x - 0))
    (by rcases hx with h | h <;> rw [h] <;> norm_num [abs_le])
    (by rcases hx with h | h <;> rw [h] <;> norm_num [abs_le, le_abs])
  have hs1 : Real.sinh (1 * 1) ≠ 0 := by rw [Real.sinh_ne_zero]; norm_num
  have hS' : Moderate (Real.sinh (1 * 1))⁻¹ := by
    unfold Moderate
    have hp : (1 : ℝ) ≤ Real.sinh (1 * 1) := by
      rw [mul_one, Real.sinh_eq]
      have := Real.exp_one_gt_d9
      have := (exp_one_inv_bounds).2
      rw [Real.exp_neg]
      linarith
    rw [abs_of_pos (inv_pos.2 (by linarith))]
    calc (Real.sinh (1 * 1))⁻¹ ≤ 1 := inv_le_one_of_one_le₀ hp
      _ ≤ 2 ^ 100 := by norm_num
  have h := src_eval_spline_fin realLibm srcExample x 0 1 0 1 0 1 (srcExampleZ 0) (srcExampleZ 1)
    (Real.sinh (1 * 1)) (Real.sinh (1 * (1 - x))) (Real.sinh (1 * (x - 0)))
    (by simp [srcExample, diffs]) (by simp [srcExample]) (by simp [srcExample])
    (by simp [srcExample]) (by simp [srcExample]) (by rw [hz]; rfl) (by rw [hz]; rfl)
    one_ne_zero one_ne_zero hS.1 hs1 h1.1 h2.1 moderate_one
    (by show Moderate (1 : ℝ)⁻¹; rw [inv_one]; exact moderate_one) moderate_one
    (by rw [inv_one]; exact moderate_one) hS.2 hS' h1.2 h2.2
    (moderate_of_abs_le_four (by rcases hx with h | h <;> rw [h] <;> norm_num [abs_le]))
    (moderate_of_abs_le_four (by rcases hx with h | h <;> rw [h] <;> norm_num [abs_le]))
    (copies_src_moderate 0) (copies_src_moderate 1) moderate_zero moderate_one
  have ht : srcExample.tau = 1 := rfl
  rw [h, ht]
  congr 2
  rw [z0]
  simp only [mul_one, one_mul, sub_zero, zero_mul, zero_add, zero_div, div_one]
  ring

/-- The value that the second copy returns at the query `1/2`. -/
theorem copies_src_value :
    Src.eval_vector realLibm srcExample [0, 1 / 2]
      = Outcome.ok [Dbl.fin 0,
          Dbl.fin (srcExampleZ 1 * Real.sinh (1 / 2) / Real.sinh 1 + (1 - srcExampleZ 1) / 2)] := by
  have hd : vsub (tail 1 (([0, 1 / 2] : List ℝ).map Dbl.fin))
      (head 1 (([0, 1 / 2] : List ℝ).map Dbl.fin))
      = (diffs ([0, 1 / 2] : List ℝ)).map Dbl.ofExact := vsub_map_fin ([0, 1 / 2] : List ℝ)
  obtain ⟨d, hm⟩ := minCoeff_diffs_isSome ([0, 1 / 2] : List ℝ) (by simp)
  have hlt : ¬ (Dbl.lt d (Dbl.fin 0) = true) := by
    rw [minCoeff_diffs_lt _ d hm]
    simp [diffs]
  have ha0 : Src.advance srcExample 0 (0 : ℝ) = 0 := by
    simp [Src.advance, srcExample]
  have ha1 : Src.advance srcExample 0 (1 / 2 : ℝ) = 0 := by
    simp [Src.advance, srcExample]
    norm_num
  have e0 := copies_src_eval 0 (Or.inl rfl)
  have e1 := copies_src_eval (1 / 2) (Or.inr rfl)
  have v0 : srcExampleZ 1 * Real.sinh 0 / Real.sinh 1 + (1 - srcExampleZ 1) * 0 = 0 := by
    rw [Real.sinh_zero]; ring
  have v1 : srcExampleZ 1 * Real.sinh (1 / 2) / Real.sinh 1 + (1 - srcExampleZ 1) * (1 / 2)
      = srcExampleZ 1 * Real.sinh (1 / 2) / Real.sinh 1 + (1 - srcExampleZ 1) / 2 := by ring
  rw [v0] at e0
  rw [v1] at e1
  unfold Src.eval_vector
  simp only [List.length_cons, List.length_nil, Nat.reduceAdd, Nat.add_one_sub_one, hd, hm]
  rw [if_neg (by decide), if_neg hlt]
  unfold Src.eval_loop
  rw [ha0, e0]
  simp only
  unfold Src.eval_loop
  rw [ha1, e1]
  simp only
  unfold Src.eval_loop
  rfl

/-- The value of the second copy at `1/2` is not the value `1/2` of the first copy. -/
theorem copies_src_value_ne :
    srcExampleZ 1 * Real.sinh (1 / 2) / Real.sinh 1 + (1 - srcExampleZ 1) / 2 ≠ 1 / 2 := by
  obtain ⟨_, _, z1⟩ := copies_src_moments
  have hsh : 0 < Real.sinh (1 / 2) := Real.sinh_pos_iff.2 (by norm_num)
  have hc : (1 : ℝ) < Real.cosh (1 / 2) := Real.one_lt_cosh.2 (by norm_num)
  have e : Real.sinh 1 = 2 * Real.sinh (1 / 2) * Real.cosh (1 / 2) := by
    rw [← Real.sinh_two_mul]; congr 1; norm_num
  intro h
  rw [e] at h
  have hne : 2 * Real.sinh (1 / 2) * Real.cosh (1 / 2) ≠ 0 := by positivity
  field_simp at h
  have h2 : srcExampleZ 1 * (Real.sinh (1 / 2) * (1 - Real.cosh (1 / 2))) = 0 := by
    linarith
  rcases mul_eq_zero.1 h2 with h3 | h3
  · exact z1 h3
  · rcases mul_eq_zero.1 h3 with h4 | h4
    · exact absurd h4 (ne_of_gt hsh)
    · linarith

end CopiesSrc

/-! ## Moments of the model of the specification, and the overflow of the divisor -/

section Support

end Support

/-! ## Facts used by the witnesses -/

section WitnessSupport

end WitnessSupport

/-! ## The claims -/

section Claims

/-- C1 (the code departs from the claim): on the model fitted to the knots
`(0,1), (1,0), (2,0), (3,0)` with tension `1`, the call `eval_vector` on the
one-element query `[t_3] = [3]` does not return `[y_3] = [0]`.  The test of
the query order reduces an empty vector of differences, which is outside the
precondition of `minCoeff`; and the loop, entered with that query, moves the
cursor by one interval only and returns the value at `3` of the formula of
interval 1, which is not `0`. -/
theorem eval_vector_single_knot_example :
    eval_vector realLibm exampleSpline [3] = Outcome.undefined ∧
    ∃ v : ℝ, eval_loop realLibm exampleSpline 0 [3] = Outcome.ok [Dbl.fin v] ∧ v ≠ 0 := by
  refine ⟨?_, _, example_loop_single, example_interval1_at_3⟩
  unfold eval_vector
  simp [vsub, tail, head, minCoeff]

/-- C3 (the code departs from the claim): with the single knot `t = [1]`,
`y = [1]` and `tau = 1`, the constructor does not throw
`T_AND_Y_MUST_HAVE_AT_LEAST_3_ELEMENTS`: the test of monotonicity, which comes
before the test of the number of points, reduces an empty vector of
differences, outside the precondition of `minCoeff`. -/
theorem new_single_knot (lm : Libm ℝ) : new lm [1] [1] 1 = Outcome.undefined := by
  unfold new fit
  simp [vsub, tail, head, minCoeff]

/-- C4 (the code departs from the claim): with two equal consecutive abscissas,
`t = [1, 1, 2]`, the test `minCoeff() < 0` does not fire and the constructor
does not throw `T_MUST_BE_STRICTLY_INCREASING`; it throws
`TAU_IS_TOO_SMALL_OR_TOO_LARGE` at the guard against `NaN`. -/
theorem new_equal_abscissas :
    new realLibm [1, 1, 2] [0, 1, 2] 1
      = Outcome.thrown ERRORS.TAU_IS_TOO_SMALL_OR_TOO_LARGE := by
  have ha : (fit_a realLibm 1 ((diffs ([1, 1, 2] : List ℝ)).map Dbl.ofExact)).any Dbl.isNaN
      = true :=
    fit_a_nan_of_zero realLibm 1 [1, 1, 2] one_pos realLibm_sinh_zero 0 (by simp) (by simp [hSpec])
  rw [new_checked realLibm [1, 1, 2] [0, 1, 2] 1 rfl one_pos (by simp) (by simp [diffs]), ha]
  simp

/-- C7 (the code departs from the claim): on the model fitted to the knots
`(0,1), (1,0), (2,0), (3,0)` with tension `1` and the sorted queries `0, 3`,
the second output of `eval_vector` is the value at `3` of the formula of
interval 1, because the cursor moves by one interval per query at most.  The
query `3` lies beyond `t_2 = 2`, in the last interval `2`, whose formula
gives `0` there; the value returned is not `0`. -/
theorem eval_vector_cursor_example :
    eval_vector realLibm exampleSpline [0, 3]
      = Outcome.ok [Dbl.fin 1, Dbl.fin (splineSpec realLibm 1 [0, 1, 2, 3] [1, 0, 0, 0] 3 1 3)] ∧
    eval_spline realLibm exampleSpline 3 2 = Outcome.ok (Dbl.fin 0) ∧
    splineSpec realLibm 1 [0, 1, 2, 3] [1, 0, 0, 0] 3 1 3 ≠ 0 :=
  ⟨example_eval_pair, example_last_interval, example_interval1_at_3⟩

/-- C9: when `eval_vector` returns a sequence, it has as many elements as the
query sequence. -/
theorem eval_vector_output_length (lm : Libm ℝ) (s : TensionSpline ℝ) (q : List ℝ)
    (out : List (Dbl ℝ)) (h : eval_vector lm s q = Outcome.ok out) :
    out.length = q.length :=
  eval_vector_length lm s q out h

/-- Witness of C9: the example model evaluated on the queries `0, 3`. -/
theorem eval_vector_output_length_witness :
    eval_vector realLibm exampleSpline [0, 3]
      = Outcome.ok [Dbl.fin 1, Dbl.fin (splineSpec realLibm 1 [0, 1, 2, 3] [1, 0, 0, 0] 3 1 3)] ∧
    ([Dbl.fin 1, Dbl.fin (splineSpec realLibm 1 [0, 1, 2, 3] [1, 0, 0, 0] 3 1 3)]
        : List (Dbl ℝ)).length = ([0, 3] : List ℝ).length :=
  ⟨example_eval_pair, eval_vector_output_length _ _ _ _ example_eval_pair⟩

/-- C10: every model returned by the constructor has its fitted flag set, and
`eval_vector` on it never throws `SPLINE_HAS_NOT_BEEN_FITTED`. -/
theorem constructed_model_fitted (lm : Libm ℝ) (t y : List ℝ) (tau : ℝ) (s : TensionSpline ℝ)
    (h : new lm t y tau = Outcome.ok s) :
    fitted s = true ∧
    ∀ q, eval_vector lm s q ≠ Outcome.thrown ERRORS.SPLINE_HAS_NOT_BEEN_FITTED := by
  have hf : s.is_fitted = true := (new_ok_inv lm t y tau s h).2.2.2.2.2.2.2.2.2.2
  exact ⟨hf, fun q => eval_vector_not_fitted lm s q hf⟩

/-- Witness of C10: the knots `(0,1), (1,0), (2,0), (3,0)` with tension `1`. -/
theorem constructed_model_fitted_witness :
    new realLibm [0, 1, 2, 3] [1, 0, 0, 0] 1 = Outcome.ok exampleSpline ∧
    fitted exampleSpline = true ∧
    ∀ q, eval_vector realLibm exampleSpline q
      ≠ Outcome.thrown ERRORS.SPLINE_HAS_NOT_BEEN_FITTED :=
  ⟨new_example, constructed_model_fitted _ _ _ _ _ new_example⟩

/-- C12: the two copies of the algorithm are not equivalent.  On the valid input
`t = (0, 1, 3)`, `y = (0, 1, 3)`, `tau = 1` and the sorted queries `0, 1/2`, the
first copy returns `(0, 1/2)`; the second copy, which does not divide `g_i` by
`h_i`, returns another value at `1/2`, its storage being read as zero where it
is not initialised. -/
theorem copies_not_equivalent :
    ValidInput [0, 1, 3] [0, 1, 3] (1 : ℝ) ∧ NonDecreasing ([0, 1 / 2] : List ℝ) ∧
    ∃ (s1 : TensionSpline ℝ) (s2 : SrcSpline ℝ) (v : ℝ),
      new realLibm [0, 1, 3] [0, 1, 3] 1 = Outcome.ok s1 ∧
      Src.new (zeroFresh ℝ) realLibm [0, 1, 3] [0, 1, 3] 1 = Outcome.ok s2 ∧
      eval_vector realLibm s1 [0, 1 / 2] = Outcome.ok [Dbl.fin 0, Dbl.fin (1 / 2)] ∧
      Src.eval_vector realLibm s2 [0, 1 / 2] = Outcome.ok [Dbl.fin 0, Dbl.fin v] ∧
      v ≠ 1 / 2 := by
  refine ⟨copies_valid, ?_, _, _, _, copies_include_new, copies_src_new,
    copies_include_eval, copies_src_value, copies_src_value_ne⟩
  unfold NonDecreasing
  norm_num

/-- C13 (the code departs from the claim): on an empty query sequence
`eval_vector` does not throw `std::invalid_argument`.  There is no test of the
size: `n` is `-1` and `t.tail(n)`, `t.head(n)` are taken with a negative size,
outside the precondition of Eigen, whatever the object and the library are. -/
theorem eval_vector_empty (lm : Libm ℝ) (s : TensionSpline ℝ) :
    eval_vector lm s [] = Outcome.undefined := by
  unfold eval_vector
  simp

/-- C16: on a constructed object (at least three knots) and for every query
sequence, the cursor of the loop of `eval_vector` starts at `0`, never
decreases, grows by at most one per query and stays at most `n-1`; every
coefficient that `eval_spline` reads is in range, and the loop never reads out
of range. -/
theorem cursor_in_bounds (lm : Libm ℝ) (t y : List ℝ) (tau : ℝ) (s : TensionSpline ℝ)
    (h : new lm t y tau = Outcome.ok s) (q : List ℝ) :
    3 ≤ s.t.length ∧
    List.Chain (fun a b => a ≤ b ∧ b ≤ a + 1) 0 (cursors s 0 q) ∧
    (∀ i ∈ cursors s 0 q, i ≤ s.t.length - 2 ∧ i < s.h.length ∧ i + 1 < s.t.length
      ∧ i + 1 < s.y.length ∧ i + 1 < s.z.length) ∧
    eval_loop lm s 0 q ≠ Outcome.undefined := by
  obtain ⟨h3, hh, hy, hz⟩ := new_ok_sizes lm t y tau s h
  refine ⟨h3, cursors_chain s q 0, ?_, eval_loop_ne_undefined lm s hh hy hz q 0 (by omega)⟩
  intro i hi
  have := cursors_in_range s q 0 (by omega) i hi
  omega

/-- Witness of C16: the example model and the queries `0, 3`. -/
theorem cursor_in_bounds_witness :
    new realLibm [0, 1, 2, 3] [1, 0, 0, 0] 1 = Outcome.ok exampleSpline ∧
    (3 ≤ exampleSpline.t.length ∧
    List.Chain (fun a b => a ≤ b ∧ b ≤ a + 1) 0 (cursors exampleSpline 0 [0, 3]) ∧
    (∀ i ∈ cursors exampleSpline 0 [0, 3], i ≤ exampleSpline.t.length - 2
      ∧ i < exampleSpline.h.length ∧ i + 1 < exampleSpline.t.length
      ∧ i + 1 < exampleSpline.y.length ∧ i + 1 < exampleSpline.z.length) ∧
    eval_loop realLibm exampleSpline 0 [0, 3] ≠ Outcome.undefined) :=
  ⟨new_example, cursor_in_bounds realLibm _ _ _ _ new_example [0, 3]⟩

/-- C8: on a constructed model and at least two queries, whatever the library
is, `eval_vector` throws `T_MUST_BE_STRICTLY_INCREASING` exactly when some
query is smaller than the one before it; a non-decreasing sequence, repeated
queries included, passes the test of the order, and the result of the call is
the result of the loop over the queries. -/
theorem eval_vector_rejects_unsorted (lm : Libm ℝ) (t y : List ℝ) (tau : ℝ)
    (s : TensionSpline ℝ) (h : new lm t y tau = Outcome.ok s) (q : List ℝ)
    (hq : 2 ≤ q.length) :
    (eval_vector lm s q = Outcome.thrown ERRORS.T_MUST_BE_STRICTLY_INCREASING
      ↔ ∃ j, ∃ (_ : j + 1 < q.length), q[j + 1] < q[j]) ∧
    (NonDecreasing q →
      eval_vector lm s q ≠ Outcome.thrown ERRORS.T_MUST_BE_STRICTLY_INCREASING ∧
      eval_vector lm s q = eval_loop lm s 0 q) := by
  have hf : s.is_fitted = true := (new_ok_inv lm t y tau s h).2.2.2.2.2.2.2.2.2.2
  have hiff := eval_vector_thrown_iff lm s q hq hf
  refine ⟨by rw [hiff, exists_diffs_neg_iff], ?_⟩
  intro hnd
  rw [nonDecreasing_iff] at hnd
  have h1 : ¬ ∃ d ∈ diffs q, d < 0 := by
    rintro ⟨d, hd, hd0⟩
    obtain ⟨i, hi, rfl⟩ := mem_diffs q d hd
    exact absurd (hnd i hi) (not_le.2 hd0)
  refine ⟨fun hc => h1 (hiff.1 hc), ?_⟩
  rw [eval_vector_eq lm s q hq, if_neg h1, if_neg (by rw [hf]; decide)]

/-- Witness of C8: the example model and the two equal queries `0, 0`. -/
theorem eval_vector_rejects_unsorted_witness :
    new realLibm [0, 1, 2, 3] [1, 0, 0, 0] 1 = Outcome.ok exampleSpline ∧
    2 ≤ ([0, 0] : List ℝ).length ∧
    ((eval_vector realLibm exampleSpline [0, 0]
        = Outcome.thrown ERRORS.T_MUST_BE_STRICTLY_INCREASING
      ↔ ∃ j, ∃ (_ : j + 1 < ([0, 0] : List ℝ).length),
          ([0, 0] : List ℝ)[j + 1] < ([0, 0] : List ℝ)[j]) ∧
    (NonDecreasing ([0, 0] : List ℝ) →
      eval_vector realLibm exampleSpline [0, 0]
        ≠ Outcome.thrown ERRORS.T_MUST_BE_STRICTLY_INCREASING ∧
      eval_vector realLibm exampleSpline [0, 0] = eval_loop realLibm exampleSpline 0 [0, 0])) :=
  ⟨new_example, le_refl 2,
    eval_vector_rejects_unsorted realLibm _ _ _ _ new_example [0, 0] (le_refl 2)⟩

/-- C11: degeneracy boundary.  On the knots `1, 2, 3, 4, 5` and for every
ordinate vector of length 5, the constructor throws
`TAU_IS_TOO_SMALL_OR_TOO_LARGE` with the tension `1000`: `sinh(1000)` and
`cosh(1000)` overflow, `b_` holds `inf / inf = NaN` and the guard fires.  With
the tension `1` the constructor returns an object whose fitted flag is set. -/
theorem degeneracy_boundary (y : List ℝ) (hy : y.length = 5) :
    new realLibm [1, 2, 3, 4, 5] y 1000
      = Outcome.thrown ERRORS.TAU_IS_TOO_SMALL_OR_TOO_LARGE ∧
    ∃ s, new realLibm [1, 2, 3, 4, 5] y 1 = Outcome.ok s ∧ fitted s = true :=
  ⟨new_unit_1000 y hy, new_unit_one y hy⟩

/-- Witness of C11: the ordinates `1, 4, 9, 16, 25`. -/
theorem degeneracy_boundary_witness :
    ([1, 4, 9, 16, 25] : List ℝ).length = 5 ∧
    new realLibm [1, 2, 3, 4, 5] [1, 4, 9, 16, 25] 1000
      = Outcome.thrown ERRORS.TAU_IS_TOO_SMALL_OR_TOO_LARGE ∧
    ∃ s, new realLibm [1, 2, 3, 4, 5] [1, 4, 9, 16, 25] 1 = Outcome.ok s ∧ fitted s = true :=
  ⟨rfl, degeneracy_boundary [1, 4, 9, 16, 25] rfl⟩

end Claims

end TensionSpline
